import Mathlib

/-!
# Recovery-pass sequencing of bcachefs (`fs/bcachefs/recovery_passes.c`)

A shallow embedding of the recovery-pass orchestrator: the selection policy
`should_run_recovery_pass`, the rewind request
`__bch2_run_explicit_recovery_pass`, and the main loop
`bch2_run_recovery_passes`, followed by theorems about them.

Conventions of the embedding.
* `u64` values are natural numbers; an operation that can leave the 64-bit
  range is reduced `% 2 ^ 64` (`BIT_ULL`, `not_u64`, `shl_u64`).
* The x-macro `BCH_RECOVERY_PASSES()`, the `PASS_*` masks, the feature and
  flag bit numbers and the error codes come from headers that are not part
  of the translated sources.  They are collected in the structure `Decls`
  and every definition takes them as a parameter.
* The pass functions `p->fn` are external; what a call does to the recovery
  context is given by an explicit description of the call (`pass_exec`).
-/

namespace RecoveryPasses

/-! ## Declarations taken from headers -/

/-- One `x(_fn, _id, _when)` entry of `BCH_RECOVERY_PASSES()`: the stable id
and the `when` mask of a pass (the function itself is external). -/
structure pass_entry where
  id : Nat
  when : Nat
  deriving DecidableEq, Repr

/-- The constants the translated file takes from its headers. -/
structure Decls where
  /-- the expansion of `BCH_RECOVERY_PASSES()`, in table order -/
  BCH_RECOVERY_PASSES : List pass_entry
  PASS_SILENT : Nat
  PASS_FSCK : Nat
  PASS_UNCLEAN : Nat
  PASS_ALWAYS : Nat
  PASS_ONLINE : Nat
  PASS_ALLOC : Nat
  /-- ordinal of the pass `set_may_go_rw` -/
  BCH_RECOVERY_PASS_set_may_go_rw : Nat
  /-- bit number of the feature `no_alloc_info` in `sb.features` -/
  BCH_FEATURE_no_alloc_info : Nat
  /-- bit number of `BCH_FS_may_go_rw` in `c->flags` -/
  BCH_FS_may_go_rw : Nat
  /-- bit number of `BCH_FS_error` in `c->flags` -/
  BCH_FS_error : Nat
  BCH_ERR_not_in_recovery : Nat
  BCH_ERR_cannot_rewind_recovery : Nat
  BCH_ERR_restart_recovery : Nat
  deriving Repr

/-- The struct `recovery_pass_fn` without its function pointer. -/
structure recovery_pass_fn where
  when : Nat
  deriving DecidableEq, Repr

/-- The table `recovery_pass_fns[]`: `x(_fn, _id, _when)` expands to
`{ .fn = bch2_##_fn, .when = _when }`. -/
def recovery_pass_fns (d : Decls) : List recovery_pass_fn :=
  d.BCH_RECOVERY_PASSES.map fun e => { when := e.when }

/-- The table `passes_to_stable_map[]`: entry `n` holds the stable id of the
pass of ordinal `n`. -/
def passes_to_stable_map (d : Decls) : List Nat :=
  d.BCH_RECOVERY_PASSES.map fun e => e.id

/-- The value `ARRAY_SIZE(recovery_pass_fns)`, the number of passes. -/
def ARRAY_SIZE_recovery_pass_fns (d : Decls) : Nat :=
  (recovery_pass_fns d).length

/-- What the sources rely on without checking it: the ordinals fit the
64-bit bitmaps, `set_may_go_rw` is one of the passes, the feature bit fits
`sb.features`, and the two flags of `c->flags` are different bits. -/
def Decls.wf (d : Decls) : Prop :=
  ARRAY_SIZE_recovery_pass_fns d ≤ 64 ∧
  d.BCH_RECOVERY_PASS_set_may_go_rw < ARRAY_SIZE_recovery_pass_fns d ∧
  d.BCH_FEATURE_no_alloc_info < 64 ∧
  d.BCH_FS_may_go_rw ≠ d.BCH_FS_error

instance (d : Decls) : Decidable d.wf := by
  unfold Decls.wf; infer_instance

/-! ## Machine integers -/

/-- The macro `BIT_ULL(n)`, that is `1ULL << n`. -/
def BIT_ULL (n : Nat) : Nat := (1 <<< n) % 2 ^ 64

/-- The operator `~` on a `u64`. -/
def not_u64 (x : Nat) : Nat := 2 ^ 64 - 1 - x % 2 ^ 64

/-- The operator `<<` on a `u64`. -/
def shl_u64 (x n : Nat) : Nat := (x <<< n) % 2 ^ 64

/-- The constant `~0ULL`. -/
def ALL_ONES_ULL : Nat := 2 ^ 64 - 1

/-! ## The filesystem object -/

/-- The fields of `struct bch_fs` that the translated file reads or writes.
`recovery_passes_required` is the bitmap `ext->recovery_passes_required` of
the superblock, indexed by stable id. -/
structure bch_fs where
  curr_recovery_pass : Nat
  next_recovery_pass : Nat
  recovery_passes_complete : Nat
  recovery_pass_done : Nat
  opts_recovery_passes : Nat
  opts_recovery_passes_exclude : Nat
  opts_recovery_pass_last : Nat
  opts_fsck : Bool
  opts_read_only : Bool
  sb_clean : Bool
  sb_features : Nat
  flags : Nat
  journal_keys_nr : Nat
  recovery_passes_required : Nat
  deriving DecidableEq, Repr

/-! ## Selection policy -/

/-- The `when` mask of `recovery_pass_fns + pass`. -/
def when_of (d : Decls) (pass : Nat) : Nat :=
  ((recovery_pass_fns d).getD pass { when := 0 }).when

/-- The function `should_run_recovery_pass` (lines 248-265). -/
def should_run_recovery_pass (d : Decls) (c : bch_fs) (pass : Nat) : Bool :=
  let when := when_of d pass
  if (when &&& d.PASS_ALLOC) ≠ 0 ∧
      (c.sb_features &&& BIT_ULL d.BCH_FEATURE_no_alloc_info) ≠ 0 then
    false
  else if (c.opts_recovery_passes_exclude &&& BIT_ULL pass) ≠ 0 then
    false
  else if (c.opts_recovery_passes &&& BIT_ULL pass) ≠ 0 then
    true
  else if (when &&& d.PASS_FSCK) ≠ 0 ∧ c.opts_fsck then
    true
  else if (when &&& d.PASS_UNCLEAN) ≠ 0 ∧ ¬ c.sb_clean then
    true
  else if (when &&& d.PASS_ALWAYS) ≠ 0 then
    true
  else
    false

/-! ## Stable identifiers and the persisted required-set -/

/-- The function `bch2_recovery_pass_to_stable` (lines 96-99). -/
def bch2_recovery_pass_to_stable (d : Decls) (pass : Nat) : Nat :=
  (passes_to_stable_map d).getD pass 0

/-- What the file makes observable besides the fields of `bch_fs`. -/
inductive event where
  /-- the line "%s..." printed before a pass that is not silent -/
  | print_pass (pass : Nat)
  /-- the call `p->fn(c)` of the pass of this ordinal -/
  | pass_fn (pass : Nat)
  /-- the suffix " done" -/
  | print_done
  | journal_flush
  | write_super
  | reconstruct_alloc
  | fs_read_write_early
  deriving DecidableEq, Repr

/-- The helper `test_bit_le64` on the bitmap of the superblock. -/
def test_bit_le64 (bit bitmap : Nat) : Bool := bitmap.testBit bit

/-- The helper `__clear_bit_le64` on the bitmap of the superblock. -/
def __clear_bit_le64 (bit bitmap : Nat) : Nat :=
  if bitmap.testBit bit then bitmap ^^^ 2 ^ bit else bitmap

/-- The function `bch2_clear_recovery_pass_required` (lines 223-236):
the bit of the stable id is cleared, and the superblock written, when the
bit was set. -/
def bch2_clear_recovery_pass_required (d : Decls) (c : bch_fs) (pass : Nat) :
    bch_fs × List event :=
  let s := bch2_recovery_pass_to_stable d pass
  if test_bit_le64 s c.recovery_passes_required then
    ({ c with recovery_passes_required := __clear_bit_le64 s c.recovery_passes_required },
      [event.write_super])
  else
    (c, [])

/-! ## Rewind requests -/

/-- A line that `__bch2_run_explicit_recovery_pass` formats into its
buffer; the pass names are `bch2_recovery_passes[]` at the ordinals. -/
inductive log_line where
  /-- the line "need recovery pass %s (%u), but already rw" -/
  | need_pass_but_already_rw (pass : Nat)
  /-- the line "running explicit recovery pass %s (%u), currently at %s (%u)" -/
  | running_explicit_pass (pass curr : Nat)
  deriving DecidableEq, Repr

/-- The text accumulated in a `struct printbuf`. -/
abbrev printbuf := List log_line

/-- The function `__bch2_run_explicit_recovery_pass` (lines 128-162). -/
def __bch2_run_explicit_recovery_pass (d : Decls) (out : printbuf) (c : bch_fs)
    (pass : Nat) : Int × printbuf × bch_fs :=
  if c.curr_recovery_pass = ARRAY_SIZE_recovery_pass_fns d then
    (-(d.BCH_ERR_not_in_recovery : Int), out, c)
  else if (c.recovery_passes_complete &&& BIT_ULL pass) ≠ 0 then
    (0, out, c)
  else
    let print : Bool := (c.opts_recovery_passes &&& BIT_ULL pass) = 0
    if pass < d.BCH_RECOVERY_PASS_set_may_go_rw ∧
        c.curr_recovery_pass ≥ d.BCH_RECOVERY_PASS_set_may_go_rw then
      (-(d.BCH_ERR_cannot_rewind_recovery : Int),
        if print then out ++ [log_line.need_pass_but_already_rw pass] else out, c)
    else
      let out1 :=
        if print then out ++ [log_line.running_explicit_pass pass c.curr_recovery_pass]
        else out
      let c1 := { c with opts_recovery_passes := c.opts_recovery_passes ||| BIT_ULL pass }
      if c1.curr_recovery_pass > pass then
        (-(d.BCH_ERR_restart_recovery : Int), out1,
          { c1 with
            next_recovery_pass := pass
            recovery_passes_complete :=
              c1.recovery_passes_complete &&& (shl_u64 1 pass >>> 1) })
      else
        (0, out1, c1)

/-- The function `bch2_run_explicit_recovery_pass` (lines 164-193) with
`bch2_run_explicit_recovery_pass_printbuf` inlined: the request is served
under `recovery_pass_lock` with a fresh buffer; the second component is
what the request prints. -/
def bch2_run_explicit_recovery_pass (d : Decls) (c : bch_fs) (pass : Nat) :
    Int × printbuf × bch_fs :=
  __bch2_run_explicit_recovery_pass d [] c pass

/-- The context after a rewind request. -/
def rewind (d : Decls) (c : bch_fs) (pass : Nat) : bch_fs :=
  (bch2_run_explicit_recovery_pass d c pass).2.2

/-- The context after a sequence of rewind requests, served in this order. -/
def rewinds (d : Decls) (c : bch_fs) (passes : List Nat) : bch_fs :=
  passes.foldl (rewind d) c

/-! ## Running one pass -/

/-- What the environment contributes to one executed pass: the rewind
requests served while `recovery_pass_lock` is released for the pass (made by
the pass itself or by other threads), the value the pass function returns,
whether `BCH_FS_error` gets set meanwhile, and the value the following
`bch2_journal_flush` returns.  For the pass `set_may_go_rw`, whose function
is in the translated file, `fn_ret` is the value of the external call
`bch2_fs_read_write_early`. -/
structure pass_exec where
  rewinds : List Nat
  fn_ret : Int
  sets_error : Bool
  flush_ret : Int
  deriving DecidableEq, Repr

/-- The function `bch2_set_may_go_rw` (lines 36-62); `rw_early` is the value
of `bch2_fs_read_write_early`.  The calls `move_gap`, `bch2_reconstruct_alloc`
and `bch2_fs_read_write_early` are external and only recorded. -/
def bch2_set_may_go_rw (d : Decls) (c : bch_fs) (rw_early : Int) :
    Int × bch_fs × List event :=
  let c1 := { c with flags := c.flags ||| 2 ^ d.BCH_FS_may_go_rw }
  let no_alloc : Bool := (c1.sb_features &&& BIT_ULL d.BCH_FEATURE_no_alloc_info) ≠ 0
  if c1.journal_keys_nr ≠ 0 ∨ ¬ c1.opts_read_only ∨ ¬ c1.sb_clean ∨
      c1.opts_recovery_passes ≠ 0 ∨ (c1.opts_fsck ∧ ¬ no_alloc) then
    (rw_early, c1,
      (if no_alloc then [event.reconstruct_alloc] else []) ++ [event.fs_read_write_early])
  else
    (0, c1, [])

/-- The call `p->fn(c)`: the pass of ordinal `BCH_RECOVERY_PASS_set_may_go_rw`
is `bch2_set_may_go_rw`, every other pass function is external. -/
def call_fn (d : Decls) (c : bch_fs) (pass : Nat) (e : pass_exec) :
    Int × bch_fs × List event :=
  let c1 := if e.sets_error then { c with flags := c.flags ||| 2 ^ d.BCH_FS_error } else c
  if pass = d.BCH_RECOVERY_PASS_set_may_go_rw then
    bch2_set_may_go_rw d c1 e.fn_ret
  else
    (e.fn_ret, c1, [])

/-- The function `bch2_run_recovery_pass` (lines 267-282). -/
def bch2_run_recovery_pass (d : Decls) (c : bch_fs) (pass : Nat) (e : pass_exec) :
    Int × bch_fs × List event :=
  let silent : Bool := (when_of d pass &&& d.PASS_SILENT) ≠ 0
  let r := call_fn d c pass e
  let called := (if silent then [] else [event.print_pass pass]) ++
    [event.pass_fn pass] ++ r.2.2
  if r.1 ≠ 0 then
    (r.1, r.2.1, called)
  else
    (0, r.2.1, called ++ (if silent then [] else [event.print_done]))

/-! ## The main loop -/

/-- Line 315: the tentative next step. -/
def iter_arm (c : bch_fs) : bch_fs :=
  { c with next_recovery_pass := c.curr_recovery_pass + 1 }

/-- How the locked region of lines 317-332 ends. -/
inductive decision where
  /-- the `break` of line 323: the cursor is past `recovery_pass_last` -/
  | stop
  /-- the `continue` of line 330: the pass is not selected, the context is advanced -/
  | skip (c : bch_fs)
  /-- the pass of this ordinal is run -/
  | run (pass : Nat)
  deriving DecidableEq, Repr

/-- Lines 317-332, under `recovery_pass_lock`. -/
def iter_decide (d : Decls) (c : bch_fs) : decision :=
  let pass := c.curr_recovery_pass
  if c.opts_recovery_pass_last ≠ 0 ∧ c.curr_recovery_pass > c.opts_recovery_pass_last then
    decision.stop
  else if ¬ should_run_recovery_pass d c pass then
    decision.skip { c with
      curr_recovery_pass := c.curr_recovery_pass + 1
      recovery_pass_done := max c.recovery_pass_done pass }
  else
    decision.run pass

/-- Lines 334-338: the pass, the journal flush when the pass succeeded, and
the clearing of the persisted requirement when both succeeded and
`BCH_FS_error` is not set. -/
def run_and_flush (d : Decls) (c : bch_fs) (pass : Nat) (e : pass_exec) :
    Int × bch_fs × List event :=
  let r := bch2_run_recovery_pass d c pass e
  let ret : Int := if r.1 ≠ 0 then r.1 else e.flush_ret
  let ev := if r.1 ≠ 0 then r.2.2 else r.2.2 ++ [event.journal_flush]
  if ret = 0 ∧ ¬ r.2.1.flags.testBit d.BCH_FS_error then
    let k := bch2_clear_recovery_pass_required d r.2.1 pass
    (ret, k.1, ev ++ k.2)
  else
    (ret, r.2.1, ev)

/-- Lines 340-355, under `recovery_pass_lock`: the bookkeeping after the
pass `pass` returned with status `ret`. -/
def post_pass (c : bch_fs) (pass : Nat) (ret : Int) : Int × bch_fs :=
  if c.next_recovery_pass < c.curr_recovery_pass then
    (0, { c with
      recovery_passes_complete :=
        c.recovery_passes_complete &&& not_u64 (shl_u64 ALL_ONES_ULL c.curr_recovery_pass)
      curr_recovery_pass := c.next_recovery_pass })
  else
    (ret, { c with
      recovery_passes_complete := c.recovery_passes_complete ||| BIT_ULL pass
      recovery_pass_done := max c.recovery_pass_done pass
      curr_recovery_pass := c.next_recovery_pass })

/-- Lines 334-355 for one executed pass, the rewind requests of `e` apart. -/
def finish_pass (d : Decls) (c : bch_fs) (pass : Nat) (e : pass_exec) :
    Int × bch_fs × List event :=
  let r := run_and_flush d c pass e
  let k := post_pass r.2.1 pass r.1
  (k.1, k.2, r.2.2)

/-- The loop of `bch2_run_recovery_passes` (lines 314-356).  Each executed
pass takes its description from `env`; the rewind requests of a pass are
served before its function's effects are recorded.  `none` when `fuel`
iterations or the descriptions in `env` do not suffice. -/
def recovery_passes_loop (d : Decls) :
    Nat → List pass_exec → bch_fs → Int → List event → Option (Int × bch_fs × List event)
  | fuel, env, c, ret, tr =>
    if c.curr_recovery_pass < ARRAY_SIZE_recovery_pass_fns d ∧ ret = 0 then
      match fuel with
      | 0 => none
      | fuel + 1 =>
        let c1 := iter_arm c
        match iter_decide d c1 with
        | decision.stop => some (ret, c1, tr)
        | decision.skip c2 => recovery_passes_loop d fuel env c2 ret tr
        | decision.run pass =>
          match env with
          | [] => none
          | e :: env1 =>
            let r := finish_pass d (rewinds d c1 e.rewinds) pass e
            recovery_passes_loop d fuel env1 r.2.1 r.1 (tr ++ r.2.2)
    else
      some (ret, c, tr)

/-- The function `bch2_run_recovery_passes` (lines 304-359).  In line 312
the operand `BCH_RECOVERY_PASS_set_may_go_rw` is the enumeration constant
itself (an `int`), so the mask is the 64-bit complement of the ordinal. -/
def bch2_run_recovery_passes (d : Decls) (fuel : Nat) (env : List pass_exec) (c : bch_fs) :
    Option (Int × bch_fs × List event) :=
  recovery_passes_loop d fuel env
    { c with
      opts_recovery_passes_exclude :=
        c.opts_recovery_passes_exclude &&& not_u64 d.BCH_RECOVERY_PASS_set_may_go_rw }
    0 []

/-! ## The sequencer and the rewind requests as one transition system -/

/-- Where the thread of `bch2_run_recovery_passes` stands between two
regions protected by `recovery_pass_lock`. -/
inductive loc where
  /-- at the loop condition of line 314 -/
  | top
  /-- after line 315, before the lock of line 317 -/
  | armed
  /-- between lines 332 and 340: the pass of this ordinal is being run -/
  | running (pass : Nat)
  /-- the loop was left with this status -/
  | exited (ret : Int)
  deriving DecidableEq, Repr

/-- A state of the system: the shared context and the sequencer's position. -/
structure sys where
  c : bch_fs
  pc : loc
  deriving DecidableEq, Repr

/-- One step of the system: a step of the sequencer, or a rewind request
served under the lock at any moment. -/
inductive step (d : Decls) : sys → sys → Prop where
  | leave (c : bch_fs) :
      ¬ c.curr_recovery_pass < ARRAY_SIZE_recovery_pass_fns d →
      step d ⟨c, loc.top⟩ ⟨c, loc.exited 0⟩
  | arm (c : bch_fs) :
      c.curr_recovery_pass < ARRAY_SIZE_recovery_pass_fns d →
      step d ⟨c, loc.top⟩ ⟨iter_arm c, loc.armed⟩
  | stop (c : bch_fs) :
      iter_decide d c = decision.stop →
      step d ⟨c, loc.armed⟩ ⟨c, loc.exited 0⟩
  | skip (c c1 : bch_fs) :
      iter_decide d c = decision.skip c1 →
      step d ⟨c, loc.armed⟩ ⟨c1, loc.top⟩
  | start (c : bch_fs) (pass : Nat) :
      iter_decide d c = decision.run pass →
      step d ⟨c, loc.armed⟩ ⟨c, loc.running pass⟩
  | finish (c : bch_fs) (pass : Nat) (e : pass_exec) :
      step d ⟨c, loc.running pass⟩
        ⟨(finish_pass d c pass e).2.1,
          if (finish_pass d c pass e).1 = 0 then loc.top
          else loc.exited (finish_pass d c pass e).1⟩
  | request (c : bch_fs) (pc : loc) (pass : Nat) :
      step d ⟨c, pc⟩ ⟨rewind d c pass, pc⟩

/-- The context at mount start: the recovery fields are zero and
`BCH_FS_may_go_rw` is not set. -/
def bch_fs.fresh (d : Decls) (c : bch_fs) : Prop :=
  c.curr_recovery_pass = 0 ∧ c.next_recovery_pass = 0 ∧
  c.recovery_passes_complete = 0 ∧ c.recovery_pass_done = 0 ∧
  c.flags.testBit d.BCH_FS_may_go_rw = false

instance (d : Decls) (c : bch_fs) : Decidable (c.fresh d) := by
  unfold bch_fs.fresh; infer_instance

/-- The states the system reaches from a fresh context. -/
inductive reachable (d : Decls) : sys → Prop where
  | init (c : bch_fs) : c.fresh d → reachable d ⟨c, loc.top⟩
  | next (s t : sys) : reachable d s → step d s t → reachable d t

/-! ## The selection policy as the specification words it -/

/-- The pass of ordinal `p` has the capability flag `mask`. -/
def has_flag (d : Decls) (p mask : Nat) : Bool := (when_of d p &&& mask) ≠ 0

/-- The ordinal `p` is a member of the bitmap `set`. -/
def in_set (set p : Nat) : Bool := set.testBit p

/-- The filesystem declares allocation info absent. -/
def no_alloc_info (d : Decls) (c : bch_fs) : Bool :=
  c.sb_features.testBit d.BCH_FEATURE_no_alloc_info

/-- The priority chain of the specification (section 4.2), first match
decides. -/
def shouldRun_chain (d : Decls) (c : bch_fs) (p : Nat) : Bool :=
  if has_flag d p d.PASS_ALLOC ∧ no_alloc_info d c then false
  else if in_set c.opts_recovery_passes_exclude p then false
  else if in_set c.opts_recovery_passes p then true
  else if has_flag d p d.PASS_FSCK ∧ c.opts_fsck then true
  else if has_flag d p d.PASS_UNCLEAN ∧ ¬ c.sb_clean then true
  else if has_flag d p d.PASS_ALWAYS then true
  else false

/-! ## An example table -/

/-- A table of six passes: `A` (always), `B` (fsck), `C` (unclean),
`D` (alloc), `E` (online) and `set_may_go_rw` (always, silent), with
single-bit masks for the flags. -/
def example_decls : Decls :=
  { BCH_RECOVERY_PASSES := [⟨10, 8⟩, ⟨11, 2⟩, ⟨12, 4⟩, ⟨13, 32⟩, ⟨14, 16⟩, ⟨15, 9⟩]
    PASS_SILENT := 1
    PASS_FSCK := 2
    PASS_UNCLEAN := 4
    PASS_ALWAYS := 8
    PASS_ONLINE := 16
    PASS_ALLOC := 32
    BCH_RECOVERY_PASS_set_may_go_rw := 5
    BCH_FEATURE_no_alloc_info := 21
    BCH_FS_may_go_rw := 3
    BCH_FS_error := 7
    BCH_ERR_not_in_recovery := 2001
    BCH_ERR_cannot_rewind_recovery := 2002
    BCH_ERR_restart_recovery := 2003 }

/-- The all-zero context of a clean, read-only mount without options. -/
def example_fs : bch_fs :=
  { curr_recovery_pass := 0
    next_recovery_pass := 0
    recovery_passes_complete := 0
    recovery_pass_done := 0
    opts_recovery_passes := 0
    opts_recovery_passes_exclude := 0
    opts_recovery_pass_last := 0
    opts_fsck := false
    opts_read_only := true
    sb_clean := true
    sb_features := 0
    flags := 0
    journal_keys_nr := 0
    recovery_passes_required := 0 }

/-- A table of three passes with `set_may_go_rw` at ordinal 1: an fsck pass,
`set_may_go_rw` (always, silent) and an unclean pass. -/
def boundary_decls : Decls :=
  { example_decls with
    BCH_RECOVERY_PASSES := [⟨11, 2⟩, ⟨15, 9⟩, ⟨12, 4⟩]
    BCH_RECOVERY_PASS_set_may_go_rw := 1 }

/-- The context `example_fs` after the first iteration over
`boundary_decls`, which skips the pass of ordinal 0. -/
def boundary_fs : bch_fs :=
  { example_fs with curr_recovery_pass := 1, next_recovery_pass := 1 }

/-- A pass that succeeds, with a successful journal flush and no rewind. -/
def pass_ok : pass_exec :=
  { rewinds := [], fn_ret := 0, sets_error := false, flush_ret := 0 }

/-! ## The invariant of the transition system -/

/-- The invariant kept by every step from a fresh context: the flag
`BCH_FS_may_go_rw` is set only when the cursor has reached `set_may_go_rw`;
a running pass is the pass at the cursor; and once the cursor has reached
`set_may_go_rw`, the tentative next ordinal of the current iteration is not
below it. -/
def seq_inv (d : Decls) (s : sys) : Prop :=
  (s.c.flags.testBit d.BCH_FS_may_go_rw = true →
    d.BCH_RECOVERY_PASS_set_may_go_rw ≤ s.c.curr_recovery_pass) ∧
  (∀ p, s.pc = loc.running p → p = s.c.curr_recovery_pass) ∧
  (d.BCH_RECOVERY_PASS_set_may_go_rw ≤ s.c.curr_recovery_pass →
    (s.pc = loc.armed ∨ ∃ p, s.pc = loc.running p) →
    d.BCH_RECOVERY_PASS_set_may_go_rw ≤ s.c.next_recovery_pass)

/-! ## Persisted rewind requests -/

/-- The loop of lines 103-107 and of lines 118-122: every set bit `i` of `v`
below the size of the table `map` sets the bit `map[i]` of the result. -/
def translate_bits (map : List Nat) (v : Nat) : Nat :=
  (List.range map.length).foldl
    (fun ret i => if (v &&& BIT_ULL i) ≠ 0 then ret ||| BIT_ULL (map.getD i 0) else ret) 0

/-- The function `bch2_recovery_passes_to_stable` (lines 101-108). -/
def bch2_recovery_passes_to_stable (d : Decls) (v : Nat) : Nat :=
  translate_bits (passes_to_stable_map d) v

/-- The static table `map[]` of lines 112-116.  Its designated initializers
`[BCH_RECOVERY_PASS_STABLE_##n] = BCH_RECOVERY_PASS_##n` are applied in table
order to an array of zeros whose size is the largest stable id plus one. -/
def stable_to_passes_map (d : Decls) : List Nat :=
  let ids := passes_to_stable_map d
  let size := match ids with
    | [] => 0
    | _ :: _ => ids.foldl max 0 + 1
  (List.range ids.length).foldl (fun m n => m.set (ids.getD n 0) n) (List.replicate size 0)

/-- The function `bch2_recovery_passes_from_stable` (lines 110-123). -/
def bch2_recovery_passes_from_stable (d : Decls) (v : Nat) : Nat :=
  translate_bits (stable_to_passes_map d) v

/-- The number of set bits of a `u64`. -/
def popcount_u64 (v : Nat) : Nat :=
  ((Finset.range 64).filter fun i => v.testBit i = true).card

/-- What the declaration of the stable identifiers provides: they are
pairwise different and fit a 64-bit bitmap. -/
def Decls.stable_wf (d : Decls) : Prop :=
  (passes_to_stable_map d).Nodup ∧ ∀ id ∈ passes_to_stable_map d, id < 64

instance (d : Decls) : Decidable d.stable_wf := by
  unfold Decls.stable_wf; infer_instance

/-! ## More example data -/

/-- A table of three passes with `set_may_go_rw` first: `set_may_go_rw`
(always, silent), an fsck pass and an always-run pass. -/
def restart_decls : Decls :=
  { example_decls with
    BCH_RECOVERY_PASSES := [⟨15, 9⟩, ⟨11, 2⟩, ⟨10, 8⟩]
    BCH_RECOVERY_PASS_set_may_go_rw := 0 }

/-- A pass that fails with status -5 while a rewind request to ordinal 1 is
served. -/
def pass_fails_with_rewind : pass_exec :=
  { rewinds := [1], fn_ret := -5, sets_error := false, flush_ret := 0 }

/-- A pass that fails with status -5, without rewind request. -/
def pass_fails : pass_exec :=
  { rewinds := [], fn_ret := -5, sets_error := false, flush_ret := 0 }

/-- Whether an event is the call of a pass function. -/
def event.is_pass_fn : event → Bool
  | event.pass_fn _ => true
  | _ => false

/-! ## The online runner -/

/-- The loop of `bch2_run_online_recovery_passes` (lines 286-299) from the
index `i`.  The parameter `err_matches_restart` is the test
`bch2_err_matches(ret, BCH_ERR_restart_recovery)`, whose definition is not
part of the translated sources.  A `continue` is followed by the increment
`i++` of the `for` statement, also after the assignment of line 294.  Each
called pass takes its description from `env`; `none` when `fuel` iterations
or the descriptions in `env` do not suffice. -/
def online_passes_loop (d : Decls) (err_matches_restart : Int → Bool) :
    Nat → List pass_exec → Nat → bch_fs → List event → Option (Int × bch_fs × List event)
  | fuel, env, i, c, tr =>
    if i < ARRAY_SIZE_recovery_pass_fns d then
      match fuel with
      | 0 => none
      | fuel + 1 =>
        if (when_of d i &&& d.PASS_ONLINE) = 0 then
          online_passes_loop d err_matches_restart fuel env (i + 1) c tr
        else
          match env with
          | [] => none
          | e :: env1 =>
            let r := bch2_run_recovery_pass d (rewinds d c e.rewinds) i e
            if err_matches_restart r.1 then
              online_passes_loop d err_matches_restart fuel env1
                (r.2.1.curr_recovery_pass + 1) r.2.1 (tr ++ r.2.2)
            else if r.1 ≠ 0 then
              some (r.1, r.2.1, tr ++ r.2.2)
            else
              online_passes_loop d err_matches_restart fuel env1 (i + 1) r.2.1 (tr ++ r.2.2)
    else
      some (0, c, tr)

/-- The function `bch2_run_online_recovery_passes` (lines 284-302). -/
def bch2_run_online_recovery_passes (d : Decls) (err_matches_restart : Int → Bool)
    (fuel : Nat) (env : List pass_exec) (c : bch_fs) : Option (Int × bch_fs × List event) :=
  online_passes_loop d err_matches_restart fuel env 0 c []

/-- The ordinals of the passes flagged `PASS_ONLINE`, in increasing order. -/
def online_ordinals (d : Decls) : List Nat :=
  (List.range (ARRAY_SIZE_recovery_pass_fns d)).filter
    fun p => (when_of d p &&& d.PASS_ONLINE) ≠ 0

/-- The online runner as the specification words it: the given ordinals are
taken in order, each pass is called once, and the first nonzero status ends
the run and is returned; 0 is returned when there is none. -/
def online_runner_spec (d : Decls) :
    List Nat → List pass_exec → bch_fs → List event → Option (Int × bch_fs × List event)
  | [], _, c, tr => some (0, c, tr)
  | _ :: _, [], _, _ => none
  | p :: ps, e :: env, c, tr =>
    let r := bch2_run_recovery_pass d (rewinds d c e.rewinds) p e
    if r.1 ≠ 0 then some (r.1, r.2.1, tr ++ r.2.2)
    else online_runner_spec d ps env r.2.1 (tr ++ r.2.2)

/-! ## Conditions on runs and on the declarations -/

/-- A clean mount without options: clean superblock, fsck not requested,
allocation info present, empty include and exclude sets, no
`recovery_pass_last`. -/
def bch_fs.quiet (d : Decls) (c : bch_fs) : Prop :=
  c.sb_clean = true ∧ c.opts_fsck = false ∧
  c.sb_features.testBit d.BCH_FEATURE_no_alloc_info = false ∧
  c.opts_recovery_passes = 0 ∧ c.opts_recovery_passes_exclude = 0 ∧
  c.opts_recovery_pass_last = 0

instance (d : Decls) (c : bch_fs) : Decidable (c.quiet d) := by
  unfold bch_fs.quiet; infer_instance

/-- A pass that succeeds, followed by a successful journal flush, with no
rewind request served meanwhile. -/
def pass_exec.succeeds (e : pass_exec) : Prop :=
  e.rewinds = [] ∧ e.fn_ret = 0 ∧ e.flush_ret = 0

instance (e : pass_exec) : Decidable e.succeeds := by
  unfold pass_exec.succeeds; infer_instance

/-- The error code of the restart signal is not 0 and differs from the two
codes with which a rewind request is refused. -/
def Decls.err_wf (d : Decls) : Prop :=
  d.BCH_ERR_restart_recovery ≠ 0 ∧
  d.BCH_ERR_restart_recovery ≠ d.BCH_ERR_not_in_recovery ∧
  d.BCH_ERR_restart_recovery ≠ d.BCH_ERR_cannot_rewind_recovery

instance (d : Decls) : Decidable d.err_wf := by
  unfold Decls.err_wf; infer_instance

/-- Bounds kept by every step of the system: the cursor stays within the
table, a running pass is the pass at the cursor, and during an iteration the
cursor is a valid ordinal and the next ordinal is at most the number of
passes. -/
def bound_inv (d : Decls) (s : sys) : Prop :=
  s.c.curr_recovery_pass ≤ ARRAY_SIZE_recovery_pass_fns d ∧
  (∀ p, s.pc = loc.running p → p = s.c.curr_recovery_pass) ∧
  ((s.pc = loc.armed ∨ ∃ p, s.pc = loc.running p) →
    s.c.curr_recovery_pass < ARRAY_SIZE_recovery_pass_fns d ∧
    s.c.next_recovery_pass ≤ ARRAY_SIZE_recovery_pass_fns d)

/-! ## The scenario of the specification and an online table -/

/-- The scenario table `A` (always), `B` (fsck), `C` (unclean), `D` (alloc),
`E` (online) of the specification; it has no pass `set_may_go_rw`, whose
ordinal is left outside the table. -/
def scenario_decls : Decls :=
  { example_decls with
    BCH_RECOVERY_PASSES := [⟨10, 8⟩, ⟨11, 2⟩, ⟨12, 4⟩, ⟨13, 32⟩, ⟨14, 16⟩] }

/-- A table of `set_may_go_rw` (always, silent) and three online passes. -/
def online_decls : Decls :=
  { example_decls with
    BCH_RECOVERY_PASSES := [⟨15, 9⟩, ⟨14, 16⟩, ⟨16, 16⟩, ⟨17, 16⟩]
    BCH_RECOVERY_PASS_set_may_go_rw := 0 }

/-- The context in which a run over `online_decls` with `recovery_pass_last`
1 ends: the pass 0 completed, the pass 1 skipped, the cursor at 2. -/
def online_fs : bch_fs :=
  { example_fs with
    opts_recovery_pass_last := 1
    curr_recovery_pass := 2
    next_recovery_pass := 3
    recovery_passes_complete := 1
    recovery_pass_done := 1
    flags := 8 }

/-- A pass that returns -2003, the restart signal of the example tables,
after its rewind request to ordinal 1. -/
def pass_restarts : pass_exec :=
  { rewinds := [1], fn_ret := -2003, sets_error := false, flush_ret := 0 }

/-- The test for the restart signal of the example tables. -/
def example_matches_restart (ret : Int) : Bool := ret = -2003

/-- The context over `restart_decls` after the pass 0 completed and the pass
1 was skipped: the cursor at 2. -/
def restart_fs : bch_fs :=
  { example_fs with
    curr_recovery_pass := 2
    next_recovery_pass := 2
    recovery_passes_complete := 1
    recovery_pass_done := 1 }

/-! ## The fsck bitmap, and specification-level readings -/

/-- The function `bch2_fsck_recovery_passes` (lines 238-246). -/
def bch2_fsck_recovery_passes (d : Decls) : Nat :=
  (List.range (ARRAY_SIZE_recovery_pass_fns d)).foldl
    (fun ret i => if (when_of d i &&& d.PASS_FSCK) ≠ 0 then ret ||| BIT_ULL i else ret) 0

/-- The result of a rewind request as the specification words it: decided
by the cursor, the completed set and the target, in this order. -/
def rewind_result_spec (d : Decls) (curr complete t : Nat) : Int :=
  if curr = ARRAY_SIZE_recovery_pass_fns d then -(d.BCH_ERR_not_in_recovery : Int)
  else if in_set complete t then 0
  else if t < d.BCH_RECOVERY_PASS_set_may_go_rw ∧ d.BCH_RECOVERY_PASS_set_may_go_rw ≤ curr then
    -(d.BCH_ERR_cannot_rewind_recovery : Int)
  else if t < curr then -(d.BCH_ERR_restart_recovery : Int)
  else 0

/-- The run of the sequencer as the specification words it, for a run
without rewind requests and without `recovery_pass_last`: the ordinals are
taken in order, a selected pass is invoked, and the first pass whose
function or journal flush fails ends the run with its status.  The result
is the status and the ordinals invoked; selection and status are read in
the context `c0`. -/
def sequencer_spec (d : Decls) (c0 : bch_fs) :
    List Nat → List pass_exec → Option (Int × List Nat)
  | [], _ => some (0, [])
  | p :: ps, env =>
    if should_run_recovery_pass d c0 p then
      match env with
      | [] => none
      | e :: env1 =>
        if (run_and_flush d c0 p e).1 ≠ 0 then some ((run_and_flush d c0 p e).1, [p])
        else (sequencer_spec d c0 ps env1).map fun r => (r.1, p :: r.2)
    else sequencer_spec d c0 ps env

/-- Two contexts agree on the mount options and on the superblock and
journal state that no function of the file writes but the rewind requests
(which add to `opts.recovery_passes`). -/
def bch_fs.same_options (c c0 : bch_fs) : Prop :=
  c.opts_recovery_passes = c0.opts_recovery_passes ∧
  c.opts_recovery_passes_exclude = c0.opts_recovery_passes_exclude ∧
  c.opts_recovery_pass_last = c0.opts_recovery_pass_last ∧
  c.opts_fsck = c0.opts_fsck ∧
  c.opts_read_only = c0.opts_read_only ∧
  c.sb_clean = c0.sb_clean ∧
  c.sb_features = c0.sb_features ∧
  c.journal_keys_nr = c0.journal_keys_nr

/-- The invariant on the completed set: its ordinals are below the cursor
and not above the watermark; a running pass is the pass at the cursor; and
within an iteration the next ordinal is the cursor plus one, or it is below
the cursor and the completed set is below it. -/
def complete_inv (s : sys) : Prop :=
  (∀ p, s.c.recovery_passes_complete.testBit p = true →
    p < s.c.curr_recovery_pass ∧ p ≤ s.c.recovery_pass_done) ∧
  (∀ p, s.pc = loc.running p → p = s.c.curr_recovery_pass) ∧
  ((s.pc = loc.armed ∨ ∃ p, s.pc = loc.running p) →
    s.c.next_recovery_pass = s.c.curr_recovery_pass + 1 ∨
      (s.c.next_recovery_pass < s.c.curr_recovery_pass ∧
        ∀ p, s.c.recovery_passes_complete.testBit p = true → p < s.c.next_recovery_pass))

/-- The mount of `example_fs` with the option `recovery_passes` naming the
pass of ordinal 4. -/
def include_fs : bch_fs := { example_fs with opts_recovery_passes := 16 }

/-- The context of `include_fs` over `example_decls` while the pass of
ordinal 4 runs: the pass 0 completed, the passes 1, 2 and 3 skipped. -/
def include_fs_at_pass : bch_fs :=
  { include_fs with
    curr_recovery_pass := 4
    next_recovery_pass := 5
    recovery_passes_complete := 1
    recovery_pass_done := 3 }

/-- A pass during which rewinds to the ordinals 2 and 3 are requested, in
this order, and which returns the restart signal -2003. -/
def pass_rewinds_twice : pass_exec :=
  { rewinds := [2, 3], fn_ret := -2003, sets_error := false, flush_ret := 0 }

/-! ## Bit-level facts -/

theorem BIT_ULL_eq {p : Nat} (hp : p < 64) : BIT_ULL p = 2 ^ p := by
  unfold BIT_ULL
  rw [Nat.one_shiftLeft]
  exact Nat.mod_eq_of_lt (Nat.pow_lt_pow_right (by decide) hp)

theorem and_BIT_ULL_ne_zero_iff (x : Nat) {p : Nat} (hp : p < 64) :
    (x &&& BIT_ULL p) ≠ 0 ↔ x.testBit p = true := by
  rw [BIT_ULL_eq hp, Nat.and_two_pow]
  cases h : x.testBit p <;> simp

theorem and_BIT_ULL_eq_zero_iff (x : Nat) {p : Nat} (hp : p < 64) :
    (x &&& BIT_ULL p) = 0 ↔ x.testBit p = false := by
  have h := and_BIT_ULL_ne_zero_iff x hp
  cases hb : x.testBit p
  · simpa [hb] using h
  · simpa [hb] using h

theorem testBit_rewind_mask (t i : Nat) (hi : t ≤ i) :
    (shl_u64 1 t >>> 1).testBit i = false := by
  unfold shl_u64
  rw [Nat.testBit_shiftRight, Nat.one_shiftLeft, Nat.testBit_mod_two_pow, Nat.testBit_two_pow]
  have : ¬ t = 1 + i := by omega
  simp [this]

theorem testBit_not_u64 (y i : Nat) :
    (not_u64 y).testBit i = (decide (i < 64) && !(y % 2 ^ 64).testBit i) := by
  unfold not_u64
  have h : y % 2 ^ 64 < 2 ^ 64 := Nat.mod_lt _ (by decide)
  rw [Nat.sub_sub, Nat.add_comm 1, Nat.testBit_two_pow_sub_succ h]

theorem testBit_restart_mask (cur i : Nat) :
    (not_u64 (shl_u64 ALL_ONES_ULL cur)).testBit i = (decide (i < 64) && decide (i < cur)) := by
  rw [testBit_not_u64]
  unfold shl_u64 ALL_ONES_ULL
  rw [Nat.mod_mod, Nat.testBit_mod_two_pow, Nat.testBit_shiftLeft, Nat.testBit_two_pow_sub_one]
  by_cases h1 : i < 64 <;> by_cases h2 : i < cur
  · have : ¬ i ≥ cur := by omega
    simp [h1, h2, this]
  · have h3 : i ≥ cur := by omega
    have h4 : i - cur < 64 := by omega
    simp [h1, h2, h3, h4]
  · simp [h1]
  · simp [h1]

theorem ordinal_lt_64 {d : Decls} (hwf : d.wf) {p : Nat}
    (hp : p < ARRAY_SIZE_recovery_pass_fns d) : p < 64 :=
  Nat.lt_of_lt_of_le hp hwf.1

/-! ## Selection policy: theorems -/

/-- C1: for every filesystem state and every valid ordinal,
`should_run_recovery_pass` is the first-match priority chain of the
specification: alloc-info test, exclude set, include set, fsck, unclean,
always, otherwise false.  The function returns a truth value only, the
state is an argument it does not return. -/
theorem should_run_eq_chain (d : Decls) (c : bch_fs) (p : Nat) (hwf : d.wf)
    (hp : p < ARRAY_SIZE_recovery_pass_fns d) :
    should_run_recovery_pass d c p = shouldRun_chain d c p := by
  have hp64 := ordinal_lt_64 hwf hp
  have hf := and_BIT_ULL_ne_zero_iff c.sb_features hwf.2.2.1
  have hx := and_BIT_ULL_ne_zero_iff c.opts_recovery_passes_exclude hp64
  have hi := and_BIT_ULL_ne_zero_iff c.opts_recovery_passes hp64
  simp only [should_run_recovery_pass, shouldRun_chain, has_flag, in_set, no_alloc_info,
    hf, hx, hi, decide_eq_true_eq]

theorem should_run_eq_chain_witness :
    should_run_recovery_pass example_decls example_fs 0 =
      shouldRun_chain example_decls example_fs 0 :=
  should_run_eq_chain example_decls example_fs 0 (by decide) (by decide)

/-- C2: a valid ordinal that is both in the exclude set and in the include
set is not selected, whatever the flags of the pass and the fsck and clean
state. -/
theorem excluded_and_included_is_skipped (d : Decls) (c : bch_fs) (p : Nat) (hwf : d.wf)
    (hp : p < ARRAY_SIZE_recovery_pass_fns d)
    (hex : c.opts_recovery_passes_exclude.testBit p = true)
    (_hin : c.opts_recovery_passes.testBit p = true) :
    should_run_recovery_pass d c p = false := by
  have hp64 := ordinal_lt_64 hwf hp
  have hx := (and_BIT_ULL_ne_zero_iff c.opts_recovery_passes_exclude hp64).2 hex
  unfold should_run_recovery_pass
  simp only []
  split
  · rfl
  · rfl

theorem excluded_and_included_is_skipped_witness :
    should_run_recovery_pass example_decls
      { example_fs with
        opts_recovery_passes := 1, opts_recovery_passes_exclude := 1, opts_fsck := true,
        sb_clean := false } 0 = false :=
  excluded_and_included_is_skipped example_decls _ 0 (by decide) (by decide) (by decide)
    (by decide)

/-- C3: when the filesystem declares allocation info absent, a pass flagged
`PASS_ALLOC` is not selected, also when it is in the include set, fsck is
requested, the filesystem is unclean or the pass is always-run. -/
theorem alloc_pass_skipped_without_alloc_info (d : Decls) (c : bch_fs) (p : Nat) (hwf : d.wf)
    (hno : c.sb_features.testBit d.BCH_FEATURE_no_alloc_info = true)
    (hflag : (when_of d p &&& d.PASS_ALLOC) ≠ 0) :
    should_run_recovery_pass d c p = false := by
  have hf := (and_BIT_ULL_ne_zero_iff c.sb_features hwf.2.2.1).2 hno
  unfold should_run_recovery_pass
  simp only []
  rw [if_pos ⟨hflag, hf⟩]

theorem alloc_pass_skipped_without_alloc_info_witness :
    should_run_recovery_pass example_decls
      { example_fs with
        opts_recovery_passes := 8, opts_fsck := true, sb_clean := false,
        sb_features := 2 ^ 21 } 3 = false :=
  alloc_pass_skipped_without_alloc_info example_decls _ 3 (by decide) (by decide) (by decide)

/-! ## Rewind requests: theorems -/

/-- C8: when the sequencer has finished (`curr_recovery_pass` is the number
of passes), a rewind request to any target returns
`-BCH_ERR_not_in_recovery` and leaves the buffer and every field of the
context as they were. -/
theorem rewind_after_finish_not_in_recovery (d : Decls) (out : printbuf) (c : bch_fs)
    (t : Nat) (hfin : c.curr_recovery_pass = ARRAY_SIZE_recovery_pass_fns d) :
    __bch2_run_explicit_recovery_pass d out c t =
      (-(d.BCH_ERR_not_in_recovery : Int), out, c) := by
  unfold __bch2_run_explicit_recovery_pass
  rw [if_pos hfin]

theorem rewind_after_finish_not_in_recovery_witness :
    __bch2_run_explicit_recovery_pass example_decls []
        { example_fs with curr_recovery_pass := 6, recovery_passes_complete := 33 } 2 =
      (-2001, [], { example_fs with curr_recovery_pass := 6, recovery_passes_complete := 33 }) :=
  rewind_after_finish_not_in_recovery example_decls [] _ 2 (by decide)

/-- C7, as stated, fails: in the context a successful run over
`example_decls` ends with (cursor 6 of 6 passes, ordinals 0 and 5
completed), a rewind request to the completed ordinal 0 returns
`-BCH_ERR_not_in_recovery`, not success. -/
theorem rewind_to_completed_after_finish_fails :
    ({ example_fs with
      curr_recovery_pass := 6, next_recovery_pass := 6, recovery_passes_complete := 33,
      recovery_pass_done := 5, flags := 8 } : bch_fs).recovery_passes_complete.testBit 0 = true ∧
    (__bch2_run_explicit_recovery_pass example_decls []
      { example_fs with
        curr_recovery_pass := 6, next_recovery_pass := 6, recovery_passes_complete := 33,
        recovery_pass_done := 5, flags := 8 } 0).1 = -2001 ∧
    (__bch2_run_explicit_recovery_pass example_decls []
      { example_fs with
        curr_recovery_pass := 6, next_recovery_pass := 6, recovery_passes_complete := 33,
        recovery_pass_done := 5, flags := 8 } 0).1 ≠ 0 := by
  decide

/-- C7, amended: while the sequencer has not finished, a rewind request to a
valid ordinal whose bit is set in `recovery_passes_complete` returns 0 and
leaves the buffer and every field of the context (cursor, next ordinal,
completed set, include set, watermark) as they were. -/
theorem rewind_to_completed_is_noop (d : Decls) (out : printbuf) (c : bch_fs) (t : Nat)
    (hwf : d.wf) (ht : t < ARRAY_SIZE_recovery_pass_fns d)
    (hrun : c.curr_recovery_pass ≠ ARRAY_SIZE_recovery_pass_fns d)
    (hdone : c.recovery_passes_complete.testBit t = true) :
    __bch2_run_explicit_recovery_pass d out c t = (0, out, c) := by
  have hb := (and_BIT_ULL_ne_zero_iff c.recovery_passes_complete (ordinal_lt_64 hwf ht)).2 hdone
  unfold __bch2_run_explicit_recovery_pass
  rw [if_neg hrun, if_pos hb]

theorem rewind_to_completed_is_noop_witness :
    __bch2_run_explicit_recovery_pass example_decls []
        { example_fs with curr_recovery_pass := 3, recovery_passes_complete := 1 } 0 =
      (0, [], { example_fs with curr_recovery_pass := 3, recovery_passes_complete := 1 }) :=
  rewind_to_completed_is_noop example_decls [] _ 0 (by decide) (by decide) (by decide)
    (by decide)

/-- The effect of a rewind request on the context, by cases: nothing; the
target joins the include set; or, for an accepted target below the cursor,
also the next ordinal and the completed set change. -/
theorem rewind_cases (d : Decls) (c : bch_fs) (t : Nat) :
    rewind d c t = c ∨
    rewind d c t = { c with opts_recovery_passes := c.opts_recovery_passes ||| BIT_ULL t } ∨
    (t < c.curr_recovery_pass ∧
      ¬ (t < d.BCH_RECOVERY_PASS_set_may_go_rw ∧
          d.BCH_RECOVERY_PASS_set_may_go_rw ≤ c.curr_recovery_pass) ∧
      rewind d c t =
        { c with
          opts_recovery_passes := c.opts_recovery_passes ||| BIT_ULL t
          next_recovery_pass := t
          recovery_passes_complete :=
            c.recovery_passes_complete &&& (shl_u64 1 t >>> 1) }) := by
  unfold rewind bch2_run_explicit_recovery_pass __bch2_run_explicit_recovery_pass
  by_cases h1 : c.curr_recovery_pass = ARRAY_SIZE_recovery_pass_fns d
  · left; rw [if_pos h1]
  · rw [if_neg h1]
    by_cases h2 : (c.recovery_passes_complete &&& BIT_ULL t) ≠ 0
    · left; rw [if_pos h2]
    · rw [if_neg h2]
      by_cases h3 : t < d.BCH_RECOVERY_PASS_set_may_go_rw ∧
          c.curr_recovery_pass ≥ d.BCH_RECOVERY_PASS_set_may_go_rw
      · left; simp only [if_pos h3]
      · simp only [if_neg h3]
        by_cases h4 : c.curr_recovery_pass > t
        · right; right
          exact ⟨h4, h3, by rw [if_pos h4]⟩
        · right; left
          rw [if_neg h4]

theorem rewind_curr (d : Decls) (c : bch_fs) (t : Nat) :
    (rewind d c t).curr_recovery_pass = c.curr_recovery_pass := by
  rcases rewind_cases d c t with h | h | ⟨_, _, h⟩ <;> rw [h]

theorem rewind_flags (d : Decls) (c : bch_fs) (t : Nat) :
    (rewind d c t).flags = c.flags := by
  rcases rewind_cases d c t with h | h | ⟨_, _, h⟩ <;> rw [h]

theorem rewinds_curr (d : Decls) (ts : List Nat) (c : bch_fs) :
    (rewinds d c ts).curr_recovery_pass = c.curr_recovery_pass := by
  induction ts generalizing c with
  | nil => rfl
  | cons t ts ih =>
    show (rewinds d (rewind d c t) ts).curr_recovery_pass = _
    rw [ih, rewind_curr]

theorem bch2_set_may_go_rw_fs (d : Decls) (c : bch_fs) (r : Int) :
    (bch2_set_may_go_rw d c r).2.1 = { c with flags := c.flags ||| 2 ^ d.BCH_FS_may_go_rw } := by
  unfold bch2_set_may_go_rw
  simp only []
  split_ifs <;> rfl

/-- The call of a pass function changes `c->flags` only, and sets
`BCH_FS_may_go_rw` only in the pass `set_may_go_rw`. -/
theorem call_fn_fs (d : Decls) (hwf : d.wf) (c : bch_fs) (pass : Nat) (e : pass_exec) :
    ∃ F, (call_fn d c pass e).2.1 = { c with flags := F } ∧
      (F.testBit d.BCH_FS_may_go_rw = true →
        c.flags.testBit d.BCH_FS_may_go_rw = true ∨
          pass = d.BCH_RECOVERY_PASS_set_may_go_rw) := by
  have hne : ¬ d.BCH_FS_error = d.BCH_FS_may_go_rw := fun h => hwf.2.2.2 h.symm
  unfold call_fn
  simp only []
  by_cases hp : pass = d.BCH_RECOVERY_PASS_set_may_go_rw
  · rw [if_pos hp, bch2_set_may_go_rw_fs]
    by_cases he : e.sets_error = true
    · rw [if_pos he]
      exact ⟨_, rfl, fun _ => Or.inr hp⟩
    · rw [if_neg he]
      exact ⟨_, rfl, fun _ => Or.inr hp⟩
  · rw [if_neg hp]
    by_cases he : e.sets_error = true
    · rw [if_pos he]
      refine ⟨_, rfl, fun h => Or.inl ?_⟩
      simpa [Nat.testBit_two_pow, hne] using h
    · rw [if_neg he]
      exact ⟨c.flags, rfl, fun h => Or.inl h⟩

theorem bch2_run_recovery_pass_fs (d : Decls) (c : bch_fs) (pass : Nat) (e : pass_exec) :
    (bch2_run_recovery_pass d c pass e).2.1 = (call_fn d c pass e).2.1 := by
  unfold bch2_run_recovery_pass
  simp only []
  split_ifs <;> rfl

/-- Lines 334-338 change `c->flags` and the persisted required-set only,
and set `BCH_FS_may_go_rw` only in the pass `set_may_go_rw`. -/
theorem run_and_flush_fs (d : Decls) (hwf : d.wf) (c : bch_fs) (pass : Nat) (e : pass_exec) :
    ∃ F R, (run_and_flush d c pass e).2.1 =
        { c with flags := F, recovery_passes_required := R } ∧
      (F.testBit d.BCH_FS_may_go_rw = true →
        c.flags.testBit d.BCH_FS_may_go_rw = true ∨
          pass = d.BCH_RECOVERY_PASS_set_may_go_rw) := by
  obtain ⟨F, hF, hflag⟩ := call_fn_fs d hwf c pass e
  unfold run_and_flush bch2_clear_recovery_pass_required
  simp only [bch2_run_recovery_pass_fs, hF]
  split_ifs <;> exact ⟨F, _, rfl, hflag⟩

/-- The context after lines 334-355, in terms of the bookkeeping alone. -/
theorem finish_pass_fs (d : Decls) (hwf : d.wf) (c : bch_fs) (pass : Nat) (e : pass_exec) :
    ∃ F R ret,
      (finish_pass d c pass e).1 =
        (post_pass { c with flags := F, recovery_passes_required := R } pass ret).1 ∧
      (finish_pass d c pass e).2.1 =
        (post_pass { c with flags := F, recovery_passes_required := R } pass ret).2 ∧
      (F.testBit d.BCH_FS_may_go_rw = true →
        c.flags.testBit d.BCH_FS_may_go_rw = true ∨
          pass = d.BCH_RECOVERY_PASS_set_may_go_rw) := by
  obtain ⟨F, R, h, hflag⟩ := run_and_flush_fs d hwf c pass e
  refine ⟨F, R, (run_and_flush d c pass e).1, ?_, ?_, hflag⟩
  · unfold finish_pass; simp only [h]
  · unfold finish_pass; simp only [h]

/-- An accepted rewind request below the cursor: the status is
`-BCH_ERR_restart_recovery` and the context is changed as lines 153-157
say. -/
theorem rewind_accepted_below (d : Decls) (out : printbuf) (c : bch_fs) (t : Nat)
    (hrun : c.curr_recovery_pass ≠ ARRAY_SIZE_recovery_pass_fns d)
    (hnd : (c.recovery_passes_complete &&& BIT_ULL t) = 0)
    (hrw : ¬ (t < d.BCH_RECOVERY_PASS_set_may_go_rw ∧
        c.curr_recovery_pass ≥ d.BCH_RECOVERY_PASS_set_may_go_rw))
    (hlt : t < c.curr_recovery_pass) :
    (__bch2_run_explicit_recovery_pass d out c t).1 = -(d.BCH_ERR_restart_recovery : Int) ∧
    (__bch2_run_explicit_recovery_pass d out c t).2.2 =
      { c with
        opts_recovery_passes := c.opts_recovery_passes ||| BIT_ULL t
        next_recovery_pass := t
        recovery_passes_complete := c.recovery_passes_complete &&& (shl_u64 1 t >>> 1) } := by
  have h2 : ¬ (c.recovery_passes_complete &&& BIT_ULL t) ≠ 0 := fun h => h hnd
  have h4 : c.curr_recovery_pass > t := hlt
  unfold __bch2_run_explicit_recovery_pass
  rw [if_neg hrun, if_neg h2]
  simp only [if_neg hrw, if_pos h4, and_self]

/-- C5, the code at a failing input: with the passes 0 and 1 completed, the
pass 2 skipped and the cursor at 3, an accepted rewind request to 2 sets the
next ordinal to 2
and leaves only bit 1 in `recovery_passes_complete`; the bit of ordinal 0,
which is below the target, is cleared as well. -/
theorem rewind_clears_completed_below_target :
    (bch2_run_explicit_recovery_pass example_decls
      { example_fs with
        curr_recovery_pass := 3, next_recovery_pass := 4, recovery_passes_complete := 3,
        recovery_pass_done := 2, opts_recovery_passes := 8, opts_fsck := true } 2).1 = -2003 ∧
    (rewind example_decls
      { example_fs with
        curr_recovery_pass := 3, next_recovery_pass := 4, recovery_passes_complete := 3,
        recovery_pass_done := 2, opts_recovery_passes := 8, opts_fsck := true }
      2).next_recovery_pass = 2 ∧
    (rewind example_decls
      { example_fs with
        curr_recovery_pass := 3, next_recovery_pass := 4, recovery_passes_complete := 3,
        recovery_pass_done := 2, opts_recovery_passes := 8, opts_fsck := true }
      2).recovery_passes_complete = 2 ∧
    (rewind example_decls
      { example_fs with
        curr_recovery_pass := 3, next_recovery_pass := 4, recovery_passes_complete := 3,
        recovery_pass_done := 2, opts_recovery_passes := 8, opts_fsck := true }
      2).recovery_passes_complete.testBit 0 = false := by
  decide

/-- While the sequencer has not finished and the cursor has reached the
pass `set_may_go_rw`, a rewind request to a target below `set_may_go_rw`
that is not in the completed set returns `-BCH_ERR_cannot_rewind_recovery`
and leaves every field of the context as it was. -/
theorem rewind_rejected_at_boundary (d : Decls) (out : printbuf) (c : bch_fs) (t : Nat)
    (hwf : d.wf)
    (hrun : c.curr_recovery_pass ≠ ARRAY_SIZE_recovery_pass_fns d)
    (hcur : d.BCH_RECOVERY_PASS_set_may_go_rw ≤ c.curr_recovery_pass)
    (ht : t < d.BCH_RECOVERY_PASS_set_may_go_rw)
    (hnd : c.recovery_passes_complete.testBit t = false) :
    (__bch2_run_explicit_recovery_pass d out c t).1 =
      -(d.BCH_ERR_cannot_rewind_recovery : Int) ∧
    (__bch2_run_explicit_recovery_pass d out c t).2.2 = c := by
  have ht64 : t < 64 := ordinal_lt_64 hwf (Nat.lt_trans ht hwf.2.1)
  have h2 : ¬ (c.recovery_passes_complete &&& BIT_ULL t) ≠ 0 := by
    rw [and_BIT_ULL_ne_zero_iff _ ht64, hnd]; simp
  have h3 : t < d.BCH_RECOVERY_PASS_set_may_go_rw ∧
      c.curr_recovery_pass ≥ d.BCH_RECOVERY_PASS_set_may_go_rw := ⟨ht, hcur⟩
  unfold __bch2_run_explicit_recovery_pass
  rw [if_neg hrun, if_neg h2]
  simp only [if_pos h3, and_self]

/-! ## Rewinds during a pass: theorems -/

/-- A rewind request keeps this property of a context: if the next ordinal
is below the cursor, no bit at or above the next ordinal is set in the
completed set. -/
theorem rewind_keeps_cleared (d : Decls) (c : bch_fs) (t : Nat)
    (h : c.next_recovery_pass < c.curr_recovery_pass →
      ∀ i, c.next_recovery_pass ≤ i → c.recovery_passes_complete.testBit i = false) :
    (rewind d c t).next_recovery_pass < (rewind d c t).curr_recovery_pass →
      ∀ i, (rewind d c t).next_recovery_pass ≤ i →
        (rewind d c t).recovery_passes_complete.testBit i = false := by
  rcases rewind_cases d c t with h1 | h1 | ⟨_, _, h1⟩
  · rw [h1]; exact h
  · rw [h1]; exact h
  · rw [h1]
    intro _ i hi
    simp only [Nat.testBit_and, testBit_rewind_mask t i hi, Bool.and_false]

theorem rewinds_keep_cleared (d : Decls) (ts : List Nat) (c : bch_fs)
    (h : c.next_recovery_pass < c.curr_recovery_pass →
      ∀ i, c.next_recovery_pass ≤ i → c.recovery_passes_complete.testBit i = false) :
    (rewinds d c ts).next_recovery_pass < (rewinds d c ts).curr_recovery_pass →
      ∀ i, (rewinds d c ts).next_recovery_pass ≤ i →
        (rewinds d c ts).recovery_passes_complete.testBit i = false := by
  induction ts generalizing c with
  | nil => exact h
  | cons t ts ih => exact ih (rewind d c t) (rewind_keeps_cleared d c t h)

/-- The bookkeeping of lines 340-355 on a context whose next ordinal is
below the cursor: success, the cursor moves to the next ordinal, and the
completed set keeps its bits below the old cursor only. -/
theorem post_pass_restart (c : bch_fs) (pass : Nat) (ret : Int)
    (h : c.next_recovery_pass < c.curr_recovery_pass) :
    (post_pass c pass ret).1 = 0 ∧
    (post_pass c pass ret).2.curr_recovery_pass = c.next_recovery_pass ∧
    ∀ i, (post_pass c pass ret).2.recovery_passes_complete.testBit i =
      (c.recovery_passes_complete.testBit i && (decide (i < 64) &&
        decide (i < c.curr_recovery_pass))) := by
  unfold post_pass
  rw [if_pos h]
  refine ⟨rfl, rfl, fun i => ?_⟩
  simp only [Nat.testBit_and, testBit_restart_mask]

/-- C4: while the pass at the cursor is being run (cursor below the number
of passes), an accepted rewind request to a target below the cursor (target
not completed, not blocked by the read-write boundary) has this effect once
the pass has returned and lines 334-355 have run: the status is reset to
success whatever the pass returned, the cursor is the target, no bit of the
completed set in `[target, old cursor)` is set, the pass that was run is not
marked complete, and the loop condition holds, so the next iteration is at
the target. -/
theorem rewind_during_pass_restarts_at_target (d : Decls) (c : bch_fs) (t : Nat)
    (e : pass_exec) (hwf : d.wf)
    (hc : c.curr_recovery_pass < ARRAY_SIZE_recovery_pass_fns d)
    (ht : t < c.curr_recovery_pass)
    (hnd : c.recovery_passes_complete.testBit t = false)
    (hrw : ¬ (t < d.BCH_RECOVERY_PASS_set_may_go_rw ∧
        d.BCH_RECOVERY_PASS_set_may_go_rw ≤ c.curr_recovery_pass)) :
    (bch2_run_explicit_recovery_pass d c t).1 = -(d.BCH_ERR_restart_recovery : Int) ∧
    (finish_pass d (rewind d c t) c.curr_recovery_pass e).1 = 0 ∧
    (finish_pass d (rewind d c t) c.curr_recovery_pass e).2.1.curr_recovery_pass = t ∧
    (∀ i, t ≤ i → i < c.curr_recovery_pass →
      (finish_pass d (rewind d c t) c.curr_recovery_pass
        e).2.1.recovery_passes_complete.testBit i = false) ∧
    (finish_pass d (rewind d c t) c.curr_recovery_pass
      e).2.1.recovery_passes_complete.testBit c.curr_recovery_pass = false ∧
    (finish_pass d (rewind d c t) c.curr_recovery_pass e).2.1.curr_recovery_pass <
      ARRAY_SIZE_recovery_pass_fns d := by
  have ht64 : t < 64 := ordinal_lt_64 hwf (Nat.lt_trans ht hc)
  have hnd0 : (c.recovery_passes_complete &&& BIT_ULL t) = 0 :=
    (and_BIT_ULL_eq_zero_iff _ ht64).2 hnd
  obtain ⟨hret, hctx⟩ := rewind_accepted_below d [] c t (Nat.ne_of_lt hc) hnd0 hrw ht
  have hrew : rewind d c t =
      { c with
        opts_recovery_passes := c.opts_recovery_passes ||| BIT_ULL t
        next_recovery_pass := t
        recovery_passes_complete := c.recovery_passes_complete &&& (shl_u64 1 t >>> 1) } := hctx
  obtain ⟨F, R, ret, h1, h2, _⟩ := finish_pass_fs d hwf (rewind d c t) c.curr_recovery_pass e
  have hlt : ({ rewind d c t with flags := F, recovery_passes_required := R
      } : bch_fs).next_recovery_pass <
      ({ rewind d c t with flags := F, recovery_passes_required := R
      } : bch_fs).curr_recovery_pass := by
    rw [hrew]; exact ht
  obtain ⟨p1, p2, p3⟩ := post_pass_restart _ c.curr_recovery_pass ret hlt
  have hcur : (finish_pass d (rewind d c t) c.curr_recovery_pass e).2.1.curr_recovery_pass = t := by
    rw [h2, p2, hrew]
  have hbits : ∀ i, t ≤ i →
      (finish_pass d (rewind d c t) c.curr_recovery_pass
        e).2.1.recovery_passes_complete.testBit i = false := by
    intro i hi
    rw [h2, p3, hrew]
    simp only [Nat.testBit_and, testBit_rewind_mask t i hi, Bool.and_false, Bool.false_and]
  refine ⟨hret, ?_, hcur, fun i hi _ => hbits i hi, hbits _ (Nat.le_of_lt ht), ?_⟩
  · rw [h1, p1]
  · rw [hcur]; exact Nat.lt_trans ht hc

theorem rewind_during_pass_restarts_at_target_witness :
    (bch2_run_explicit_recovery_pass example_decls
      { example_fs with
        curr_recovery_pass := 3, next_recovery_pass := 4, recovery_passes_complete := 3 }
      2).1 = -2003 ∧
    (finish_pass example_decls
      (rewind example_decls
        { example_fs with
          curr_recovery_pass := 3, next_recovery_pass := 4, recovery_passes_complete := 3 } 2)
      3 ⟨[], -2003, false, 0⟩).2.1.curr_recovery_pass = 2 := by
  have h := rewind_during_pass_restarts_at_target example_decls
    { example_fs with
      curr_recovery_pass := 3, next_recovery_pass := 4, recovery_passes_complete := 3 }
    2 ⟨[], -2003, false, 0⟩ (by decide) (by decide) (by decide) (by decide) (by decide)
  exact ⟨h.1, h.2.2.1⟩

/-- C6: take any context at the start of an iteration (line 315 has set the
next ordinal to the cursor plus one) and any sequence of rewind requests
served until the pass returns.  If the next ordinal is then below the
cursor, lines 334-355 leave no bit of the completed set in
`[next ordinal, old cursor)` set, leave the bit of the pass that was run
clear, reset the status to success, and move the cursor to the next
ordinal. -/
theorem post_pass_after_rewinds (d : Decls) (c0 : bch_fs) (ts : List Nat) (e : pass_exec)
    (hwf : d.wf)
    (hlt : (rewinds d (iter_arm c0) ts).next_recovery_pass <
      (rewinds d (iter_arm c0) ts).curr_recovery_pass) :
    (∀ i, (rewinds d (iter_arm c0) ts).next_recovery_pass ≤ i → i < c0.curr_recovery_pass →
      (finish_pass d (rewinds d (iter_arm c0) ts) c0.curr_recovery_pass
        e).2.1.recovery_passes_complete.testBit i = false) ∧
    (finish_pass d (rewinds d (iter_arm c0) ts) c0.curr_recovery_pass
      e).2.1.recovery_passes_complete.testBit c0.curr_recovery_pass = false ∧
    (finish_pass d (rewinds d (iter_arm c0) ts) c0.curr_recovery_pass e).1 = 0 ∧
    (finish_pass d (rewinds d (iter_arm c0) ts) c0.curr_recovery_pass
      e).2.1.curr_recovery_pass = (rewinds d (iter_arm c0) ts).next_recovery_pass := by
  have harm : (iter_arm c0).next_recovery_pass < (iter_arm c0).curr_recovery_pass →
      ∀ i, (iter_arm c0).next_recovery_pass ≤ i →
        (iter_arm c0).recovery_passes_complete.testBit i = false := by
    intro h
    simp only [iter_arm] at h
    omega
  have hclr := rewinds_keep_cleared d ts (iter_arm c0) harm hlt
  have hcur : (rewinds d (iter_arm c0) ts).curr_recovery_pass = c0.curr_recovery_pass := by
    rw [rewinds_curr]; rfl
  obtain ⟨F, R, ret, h1, h2, _⟩ :=
    finish_pass_fs d hwf (rewinds d (iter_arm c0) ts) c0.curr_recovery_pass e
  obtain ⟨p1, p2, p3⟩ := post_pass_restart
    { rewinds d (iter_arm c0) ts with flags := F, recovery_passes_required := R }
    c0.curr_recovery_pass ret hlt
  have hbits : ∀ i, (rewinds d (iter_arm c0) ts).next_recovery_pass ≤ i →
      (finish_pass d (rewinds d (iter_arm c0) ts) c0.curr_recovery_pass
        e).2.1.recovery_passes_complete.testBit i = false := by
    intro i hi
    rw [h2, p3]
    simp only [hclr i hi, Bool.false_and]
  refine ⟨fun i hi _ => hbits i hi, hbits _ ?_, ?_, ?_⟩
  · rw [← hcur]; exact Nat.le_of_lt hlt
  · rw [h1, p1]
  · rw [h2, p2]

theorem post_pass_after_rewinds_witness :
    (finish_pass example_decls
      (rewinds example_decls
        (iter_arm { example_fs with curr_recovery_pass := 3, recovery_passes_complete := 5 })
        [4, 1])
      3 ⟨[4, 1], -2003, false, 0⟩).2.1.recovery_passes_complete.testBit 3 = false :=
  (post_pass_after_rewinds example_decls
    { example_fs with curr_recovery_pass := 3, recovery_passes_complete := 5 } [4, 1]
    ⟨[4, 1], -2003, false, 0⟩ (by decide) (by decide)).2.1

/-! ## The read-write boundary: theorems -/

theorem post_pass_curr (c : bch_fs) (pass : Nat) (ret : Int) :
    (post_pass c pass ret).2.curr_recovery_pass = c.next_recovery_pass := by
  unfold post_pass
  split_ifs <;> rfl

theorem post_pass_flags (c : bch_fs) (pass : Nat) (ret : Int) :
    (post_pass c pass ret).2.flags = c.flags := by
  unfold post_pass
  split_ifs <;> rfl

theorem iter_decide_skip (d : Decls) (c c1 : bch_fs) (h : iter_decide d c = decision.skip c1) :
    c1 = { c with
      curr_recovery_pass := c.curr_recovery_pass + 1
      recovery_pass_done := max c.recovery_pass_done c.curr_recovery_pass } := by
  unfold iter_decide at h
  simp only [] at h
  split_ifs at h
  exact (decision.skip.inj h).symm

theorem iter_decide_run (d : Decls) (c : bch_fs) (pass : Nat)
    (h : iter_decide d c = decision.run pass) : pass = c.curr_recovery_pass := by
  unfold iter_decide at h
  simp only [] at h
  split_ifs at h
  exact (decision.run.inj h).symm

/-- A rewind request leaves the next ordinal alone or sets it to the
target, which is then not below `set_may_go_rw` once the cursor has reached
it. -/
theorem rewind_next (d : Decls) (c : bch_fs) (t : Nat)
    (hcur : d.BCH_RECOVERY_PASS_set_may_go_rw ≤ c.curr_recovery_pass) :
    (rewind d c t).next_recovery_pass = c.next_recovery_pass ∨
      d.BCH_RECOVERY_PASS_set_may_go_rw ≤ (rewind d c t).next_recovery_pass := by
  rcases rewind_cases d c t with h | h | ⟨_, h3, h⟩
  · left; rw [h]
  · left; rw [h]
  · right
    rw [h]
    show d.BCH_RECOVERY_PASS_set_may_go_rw ≤ t
    omega

/-- Every step of the system keeps the invariant. -/
theorem seq_inv_step (d : Decls) (hwf : d.wf) (s t : sys) (h : step d s t)
    (hi : seq_inv d s) : seq_inv d t := by
  obtain ⟨i1, i2, i3⟩ := hi
  cases h with
  | leave c _ =>
    refine ⟨i1, fun p hp => ?_, fun _ hpc => ?_⟩
    · cases hp
    · rcases hpc with hpc | ⟨p, hpc⟩ <;> cases hpc
  | arm c _ =>
    refine ⟨i1, fun p hp => ?_, fun hcur _ => ?_⟩
    · cases hp
    · show d.BCH_RECOVERY_PASS_set_may_go_rw ≤ c.curr_recovery_pass + 1
      have : d.BCH_RECOVERY_PASS_set_may_go_rw ≤ c.curr_recovery_pass := hcur
      omega
  | stop c _ =>
    refine ⟨i1, fun p hp => ?_, fun _ hpc => ?_⟩
    · cases hp
    · rcases hpc with hpc | ⟨p, hpc⟩ <;> cases hpc
  | skip c c1 hd =>
    have hc1 := iter_decide_skip d c c1 hd
    subst hc1
    refine ⟨fun hf => ?_, fun p hp => ?_, fun _ hpc => ?_⟩
    · have : d.BCH_RECOVERY_PASS_set_may_go_rw ≤ c.curr_recovery_pass := i1 hf
      show d.BCH_RECOVERY_PASS_set_may_go_rw ≤ c.curr_recovery_pass + 1
      omega
    · cases hp
    · rcases hpc with hpc | ⟨p, hpc⟩ <;> cases hpc
  | start c pass hd =>
    refine ⟨i1, fun p hp => ?_, fun hcur _ => i3 hcur (Or.inl rfl)⟩
    cases hp
    exact iter_decide_run d c pass hd
  | finish c pass e =>
    obtain ⟨F, R, ret, _, h2, hflag⟩ := finish_pass_fs d hwf c pass e
    refine ⟨fun hf => ?_, fun p hp => ?_, fun _ hpc => ?_⟩
    · simp only [h2, post_pass_flags, post_pass_curr] at hf ⊢
      have hcur : d.BCH_RECOVERY_PASS_set_may_go_rw ≤ c.curr_recovery_pass := by
        rcases hflag hf with h | h
        · exact i1 h
        · have : pass = c.curr_recovery_pass := i2 pass rfl
          omega
      exact i3 hcur (Or.inr ⟨pass, rfl⟩)
    · dsimp only at hp
      split_ifs at hp
    · dsimp only at hpc
      rcases hpc with hpc | ⟨p, hpc⟩ <;> split_ifs at hpc
  | request c pc pass =>
    refine ⟨fun hf => ?_, fun p hp => ?_, fun hcur hpc => ?_⟩
    · simp only [rewind_flags, rewind_curr] at hf ⊢
      exact i1 hf
    · simp only [rewind_curr]
      exact i2 p hp
    · simp only [rewind_curr] at hcur
      rcases rewind_next d c pass hcur with h | h
      · show d.BCH_RECOVERY_PASS_set_may_go_rw ≤ (rewind d c pass).next_recovery_pass
        rw [h]
        exact i3 hcur hpc
      · exact h

/-- Every reachable state satisfies the invariant. -/
theorem reachable_seq_inv (d : Decls) (hwf : d.wf) (s : sys) (h : reachable d s) :
    seq_inv d s := by
  induction h with
  | init c hc =>
    refine ⟨fun hf => ?_, fun p hp => ?_, fun _ hpc => ?_⟩
    · have := hc.2.2.2.2
      simp only [this] at hf
      cases hf
    · cases hp
    · rcases hpc with hpc | ⟨p, hpc⟩ <;> cases hpc
  | next s t _ hst ih => exact seq_inv_step d hwf s t hst ih

/-- Under the invariant, a step does not move the cursor from
`set_may_go_rw` or above to below it. -/
theorem step_keeps_boundary (d : Decls) (hwf : d.wf) (s t : sys) (h : step d s t)
    (hi : seq_inv d s)
    (hcur : d.BCH_RECOVERY_PASS_set_may_go_rw ≤ s.c.curr_recovery_pass) :
    d.BCH_RECOVERY_PASS_set_may_go_rw ≤ t.c.curr_recovery_pass := by
  obtain ⟨_, _, i3⟩ := hi
  cases h with
  | leave c _ => exact hcur
  | arm c _ => exact hcur
  | stop c _ => exact hcur
  | skip c c1 hd =>
    have hc1 := iter_decide_skip d c c1 hd
    subst hc1
    show d.BCH_RECOVERY_PASS_set_may_go_rw ≤ c.curr_recovery_pass + 1
    have : d.BCH_RECOVERY_PASS_set_may_go_rw ≤ c.curr_recovery_pass := hcur
    omega
  | start c pass _ => exact hcur
  | finish c pass e =>
    obtain ⟨F, R, ret, _, h2, _⟩ := finish_pass_fs d hwf c pass e
    simp only [h2, post_pass_curr]
    exact i3 hcur (Or.inr ⟨pass, rfl⟩)
  | request c pc pass =>
    simp only [rewind_curr]
    exact hcur

/-- C10: in the system whose steps are the sequencer's steps and rewind
requests, started from a fresh context, the flag `BCH_FS_may_go_rw` is set
only in states whose cursor has reached `set_may_go_rw`; and from a
reachable state whose cursor has reached `set_may_go_rw`, in every later
state the cursor is still at or above it, a pass that is running has an
ordinal at or above it, and a rewind request either leaves the next ordinal
alone or sets it to an ordinal at or above it. -/
theorem cursor_stays_at_or_above_rw (d : Decls) (hwf : d.wf) (s s1 : sys)
    (hs : reachable d s) (hsteps : Relation.ReflTransGen (step d) s s1) :
    (s1.c.flags.testBit d.BCH_FS_may_go_rw = true →
      d.BCH_RECOVERY_PASS_set_may_go_rw ≤ s1.c.curr_recovery_pass) ∧
    (d.BCH_RECOVERY_PASS_set_may_go_rw ≤ s.c.curr_recovery_pass →
      d.BCH_RECOVERY_PASS_set_may_go_rw ≤ s1.c.curr_recovery_pass ∧
      (∀ p, s1.pc = loc.running p → d.BCH_RECOVERY_PASS_set_may_go_rw ≤ p) ∧
      ∀ t, (rewind d s1.c t).next_recovery_pass = s1.c.next_recovery_pass ∨
        d.BCH_RECOVERY_PASS_set_may_go_rw ≤ (rewind d s1.c t).next_recovery_pass) := by
  have key : reachable d s1 ∧
      (d.BCH_RECOVERY_PASS_set_may_go_rw ≤ s.c.curr_recovery_pass →
        d.BCH_RECOVERY_PASS_set_may_go_rw ≤ s1.c.curr_recovery_pass) := by
    induction hsteps with
    | refl => exact ⟨hs, fun h => h⟩
    | tail _ hstep ih =>
      exact ⟨reachable.next _ _ ih.1 hstep,
        fun h => step_keeps_boundary d hwf _ _ hstep (reachable_seq_inv d hwf _ ih.1) (ih.2 h)⟩
  obtain ⟨hr, hmono⟩ := key
  obtain ⟨i1, i2, _⟩ := reachable_seq_inv d hwf s1 hr
  refine ⟨i1, fun h => ⟨hmono h, fun p hp => ?_, fun t => rewind_next d s1.c t (hmono h)⟩⟩
  have hp1 : p = s1.c.curr_recovery_pass := i2 p hp
  have := hmono h
  omega

/-- The state after the first iteration over `boundary_decls` from
`example_fs`: the fsck pass of ordinal 0 is skipped and the cursor is at
`set_may_go_rw`. -/
theorem boundary_fs_reachable : reachable boundary_decls ⟨boundary_fs, loc.top⟩ :=
  reachable.next _ _
    (reachable.next _ _
      (reachable.init example_fs (by decide))
      (step.arm example_fs (by decide)))
    (step.skip (iter_arm example_fs) boundary_fs (by decide))

theorem cursor_stays_at_or_above_rw_witness :
    1 ≤ (rewind boundary_decls boundary_fs 0).curr_recovery_pass ∧
    ((rewind boundary_decls (rewind boundary_decls boundary_fs 0) 0).next_recovery_pass =
        (rewind boundary_decls boundary_fs 0).next_recovery_pass ∨
      1 ≤ (rewind boundary_decls (rewind boundary_decls boundary_fs 0) 0).next_recovery_pass) :=
  have h := (cursor_stays_at_or_above_rw boundary_decls (by decide)
    ⟨boundary_fs, loc.top⟩ ⟨rewind boundary_decls boundary_fs 0, loc.top⟩
    boundary_fs_reachable
    (Relation.ReflTransGen.single (step.request boundary_fs loc.top 0))).2 (by decide)
  ⟨h.1, h.2.2 0⟩

/-- C9, as stated, fails.  Over `boundary_decls` (`set_may_go_rw` at ordinal
1 of 3) with fsck requested, the passes 0 and 1 run and leave the cursor at
2 with `BCH_FS_may_go_rw` set and ordinal 0 completed; the rewind request to
0, which is below `set_may_go_rw`, then returns success, not
`-BCH_ERR_cannot_rewind_recovery`. -/
theorem rewind_below_rw_to_completed_succeeds :
    (finish_pass boundary_decls
      (iter_arm (finish_pass boundary_decls
        (iter_arm { example_fs with opts_fsck := true }) 0 pass_ok).2.1) 1 pass_ok).2.1 =
      { example_fs with
        opts_fsck := true, curr_recovery_pass := 2, next_recovery_pass := 2,
        recovery_passes_complete := 3, recovery_pass_done := 1, flags := 8 } ∧
    ({ example_fs with
      opts_fsck := true, curr_recovery_pass := 2, next_recovery_pass := 2,
      recovery_passes_complete := 3, recovery_pass_done := 1, flags := 8 } : bch_fs).flags.testBit
        boundary_decls.BCH_FS_may_go_rw = true ∧
    (__bch2_run_explicit_recovery_pass boundary_decls []
      { example_fs with
        opts_fsck := true, curr_recovery_pass := 2, next_recovery_pass := 2,
        recovery_passes_complete := 3, recovery_pass_done := 1, flags := 8 } 0).1 = 0 ∧
    (__bch2_run_explicit_recovery_pass boundary_decls []
      { example_fs with
        opts_fsck := true, curr_recovery_pass := 2, next_recovery_pass := 2,
        recovery_passes_complete := 3, recovery_pass_done := 1, flags := 8 } 0).1 ≠ -2002 := by
  decide

/-- C9, amended: in every state the system reaches from a fresh context in
which `BCH_FS_may_go_rw` is set and the sequencer has not finished, a rewind
request to a target below `set_may_go_rw` that is not in the completed set
returns `-BCH_ERR_cannot_rewind_recovery` and leaves every field of the
context as it was.  (The code tests the cursor against `set_may_go_rw`; in
these states the flag implies that test.) -/
theorem rewind_below_rw_boundary_rejected (d : Decls) (out : printbuf) (s : sys) (t : Nat)
    (hwf : d.wf) (hs : reachable d s)
    (hflag : s.c.flags.testBit d.BCH_FS_may_go_rw = true)
    (hrun : s.c.curr_recovery_pass ≠ ARRAY_SIZE_recovery_pass_fns d)
    (ht : t < d.BCH_RECOVERY_PASS_set_may_go_rw)
    (hnd : s.c.recovery_passes_complete.testBit t = false) :
    (__bch2_run_explicit_recovery_pass d out s.c t).1 =
      -(d.BCH_ERR_cannot_rewind_recovery : Int) ∧
    (__bch2_run_explicit_recovery_pass d out s.c t).2.2 = s.c :=
  rewind_rejected_at_boundary d out s.c t hwf hrun
    ((reachable_seq_inv d hwf s hs).1 hflag) ht hnd

theorem rewind_below_rw_boundary_rejected_witness :
    (__bch2_run_explicit_recovery_pass boundary_decls []
      (finish_pass boundary_decls (iter_arm boundary_fs) 1 pass_ok).2.1 0).1 = -2002 ∧
    (__bch2_run_explicit_recovery_pass boundary_decls []
      (finish_pass boundary_decls (iter_arm boundary_fs) 1 pass_ok).2.1 0).2.2 =
      (finish_pass boundary_decls (iter_arm boundary_fs) 1 pass_ok).2.1 :=
  rewind_below_rw_boundary_rejected boundary_decls []
    ⟨(finish_pass boundary_decls (iter_arm boundary_fs) 1 pass_ok).2.1,
      if (finish_pass boundary_decls (iter_arm boundary_fs) 1 pass_ok).1 = 0 then loc.top
      else loc.exited (finish_pass boundary_decls (iter_arm boundary_fs) 1 pass_ok).1⟩
    0 (by decide)
    (reachable.next _ _
      (reachable.next _ _
        (reachable.next _ _ boundary_fs_reachable (step.arm boundary_fs (by decide)))
        (step.start (iter_arm boundary_fs) 1 (by decide)))
      (step.finish (iter_arm boundary_fs) 1 pass_ok))
    (by decide) (by decide) (by decide) (by decide)

/-! ## Accepted rewind requests: theorems -/

theorem testBit_or_BIT_ULL (x : Nat) {t : Nat} (ht : t < 64) (i : Nat) :
    (x ||| BIT_ULL t).testBit i = (x.testBit i || decide (i = t)) := by
  rw [BIT_ULL_eq ht, Nat.testBit_or, Nat.testBit_two_pow]
  by_cases h : t = i
  · subst h; simp
  · have h1 : ¬ i = t := fun e => h e.symm
    simp [h, h1]

/-- A rewind request that is neither refused nor a no-op: the buffer apart,
the outcome by the position of the target. -/
theorem rewind_accepted (d : Decls) (out : printbuf) (c : bch_fs) (t : Nat)
    (hrun : c.curr_recovery_pass ≠ ARRAY_SIZE_recovery_pass_fns d)
    (hnd : (c.recovery_passes_complete &&& BIT_ULL t) = 0)
    (hrw : ¬ (t < d.BCH_RECOVERY_PASS_set_may_go_rw ∧
        c.curr_recovery_pass ≥ d.BCH_RECOVERY_PASS_set_may_go_rw)) :
    (c.curr_recovery_pass ≤ t ∧
      (__bch2_run_explicit_recovery_pass d out c t).1 = 0 ∧
      (__bch2_run_explicit_recovery_pass d out c t).2.2 =
        { c with opts_recovery_passes := c.opts_recovery_passes ||| BIT_ULL t }) ∨
    (t < c.curr_recovery_pass ∧
      (__bch2_run_explicit_recovery_pass d out c t).1 = -(d.BCH_ERR_restart_recovery : Int) ∧
      (__bch2_run_explicit_recovery_pass d out c t).2.2 =
        { c with
          opts_recovery_passes := c.opts_recovery_passes ||| BIT_ULL t
          next_recovery_pass := t
          recovery_passes_complete := c.recovery_passes_complete &&& (shl_u64 1 t >>> 1) }) := by
  by_cases hlt : t < c.curr_recovery_pass
  · exact Or.inr ⟨hlt, rewind_accepted_below d out c t hrun hnd hrw hlt⟩
  · left
    have h2 : ¬ (c.recovery_passes_complete &&& BIT_ULL t) ≠ 0 := fun h => h hnd
    have h4 : ¬ c.curr_recovery_pass > t := hlt
    refine ⟨Nat.le_of_not_lt hlt, ?_, ?_⟩
    · unfold __bch2_run_explicit_recovery_pass
      rw [if_neg hrun, if_neg h2]
      simp only [if_neg hrw, if_neg h4]
    · unfold __bch2_run_explicit_recovery_pass
      rw [if_neg hrun, if_neg h2]
      simp only [if_neg hrw, if_neg h4]

/-- C11, as stated, fails: with the cursor at 3 and ordinal 2 in the exclude
set, the rewind request to 2 is accepted (status
`-BCH_ERR_restart_recovery`, ordinal 2 not completed before) and puts 2 into
the include set, but `should_run_recovery_pass` is false for 2 in the
resulting state. -/
theorem accepted_rewind_to_excluded_not_selected :
    (bch2_run_explicit_recovery_pass example_decls
      { example_fs with
        curr_recovery_pass := 3, next_recovery_pass := 4, recovery_passes_complete := 1,
        recovery_pass_done := 2, opts_recovery_passes_exclude := 4 } 2).1 = -2003 ∧
    ({ example_fs with
      curr_recovery_pass := 3, next_recovery_pass := 4, recovery_passes_complete := 1,
      recovery_pass_done := 2, opts_recovery_passes_exclude := 4
      } : bch_fs).recovery_passes_complete.testBit 2 = false ∧
    (rewind example_decls
      { example_fs with
        curr_recovery_pass := 3, next_recovery_pass := 4, recovery_passes_complete := 1,
        recovery_pass_done := 2, opts_recovery_passes_exclude := 4 }
      2).opts_recovery_passes.testBit 2 = true ∧
    should_run_recovery_pass example_decls
      (rewind example_decls
        { example_fs with
          curr_recovery_pass := 3, next_recovery_pass := 4, recovery_passes_complete := 1,
          recovery_pass_done := 2, opts_recovery_passes_exclude := 4 } 2) 2 = false := by
  decide

/-- C11, amended: after a rewind request to a valid ordinal `t` that is
accepted (the status is neither `-BCH_ERR_not_in_recovery` nor
`-BCH_ERR_cannot_rewind_recovery`, and `t` was not in the completed set),
`t` is in the include set, and `should_run_recovery_pass` is true for `t` in
the resulting state exactly when `t` is not in the exclude set and the pass
is not one flagged `PASS_ALLOC` on a filesystem without allocation info;
flags, fsck and the clean state do not matter. -/
theorem accepted_rewind_is_included (d : Decls) (c : bch_fs) (t : Nat) (hwf : d.wf)
    (ht : t < ARRAY_SIZE_recovery_pass_fns d)
    (h1 : (bch2_run_explicit_recovery_pass d c t).1 ≠ -(d.BCH_ERR_not_in_recovery : Int))
    (h2 : (bch2_run_explicit_recovery_pass d c t).1 ≠ -(d.BCH_ERR_cannot_rewind_recovery : Int))
    (hnd : c.recovery_passes_complete.testBit t = false) :
    (rewind d c t).opts_recovery_passes.testBit t = true ∧
    (should_run_recovery_pass d (rewind d c t) t = true ↔
      (¬ ((when_of d t &&& d.PASS_ALLOC) ≠ 0 ∧
          c.sb_features.testBit d.BCH_FEATURE_no_alloc_info = true) ∧
        c.opts_recovery_passes_exclude.testBit t = false)) := by
  have ht64 := ordinal_lt_64 hwf ht
  have hnd0 : (c.recovery_passes_complete &&& BIT_ULL t) = 0 :=
    (and_BIT_ULL_eq_zero_iff _ ht64).2 hnd
  have hn0 : ¬ (c.recovery_passes_complete &&& BIT_ULL t) ≠ 0 := fun h => h hnd0
  have hrun : c.curr_recovery_pass ≠ ARRAY_SIZE_recovery_pass_fns d := by
    intro h
    apply h1
    unfold bch2_run_explicit_recovery_pass __bch2_run_explicit_recovery_pass
    rw [if_pos h]
  have hrw : ¬ (t < d.BCH_RECOVERY_PASS_set_may_go_rw ∧
      c.curr_recovery_pass ≥ d.BCH_RECOVERY_PASS_set_may_go_rw) := by
    intro h
    apply h2
    unfold bch2_run_explicit_recovery_pass __bch2_run_explicit_recovery_pass
    rw [if_neg hrun, if_neg hn0]
    simp only [if_pos h]
  have hfields : (rewind d c t).opts_recovery_passes = c.opts_recovery_passes ||| BIT_ULL t ∧
      (rewind d c t).opts_recovery_passes_exclude = c.opts_recovery_passes_exclude ∧
      (rewind d c t).sb_features = c.sb_features ∧
      (rewind d c t).opts_fsck = c.opts_fsck ∧ (rewind d c t).sb_clean = c.sb_clean := by
    unfold rewind bch2_run_explicit_recovery_pass
    rcases rewind_accepted d [] c t hrun hnd0 hrw with ⟨_, _, h⟩ | ⟨_, _, h⟩ <;>
      rw [h] <;> exact ⟨rfl, rfl, rfl, rfl, rfl⟩
  obtain ⟨f1, f2, f3, f4, f5⟩ := hfields
  have hin : (rewind d c t).opts_recovery_passes.testBit t = true := by
    rw [f1, testBit_or_BIT_ULL _ ht64]; simp
  refine ⟨hin, ?_⟩
  have hI := (and_BIT_ULL_ne_zero_iff (rewind d c t).opts_recovery_passes ht64).2 hin
  have hF := and_BIT_ULL_ne_zero_iff c.sb_features hwf.2.2.1
  have hX := and_BIT_ULL_ne_zero_iff c.opts_recovery_passes_exclude ht64
  unfold should_run_recovery_pass
  simp only [f2, f3, hF, hX]
  by_cases ha : (when_of d t &&& d.PASS_ALLOC) ≠ 0 ∧
      c.sb_features.testBit d.BCH_FEATURE_no_alloc_info = true
  · rw [if_pos ha]; simp [ha]
  · rw [if_neg ha]
    by_cases hx : c.opts_recovery_passes_exclude.testBit t = true
    · rw [if_pos hx]; simp [hx]
    · rw [if_neg hx, if_pos hI]
      simp only [Bool.not_eq_true] at hx
      simp [ha, hx]

theorem accepted_rewind_is_included_witness :
    (rewind example_decls
      { example_fs with curr_recovery_pass := 3, recovery_passes_complete := 1 }
      2).opts_recovery_passes.testBit 2 = true :=
  (accepted_rewind_is_included example_decls
    { example_fs with curr_recovery_pass := 3, recovery_passes_complete := 1 } 2
    (by decide) (by decide) (by decide) (by decide) (by decide)).1

/-- C12: for a rewind request to a valid ordinal at or above the cursor,
with the sequencer not finished and the target not in the completed set
(the read-write boundary cannot block such a target), the status is 0 and
the context changes in the include set only, which gains the target: the
cursor, the next ordinal, the completed set, the watermark and the exclude
set are as before. -/
theorem rewind_at_or_above_cursor (d : Decls) (out : printbuf) (c : bch_fs) (t : Nat)
    (hwf : d.wf) (ht : t < ARRAY_SIZE_recovery_pass_fns d)
    (hrun : c.curr_recovery_pass ≠ ARRAY_SIZE_recovery_pass_fns d)
    (hnd : c.recovery_passes_complete.testBit t = false)
    (hge : c.curr_recovery_pass ≤ t) :
    (__bch2_run_explicit_recovery_pass d out c t).1 = 0 ∧
    (__bch2_run_explicit_recovery_pass d out c t).2.2 =
      { c with opts_recovery_passes := c.opts_recovery_passes ||| BIT_ULL t } ∧
    ∀ i, (c.opts_recovery_passes ||| BIT_ULL t).testBit i =
      (c.opts_recovery_passes.testBit i || decide (i = t)) := by
  have ht64 := ordinal_lt_64 hwf ht
  have hnd0 : (c.recovery_passes_complete &&& BIT_ULL t) = 0 :=
    (and_BIT_ULL_eq_zero_iff _ ht64).2 hnd
  have hrw : ¬ (t < d.BCH_RECOVERY_PASS_set_may_go_rw ∧
      c.curr_recovery_pass ≥ d.BCH_RECOVERY_PASS_set_may_go_rw) := by
    intro h
    have := h.1
    have := h.2
    omega
  rcases rewind_accepted d out c t hrun hnd0 hrw with ⟨_, h1, h2⟩ | ⟨hlt, _, _⟩
  · exact ⟨h1, h2, testBit_or_BIT_ULL _ ht64⟩
  · omega

theorem rewind_at_or_above_cursor_witness :
    (__bch2_run_explicit_recovery_pass example_decls []
      { example_fs with curr_recovery_pass := 1, recovery_passes_complete := 1 } 2).1 = 0 ∧
    (__bch2_run_explicit_recovery_pass example_decls []
      { example_fs with curr_recovery_pass := 1, recovery_passes_complete := 1 } 2).2.2 =
      { example_fs with
        curr_recovery_pass := 1, recovery_passes_complete := 1, opts_recovery_passes := 4 } :=
  have h := rewind_at_or_above_cursor example_decls []
    { example_fs with curr_recovery_pass := 1, recovery_passes_complete := 1 } 2
    (by decide) (by decide) (by decide) (by decide) (by decide)
  ⟨h.1, h.2.1⟩

/-! ## Persisted rewind requests: theorems -/

theorem loop_exit (d : Decls) (fuel : Nat) (env : List pass_exec) (c : bch_fs) (ret : Int)
    (tr : List event)
    (h : ¬ (c.curr_recovery_pass < ARRAY_SIZE_recovery_pass_fns d ∧ ret = 0)) :
    recovery_passes_loop d fuel env c ret tr = some (ret, c, tr) := by
  unfold recovery_passes_loop
  rw [if_neg h]

theorem loop_skip (d : Decls) (fuel : Nat) (env : List pass_exec) (c c2 : bch_fs)
    (tr : List event) (hc : c.curr_recovery_pass < ARRAY_SIZE_recovery_pass_fns d)
    (hd : iter_decide d (iter_arm c) = decision.skip c2) :
    recovery_passes_loop d (fuel + 1) env c 0 tr = recovery_passes_loop d fuel env c2 0 tr := by
  rw [recovery_passes_loop, if_pos ⟨hc, rfl⟩]
  simp only [hd]

theorem loop_run (d : Decls) (fuel : Nat) (e : pass_exec) (env : List pass_exec) (c : bch_fs)
    (pass : Nat) (tr : List event)
    (hc : c.curr_recovery_pass < ARRAY_SIZE_recovery_pass_fns d)
    (hd : iter_decide d (iter_arm c) = decision.run pass) :
    recovery_passes_loop d (fuel + 1) (e :: env) c 0 tr =
      recovery_passes_loop d fuel env
        (finish_pass d (rewinds d (iter_arm c) e.rewinds) pass e).2.1
        (finish_pass d (rewinds d (iter_arm c) e.rewinds) pass e).1
        (tr ++ (finish_pass d (rewinds d (iter_arm c) e.rewinds) pass e).2.2) := by
  rw [recovery_passes_loop, if_pos ⟨hc, rfl⟩]
  simp only [hd]

/-- The locked decision of an iteration in terms of the context at the loop
condition: within `recovery_pass_last`, the selection policy decides. -/
theorem iter_decide_arm (d : Decls) (c : bch_fs)
    (hlast : ¬ (c.opts_recovery_pass_last ≠ 0 ∧
      c.curr_recovery_pass > c.opts_recovery_pass_last)) :
    iter_decide d (iter_arm c) =
      if should_run_recovery_pass d c c.curr_recovery_pass = true then
        decision.run c.curr_recovery_pass
      else
        decision.skip { c with
          next_recovery_pass := c.curr_recovery_pass + 1
          curr_recovery_pass := c.curr_recovery_pass + 1
          recovery_pass_done := max c.recovery_pass_done c.curr_recovery_pass } := by
  have hs : should_run_recovery_pass d (iter_arm c) c.curr_recovery_pass =
      should_run_recovery_pass d c c.curr_recovery_pass := rfl
  have hl : ¬ ((iter_arm c).opts_recovery_pass_last ≠ 0 ∧
      (iter_arm c).curr_recovery_pass > (iter_arm c).opts_recovery_pass_last) := hlast
  unfold iter_decide
  simp only []
  rw [if_neg hl]
  have hcur : (iter_arm c).curr_recovery_pass = c.curr_recovery_pass := rfl
  rw [hcur, hs]
  by_cases h : should_run_recovery_pass d c c.curr_recovery_pass = true
  · simp only [h, not_true_eq_false, if_false, if_true]
  · simp only [h, not_false_eq_true, if_true, if_false]
    rfl

/-- C16: in an iteration at cursor `p` within `recovery_pass_last` with
`should_run_recovery_pass` false for `p`, the locked region of lines 317-332
ends with the `continue` of line 330 in the context in which the cursor and
the next ordinal are `p + 1` and the watermark is the maximum of the old
watermark and `p`, every other field, the completed set and the persisted
required-set among them, being unchanged; the loop goes on from that context
with the same trace and the same pending pass descriptions (no pass function
is called, the journal is not flushed); and when `p` is the last ordinal the
loop returns status 0 with that context and the trace unchanged. -/
theorem skipped_pass_bookkeeping (d : Decls) (fuel : Nat) (env : List pass_exec) (c : bch_fs)
    (tr : List event) (hc : c.curr_recovery_pass < ARRAY_SIZE_recovery_pass_fns d)
    (hlast : ¬ (c.opts_recovery_pass_last ≠ 0 ∧
      c.curr_recovery_pass > c.opts_recovery_pass_last))
    (hskip : should_run_recovery_pass d c c.curr_recovery_pass = false) :
    iter_decide d (iter_arm c) =
      decision.skip
        { c with
          next_recovery_pass := c.curr_recovery_pass + 1
          curr_recovery_pass := c.curr_recovery_pass + 1
          recovery_pass_done := max c.recovery_pass_done c.curr_recovery_pass } ∧
    recovery_passes_loop d (fuel + 1) env c 0 tr =
      recovery_passes_loop d fuel env
        { c with
          next_recovery_pass := c.curr_recovery_pass + 1
          curr_recovery_pass := c.curr_recovery_pass + 1
          recovery_pass_done := max c.recovery_pass_done c.curr_recovery_pass }
        0 tr ∧
    (¬ c.curr_recovery_pass + 1 < ARRAY_SIZE_recovery_pass_fns d →
      recovery_passes_loop d (fuel + 1) env c 0 tr =
        some (0,
          { c with
            next_recovery_pass := c.curr_recovery_pass + 1
            curr_recovery_pass := c.curr_recovery_pass + 1
            recovery_pass_done := max c.recovery_pass_done c.curr_recovery_pass },
          tr)) := by
  have hd := iter_decide_arm d c hlast
  have hs : ¬ should_run_recovery_pass d c c.curr_recovery_pass = true := by
    rw [hskip]; simp
  rw [if_neg hs] at hd
  refine ⟨hd, loop_skip d fuel env c _ tr hc hd, fun hend => ?_⟩
  rw [loop_skip d fuel env c _ tr hc hd]
  exact loop_exit d fuel env _ 0 tr (fun h => hend h.1)

theorem skipped_pass_bookkeeping_witness :
    iter_decide scenario_decls
        (iter_arm { example_fs with
          curr_recovery_pass := 4, next_recovery_pass := 4, recovery_passes_complete := 1,
          recovery_pass_done := 3 }) =
      decision.skip
        { example_fs with
          curr_recovery_pass := 5, next_recovery_pass := 5, recovery_passes_complete := 1,
          recovery_pass_done := 4 } ∧
    recovery_passes_loop scenario_decls (0 + 1) []
        { example_fs with
          curr_recovery_pass := 4, next_recovery_pass := 4, recovery_passes_complete := 1,
          recovery_pass_done := 3 } 0 [] =
      some (0,
        { example_fs with
          curr_recovery_pass := 5, next_recovery_pass := 5, recovery_passes_complete := 1,
          recovery_pass_done := 4 },
        []) :=
  have h := skipped_pass_bookkeeping scenario_decls 0 []
    { example_fs with
      curr_recovery_pass := 4, next_recovery_pass := 4, recovery_passes_complete := 1,
      recovery_pass_done := 3 } [] (by decide) (by decide) (by decide)
  ⟨h.1, h.2.2 (by decide)⟩

/-- The fields a rewind request never changes. -/
theorem rewind_frame (d : Decls) (c : bch_fs) (t : Nat) :
    (rewind d c t).recovery_pass_done = c.recovery_pass_done ∧
    (rewind d c t).recovery_passes_required = c.recovery_passes_required ∧
    (rewind d c t).opts_recovery_passes_exclude = c.opts_recovery_passes_exclude := by
  rcases rewind_cases d c t with h | h | ⟨_, _, h⟩ <;> rw [h] <;> exact ⟨rfl, rfl, rfl⟩

theorem rewinds_frame (d : Decls) (ts : List Nat) (c : bch_fs) :
    (rewinds d c ts).recovery_pass_done = c.recovery_pass_done ∧
    (rewinds d c ts).recovery_passes_required = c.recovery_passes_required ∧
    (rewinds d c ts).opts_recovery_passes_exclude = c.opts_recovery_passes_exclude := by
  induction ts generalizing c with
  | nil => exact ⟨rfl, rfl, rfl⟩
  | cons t ts ih =>
    obtain ⟨a1, a2, a3⟩ := ih (rewind d c t)
    obtain ⟨b1, b2, b3⟩ := rewind_frame d c t
    exact ⟨a1.trans b1, a2.trans b2, a3.trans b3⟩

/-- While the next ordinal is still the cursor plus one, no rewind request
has touched the completed set. -/
theorem rewinds_without_restart (d : Decls) (ts : List Nat) (c : bch_fs) (K X : Nat)
    (hK : c.curr_recovery_pass = K)
    (h : (c.next_recovery_pass = K + 1 ∧ c.recovery_passes_complete = X) ∨
      c.next_recovery_pass < K) :
    ((rewinds d c ts).next_recovery_pass = K + 1 ∧
        (rewinds d c ts).recovery_passes_complete = X) ∨
      (rewinds d c ts).next_recovery_pass < K := by
  induction ts generalizing c with
  | nil => exact h
  | cons t ts ih =>
    apply ih (rewind d c t)
    · rw [rewind_curr]; exact hK
    · rcases rewind_cases d c t with e | e | ⟨hlt, _, e⟩
      · rw [e]; exact h
      · rw [e]; exact h
      · right
        rw [e]
        show t < K
        omega

/-- Lines 334-338 change `c->flags` and the persisted required-set only. -/
theorem run_and_flush_frame (d : Decls) (c : bch_fs) (pass : Nat) (e : pass_exec) :
    ∃ F R, (run_and_flush d c pass e).2.1 =
      { c with flags := F, recovery_passes_required := R } := by
  have hcall : ∃ F, (call_fn d c pass e).2.1 = { c with flags := F } := by
    unfold call_fn
    simp only []
    by_cases hp : pass = d.BCH_RECOVERY_PASS_set_may_go_rw
    · rw [if_pos hp, bch2_set_may_go_rw_fs]
      split_ifs <;> exact ⟨_, rfl⟩
    · rw [if_neg hp]
      split_ifs <;> exact ⟨_, rfl⟩
  obtain ⟨F, hF⟩ := hcall
  unfold run_and_flush bch2_clear_recovery_pass_required
  simp only [bch2_run_recovery_pass_fs, hF]
  split_ifs <;> exact ⟨F, _, rfl⟩

/-- C15: in an iteration at a valid cursor `p` within `recovery_pass_last`
with `should_run_recovery_pass` true for `p`, where the pass and the journal
flush succeed and the next ordinal is still `p + 1` when the pass returns,
lines 334-355 end with status 0 and the loop goes on from their context, in
which the completed set is the old one with bit `p` added, the watermark is
the maximum of the old watermark and `p`, and the cursor is `p + 1`. -/
theorem completed_pass_bookkeeping (d : Decls) (fuel : Nat) (e : pass_exec)
    (env : List pass_exec) (c : bch_fs) (tr : List event) (hwf : d.wf)
    (hc : c.curr_recovery_pass < ARRAY_SIZE_recovery_pass_fns d)
    (hlast : ¬ (c.opts_recovery_pass_last ≠ 0 ∧
      c.curr_recovery_pass > c.opts_recovery_pass_last))
    (hsel : should_run_recovery_pass d c c.curr_recovery_pass = true)
    (hok : (run_and_flush d (rewinds d (iter_arm c) e.rewinds) c.curr_recovery_pass e).1 = 0)
    (hnext : (rewinds d (iter_arm c) e.rewinds).next_recovery_pass =
      c.curr_recovery_pass + 1) :
    (finish_pass d (rewinds d (iter_arm c) e.rewinds) c.curr_recovery_pass e).1 = 0 ∧
    recovery_passes_loop d (fuel + 1) (e :: env) c 0 tr =
      recovery_passes_loop d fuel env
        (finish_pass d (rewinds d (iter_arm c) e.rewinds) c.curr_recovery_pass e).2.1 0
        (tr ++ (finish_pass d (rewinds d (iter_arm c) e.rewinds) c.curr_recovery_pass e).2.2) ∧
    (∀ i, (finish_pass d (rewinds d (iter_arm c) e.rewinds) c.curr_recovery_pass
        e).2.1.recovery_passes_complete.testBit i =
      (c.recovery_passes_complete.testBit i || decide (i = c.curr_recovery_pass))) ∧
    (finish_pass d (rewinds d (iter_arm c) e.rewinds) c.curr_recovery_pass
      e).2.1.recovery_pass_done = max c.recovery_pass_done c.curr_recovery_pass ∧
    (finish_pass d (rewinds d (iter_arm c) e.rewinds) c.curr_recovery_pass
      e).2.1.curr_recovery_pass = c.curr_recovery_pass + 1 := by
  have hd := iter_decide_arm d c hlast
  rw [if_pos hsel] at hd
  have hloop := loop_run d fuel e env c _ tr hc hd
  have hcur : (rewinds d (iter_arm c) e.rewinds).curr_recovery_pass = c.curr_recovery_pass := by
    rw [rewinds_curr]; rfl
  have hcompl : (rewinds d (iter_arm c) e.rewinds).recovery_passes_complete =
      c.recovery_passes_complete := by
    rcases rewinds_without_restart d e.rewinds (iter_arm c) c.curr_recovery_pass
      c.recovery_passes_complete rfl (Or.inl ⟨rfl, rfl⟩) with h | h
    · exact h.2
    · omega
  have hdone : (rewinds d (iter_arm c) e.rewinds).recovery_pass_done = c.recovery_pass_done :=
    (rewinds_frame d e.rewinds (iter_arm c)).1
  obtain ⟨F, R, hF⟩ :=
    run_and_flush_frame d (rewinds d (iter_arm c) e.rewinds) c.curr_recovery_pass e
  have hnl : ¬ ({ rewinds d (iter_arm c) e.rewinds with
      flags := F, recovery_passes_required := R } : bch_fs).next_recovery_pass <
      ({ rewinds d (iter_arm c) e.rewinds with
      flags := F, recovery_passes_required := R } : bch_fs).curr_recovery_pass := by
    show ¬ (rewinds d (iter_arm c) e.rewinds).next_recovery_pass <
      (rewinds d (iter_arm c) e.rewinds).curr_recovery_pass
    omega
  have hfin : finish_pass d (rewinds d (iter_arm c) e.rewinds) c.curr_recovery_pass e =
      (0, { rewinds d (iter_arm c) e.rewinds with
          flags := F
          recovery_passes_required := R
          recovery_passes_complete :=
            (rewinds d (iter_arm c) e.rewinds).recovery_passes_complete |||
              BIT_ULL c.curr_recovery_pass
          recovery_pass_done :=
            max (rewinds d (iter_arm c) e.rewinds).recovery_pass_done c.curr_recovery_pass
          curr_recovery_pass := (rewinds d (iter_arm c) e.rewinds).next_recovery_pass },
        (run_and_flush d (rewinds d (iter_arm c) e.rewinds) c.curr_recovery_pass e).2.2) := by
    unfold finish_pass post_pass
    simp only [hF, hok]
    rw [if_neg hnl]
  have hret : (finish_pass d (rewinds d (iter_arm c) e.rewinds) c.curr_recovery_pass e).1 = 0 := by
    rw [hfin]
  rw [hret] at hloop
  refine ⟨hret, hloop, fun i => ?_, ?_, ?_⟩
  · rw [hfin]
    show ((rewinds d (iter_arm c) e.rewinds).recovery_passes_complete |||
      BIT_ULL c.curr_recovery_pass).testBit i = _
    rw [hcompl, testBit_or_BIT_ULL _ (ordinal_lt_64 hwf hc)]
  · rw [hfin]
    show max (rewinds d (iter_arm c) e.rewinds).recovery_pass_done c.curr_recovery_pass = _
    rw [hdone]
  · rw [hfin]
    exact hnext

theorem completed_pass_bookkeeping_witness :
    (finish_pass example_decls (rewinds example_decls (iter_arm example_fs) pass_ok.rewinds)
      example_fs.curr_recovery_pass pass_ok).2.1.curr_recovery_pass =
      example_fs.curr_recovery_pass + 1 :=
  (completed_pass_bookkeeping example_decls 3 pass_ok [] example_fs [] (by decide) (by decide)
    (by decide) (by decide) (by decide) (by decide)).2.2.2.2

/-! ## Failing passes: theorems -/

theorem call_fn_no_pass_fn (d : Decls) (c : bch_fs) (pass : Nat) (e : pass_exec) :
    (call_fn d c pass e).2.2.filter event.is_pass_fn = [] := by
  unfold call_fn bch2_set_may_go_rw
  simp only []
  split_ifs <;> rfl

/-- The events of one call of `bch2_run_recovery_pass` hold one call of a
pass function, that of the pass. -/
theorem bch2_run_recovery_pass_one_fn (d : Decls) (c : bch_fs) (pass : Nat) (e : pass_exec) :
    (bch2_run_recovery_pass d c pass e).2.2.filter event.is_pass_fn = [event.pass_fn pass] := by
  have h := call_fn_no_pass_fn d c pass e
  unfold bch2_run_recovery_pass
  simp only []
  split_ifs <;> simp [List.filter_append, h, event.is_pass_fn]

/-- The events of lines 334-338 hold one call of a pass function, that of
the pass. -/
theorem run_and_flush_one_fn (d : Decls) (c : bch_fs) (pass : Nat) (e : pass_exec) :
    (run_and_flush d c pass e).2.2.filter event.is_pass_fn = [event.pass_fn pass] := by
  have h := bch2_run_recovery_pass_one_fn d c pass e
  unfold run_and_flush bch2_clear_recovery_pass_required
  simp only []
  split_ifs <;> simp [List.filter_append, h, event.is_pass_fn]

/-- C13, as stated, fails.  Over `restart_decls` the pass of ordinal 2
returns -5, which is not `-BCH_ERR_restart_recovery` (-2003), while a rewind
request to ordinal 1 is accepted; the run does not stop there: it goes on
with the passes 1 and 2 and returns 0. -/
theorem failing_pass_with_rewind_is_restarted :
    bch2_run_recovery_passes restart_decls 10
        [pass_ok, pass_fails_with_rewind, pass_ok, pass_ok] example_fs =
      some (0,
        { example_fs with
          curr_recovery_pass := 3, next_recovery_pass := 3, recovery_passes_complete := 7,
          recovery_pass_done := 2, opts_recovery_passes := 2, flags := 8 },
        [event.pass_fn 0, event.journal_flush,
          event.print_pass 2, event.pass_fn 2,
          event.print_pass 1, event.pass_fn 1, event.print_done, event.journal_flush,
          event.print_pass 2, event.pass_fn 2, event.print_done, event.journal_flush]) := by
  decide!

/-- C13, amended: in an iteration of the loop that runs the pass at the
cursor, if the pass function or the journal flush after it returns a nonzero
status and the next ordinal is not below the cursor when the pass returns
(no rewind request to a target below the cursor was accepted meanwhile), then
`bch2_run_recovery_passes` leaves the loop there: it returns exactly that
status, and the trace ends with the events of this pass, which hold the call
of its function and no other call of a pass function. -/
theorem failing_pass_ends_run (d : Decls) (fuel : Nat) (e : pass_exec) (env : List pass_exec)
    (c : bch_fs) (tr : List event)
    (hc : c.curr_recovery_pass < ARRAY_SIZE_recovery_pass_fns d)
    (hrun : iter_decide d (iter_arm c) = decision.run c.curr_recovery_pass)
    (hfail : (run_and_flush d (rewinds d (iter_arm c) e.rewinds) c.curr_recovery_pass e).1 ≠ 0)
    (hnorew : ¬ (rewinds d (iter_arm c) e.rewinds).next_recovery_pass <
      (rewinds d (iter_arm c) e.rewinds).curr_recovery_pass) :
    recovery_passes_loop d (fuel + 1) (e :: env) c 0 tr =
      some ((run_and_flush d (rewinds d (iter_arm c) e.rewinds) c.curr_recovery_pass e).1,
        (finish_pass d (rewinds d (iter_arm c) e.rewinds) c.curr_recovery_pass e).2.1,
        tr ++ (run_and_flush d (rewinds d (iter_arm c) e.rewinds) c.curr_recovery_pass e).2.2) ∧
    (run_and_flush d (rewinds d (iter_arm c) e.rewinds) c.curr_recovery_pass e).1 =
      (if (bch2_run_recovery_pass d (rewinds d (iter_arm c) e.rewinds)
          c.curr_recovery_pass e).1 ≠ 0
        then (bch2_run_recovery_pass d (rewinds d (iter_arm c) e.rewinds)
          c.curr_recovery_pass e).1
        else e.flush_ret) ∧
    (run_and_flush d (rewinds d (iter_arm c) e.rewinds) c.curr_recovery_pass
      e).2.2.filter event.is_pass_fn = [event.pass_fn c.curr_recovery_pass] := by
  obtain ⟨F, R, hF⟩ :=
    run_and_flush_frame d (rewinds d (iter_arm c) e.rewinds) c.curr_recovery_pass e
  have hnl : ¬ ({ rewinds d (iter_arm c) e.rewinds with
      flags := F, recovery_passes_required := R } : bch_fs).next_recovery_pass <
      ({ rewinds d (iter_arm c) e.rewinds with
      flags := F, recovery_passes_required := R } : bch_fs).curr_recovery_pass := hnorew
  have hret : (finish_pass d (rewinds d (iter_arm c) e.rewinds) c.curr_recovery_pass e).1 =
      (run_and_flush d (rewinds d (iter_arm c) e.rewinds) c.curr_recovery_pass e).1 := by
    unfold finish_pass post_pass
    simp only [hF]
    rw [if_neg hnl]
  have hev : (finish_pass d (rewinds d (iter_arm c) e.rewinds) c.curr_recovery_pass e).2.2 =
      (run_and_flush d (rewinds d (iter_arm c) e.rewinds) c.curr_recovery_pass e).2.2 := rfl
  refine ⟨?_, ?_, run_and_flush_one_fn d _ _ e⟩
  · rw [loop_run d fuel e env c _ tr hc hrun, hret, hev]
    apply loop_exit
    intro h
    exact hfail h.2
  · unfold run_and_flush bch2_clear_recovery_pass_required
    simp only []
    split_ifs <;> rfl

theorem failing_pass_ends_run_witness :
    recovery_passes_loop example_decls (3 + 1) (pass_fails :: [pass_ok]) example_fs 0 [] =
      some ((run_and_flush example_decls (rewinds example_decls (iter_arm example_fs)
          pass_fails.rewinds) example_fs.curr_recovery_pass pass_fails).1,
        (finish_pass example_decls (rewinds example_decls (iter_arm example_fs)
          pass_fails.rewinds) example_fs.curr_recovery_pass pass_fails).2.1,
        [] ++ (run_and_flush example_decls (rewinds example_decls (iter_arm example_fs)
          pass_fails.rewinds) example_fs.curr_recovery_pass pass_fails).2.2) :=
  (failing_pass_ends_run example_decls 3 pass_fails [pass_ok] example_fs []
    (by decide) (by decide) (by decide) (by decide)).1

/-- C14, the code at a failing input: over `example_decls` from the fresh
context, the pass of ordinal 0 returns -5 without any rewind request.  The
run stops with status -5, and lines 350-354 have set bit 0 of
`recovery_passes_complete` and moved the cursor to 1 although the pass
failed. -/
theorem failed_pass_is_marked_complete :
    bch2_run_recovery_passes example_decls 10 [pass_fails] example_fs =
      some (-5,
        { example_fs with
          curr_recovery_pass := 1, next_recovery_pass := 1, recovery_passes_complete := 1 },
        [event.print_pass 0, event.pass_fn 0]) := by
  decide!

/-- C17, the code at a failing input: over `example_decls`, where
`set_may_go_rw` is ordinal 5, a run starts with the ordinals 0, 2 and 5 in
the exclude set (bitmap 37).  Line 312 masks with the complement of the
number 5: the bits 0 and 2 are cleared and bit 5 stays set (bitmap 32), so
the pass 0 runs and the pass `set_may_go_rw` is skipped as excluded. -/
theorem exclude_mask_is_complement_of_ordinal :
    bch2_run_recovery_passes example_decls 10 [pass_ok]
        { example_fs with opts_recovery_passes_exclude := 37 } =
      some (0,
        { example_fs with
          curr_recovery_pass := 6, next_recovery_pass := 6, recovery_passes_complete := 1,
          recovery_pass_done := 5, opts_recovery_passes_exclude := 32 },
        [event.print_pass 0, event.pass_fn 0, event.print_done, event.journal_flush]) := by
  decide!

/-! ## The persisted required-set in the main loop: theorems -/

theorem testBit_translate_fold (map : List Nat) (v : Nat) (l : List Nat) (acc j : Nat) :
    (l.foldl
      (fun ret i => if (v &&& BIT_ULL i) ≠ 0 then ret ||| BIT_ULL (map.getD i 0) else ret)
      acc).testBit j = true ↔
    (acc.testBit j = true ∨
      ∃ i, i ∈ l ∧ (v &&& BIT_ULL i) ≠ 0 ∧ (BIT_ULL (map.getD i 0)).testBit j = true) := by
  induction l generalizing acc with
  | nil => simp
  | cons a l ih =>
    rw [List.foldl_cons, ih]
    by_cases h : (v &&& BIT_ULL a) ≠ 0
    · rw [if_pos h, Nat.testBit_or, Bool.or_eq_true]
      constructor
      · rintro ((h1 | h1) | ⟨i, hi, h2⟩)
        · exact Or.inl h1
        · exact Or.inr ⟨a, List.mem_cons_self a l, h, h1⟩
        · exact Or.inr ⟨i, List.mem_cons_of_mem a hi, h2⟩
      · rintro (h1 | ⟨i, hi, h2⟩)
        · exact Or.inl (Or.inl h1)
        · rcases List.mem_cons.1 hi with e | hi
          · subst e; exact Or.inl (Or.inr h2.2)
          · exact Or.inr ⟨i, hi, h2⟩
    · rw [if_neg h]
      constructor
      · rintro (h1 | ⟨i, hi, h2⟩)
        · exact Or.inl h1
        · exact Or.inr ⟨i, List.mem_cons_of_mem a hi, h2⟩
      · rintro (h1 | ⟨i, hi, h2⟩)
        · exact Or.inl h1
        · rcases List.mem_cons.1 hi with e | hi
          · subst e; exact absurd h2.1 h
          · exact Or.inr ⟨i, hi, h2⟩

/-- The bits of a translated bitmap, for a table of at most 64 entries that
are all below 64. -/
theorem testBit_translate_bits (map : List Nat) (v j : Nat) (hlen : map.length ≤ 64)
    (hent : ∀ x ∈ map, x < 64) :
    (translate_bits map v).testBit j = true ↔
      ∃ i, i < map.length ∧ v.testBit i = true ∧ map.getD i 0 = j := by
  unfold translate_bits
  rw [testBit_translate_fold]
  simp only [Nat.zero_testBit, Bool.false_eq_true, false_or, List.mem_range]
  constructor
  · rintro ⟨i, hi, h1, h2⟩
    have hi64 : i < 64 := Nat.lt_of_lt_of_le hi hlen
    have hm : map.getD i 0 < 64 := by
      rw [List.getD_eq_getElem _ _ hi]
      exact hent _ (List.getElem_mem hi)
    rw [BIT_ULL_eq hm, Nat.testBit_two_pow] at h2
    exact ⟨i, hi, (and_BIT_ULL_ne_zero_iff v hi64).1 h1, of_decide_eq_true h2⟩
  · rintro ⟨i, hi, h1, h2⟩
    have hi64 : i < 64 := Nat.lt_of_lt_of_le hi hlen
    have hm : map.getD i 0 < 64 := by
      rw [List.getD_eq_getElem _ _ hi]
      exact hent _ (List.getElem_mem hi)
    refine ⟨i, hi, (and_BIT_ULL_ne_zero_iff v hi64).2 h1, ?_⟩
    rw [BIT_ULL_eq hm, Nat.testBit_two_pow]
    exact decide_eq_true h2

theorem designated_length (ids l m : List Nat) :
    (l.foldl (fun m n => m.set (ids.getD n 0) n) m).length = m.length := by
  induction l generalizing m with
  | nil => rfl
  | cons a l ih => rw [List.foldl_cons, ih, List.length_set]

theorem designated_entries (ids l m : List Nat) (x : Nat)
    (hx : x ∈ l.foldl (fun m n => m.set (ids.getD n 0) n) m) : x ∈ m ∨ x ∈ l := by
  induction l generalizing m with
  | nil => exact Or.inl hx
  | cons a l ih =>
    rw [List.foldl_cons] at hx
    rcases ih _ hx with h | h
    · rcases List.mem_or_eq_of_mem_set h with h1 | h1
      · exact Or.inl h1
      · exact Or.inr (h1 ▸ List.mem_cons_self a l)
    · exact Or.inr (List.mem_cons_of_mem a h)

/-- An entry that no initializer designates keeps its value. -/
theorem designated_untouched (ids l m : List Nat) (p : Nat)
    (h : ∀ n ∈ l, ids.getD n 0 ≠ p) :
    (l.foldl (fun m n => m.set (ids.getD n 0) n) m).getD p 0 = m.getD p 0 := by
  induction l generalizing m with
  | nil => rfl
  | cons a l ih =>
    rw [List.foldl_cons, ih _ (fun n hn => h n (List.mem_cons_of_mem a hn))]
    have hne : ids.getD a 0 ≠ p := h a (List.mem_cons_self a l)
    generalize ids.getD a 0 = q at hne
    simp only [List.getD_eq_getElem?_getD, List.getElem?_set_ne hne]

/-- The entry designated by one initializer only holds the value of that
initializer. -/
theorem designated_hit (ids l m : List Nat) (n : Nat) (hn : n ∈ l) (hnd : l.Nodup)
    (hinj : ∀ a ∈ l, ∀ b ∈ l, ids.getD a 0 = ids.getD b 0 → a = b)
    (hlt : ids.getD n 0 < m.length) :
    (l.foldl (fun m n => m.set (ids.getD n 0) n) m).getD (ids.getD n 0) 0 = n := by
  induction l generalizing m with
  | nil => cases hn
  | cons a l ih =>
    rw [List.foldl_cons]
    have hnd1 := List.nodup_cons.1 hnd
    rcases List.mem_cons.1 hn with e | hl
    · subst e
      have hun : ∀ k ∈ l, ids.getD k 0 ≠ ids.getD n 0 := by
        intro k hk hek
        have : k = n := hinj k (List.mem_cons_of_mem n hk) n (List.mem_cons_self n l) hek
        exact hnd1.1 (this ▸ hk)
      rw [designated_untouched ids l _ _ hun]
      generalize ids.getD n 0 = q at hlt
      simp only [List.getD_eq_getElem?_getD, List.getElem?_set_eq_of_lt n hlt,
        Option.getD_some]
    · apply ih _ hl hnd1.2
      · intro x hx y hy
        exact hinj x (List.mem_cons_of_mem a hx) y (List.mem_cons_of_mem a hy)
      · rw [List.length_set]; exact hlt

theorem le_foldl_max (l : List Nat) (acc x : Nat) (h : x ∈ l ∨ x ≤ acc) :
    x ≤ l.foldl max acc := by
  induction l generalizing acc with
  | nil =>
    rcases h with h | h
    · cases h
    · exact h
  | cons a l ih =>
    rw [List.foldl_cons]
    apply ih
    rcases h with h | h
    · rcases List.mem_cons.1 h with e | h1
      · right; subst e; exact Nat.le_max_right acc x
      · left; exact h1
    · right; exact Nat.le_trans h (Nat.le_max_left acc a)

theorem foldl_max_lt (l : List Nat) (acc B : Nat) (hacc : acc < B) (h : ∀ x ∈ l, x < B) :
    l.foldl max acc < B := by
  induction l generalizing acc with
  | nil => exact hacc
  | cons a l ih =>
    rw [List.foldl_cons]
    apply ih
    · exact Nat.max_lt.2 ⟨hacc, h a (List.mem_cons_self a l)⟩
    · intro x hx; exact h x (List.mem_cons_of_mem a hx)

theorem passes_to_stable_map_length (d : Decls) :
    (passes_to_stable_map d).length = ARRAY_SIZE_recovery_pass_fns d := by
  unfold passes_to_stable_map ARRAY_SIZE_recovery_pass_fns recovery_pass_fns
  rw [List.length_map, List.length_map]

/-- The table `map[]` of `bch2_recovery_passes_from_stable` when the stable
ids are pairwise different and below 64 and there are at most 64 passes: it
has at most 64 entries, all below 64, and at the stable id of an ordinal it
holds that ordinal. -/
theorem stable_to_passes_map_spec (d : Decls) (hN : ARRAY_SIZE_recovery_pass_fns d ≤ 64)
    (hs : d.stable_wf) :
    (stable_to_passes_map d).length ≤ 64 ∧
    (∀ x ∈ stable_to_passes_map d, x < 64) ∧
    ∀ n, n < ARRAY_SIZE_recovery_pass_fns d →
      (passes_to_stable_map d).getD n 0 < (stable_to_passes_map d).length ∧
      (stable_to_passes_map d).getD ((passes_to_stable_map d).getD n 0) 0 = n := by
  obtain ⟨hnodup, hlt⟩ := hs
  have hlen := passes_to_stable_map_length d
  have hsize : ∀ n, n < ARRAY_SIZE_recovery_pass_fns d →
      (passes_to_stable_map d).getD n 0 < (stable_to_passes_map d).length := by
    intro n hn
    have hn1 : n < (passes_to_stable_map d).length := by rw [hlen]; exact hn
    have hmem : (passes_to_stable_map d).getD n 0 ∈ passes_to_stable_map d := by
      rw [List.getD_eq_getElem _ _ hn1]; exact List.getElem_mem hn1
    unfold stable_to_passes_map
    simp only []
    rw [designated_length, List.length_replicate]
    cases hids : passes_to_stable_map d with
    | nil => rw [hids] at hmem; cases hmem
    | cons a l =>
      simp only []
      rw [← hids]
      exact Nat.lt_succ_of_le (le_foldl_max _ 0 _ (Or.inl hmem))
  refine ⟨?_, ?_, fun n hn => ⟨hsize n hn, ?_⟩⟩
  · unfold stable_to_passes_map
    simp only []
    rw [designated_length, List.length_replicate]
    cases hids : passes_to_stable_map d with
    | nil => simp
    | cons a l =>
      simp only []
      rw [← hids]
      exact foldl_max_lt _ 0 64 (by decide) hlt
  · intro x hx
    unfold stable_to_passes_map at hx
    simp only [] at hx
    rcases designated_entries _ _ _ x hx with h | h
    · have := (List.mem_replicate.1 h).2
      omega
    · have := List.mem_range.1 h
      omega
  · have hn1 : n < (passes_to_stable_map d).length := by rw [hlen]; exact hn
    have hlt2 := hsize n hn
    unfold stable_to_passes_map at hlt2 ⊢
    simp only [] at hlt2 ⊢
    apply designated_hit _ _ _ n (List.mem_range.2 hn1) (List.nodup_range _)
    · intro a ha b hb hab
      have ha1 := List.mem_range.1 ha
      have hb1 := List.mem_range.1 hb
      rw [List.getD_eq_getElem _ _ ha1, List.getD_eq_getElem _ _ hb1] at hab
      exact (hnodup.getElem_inj_iff).1 hab
    · rw [designated_length] at hlt2
      exact hlt2

theorem testBit_to_stable (d : Decls) (hN : ARRAY_SIZE_recovery_pass_fns d ≤ 64)
    (hs : d.stable_wf) (v j : Nat) :
    (bch2_recovery_passes_to_stable d v).testBit j = true ↔
      ∃ i, i < ARRAY_SIZE_recovery_pass_fns d ∧ v.testBit i = true ∧
        (passes_to_stable_map d).getD i 0 = j := by
  unfold bch2_recovery_passes_to_stable
  rw [testBit_translate_bits _ _ _ (by rw [passes_to_stable_map_length]; exact hN) hs.2,
    passes_to_stable_map_length]

theorem testBit_from_stable (d : Decls) (hN : ARRAY_SIZE_recovery_pass_fns d ≤ 64)
    (hs : d.stable_wf) (w n : Nat) :
    (bch2_recovery_passes_from_stable d w).testBit n = true ↔
      ∃ j, j < (stable_to_passes_map d).length ∧ w.testBit j = true ∧
        (stable_to_passes_map d).getD j 0 = n := by
  obtain ⟨h1, h2, _⟩ := stable_to_passes_map_spec d hN hs
  unfold bch2_recovery_passes_from_stable
  rw [testBit_translate_bits _ _ _ h1 h2]

/-- A stable id of the table is the id of some ordinal. -/
theorem stable_id_of_ordinal (d : Decls) (j : Nat) (hj : j ∈ passes_to_stable_map d) :
    ∃ n, n < ARRAY_SIZE_recovery_pass_fns d ∧ (passes_to_stable_map d).getD n 0 = j := by
  obtain ⟨n, hn, e⟩ := List.mem_iff_getElem.1 hj
  refine ⟨n, by rw [← passes_to_stable_map_length]; exact hn, ?_⟩
  rw [List.getD_eq_getElem _ _ hn]; exact e

theorem from_to_stable (d : Decls) (hN : ARRAY_SIZE_recovery_pass_fns d ≤ 64)
    (hs : d.stable_wf) (v : Nat)
    (hv : ∀ i, v.testBit i = true → i < ARRAY_SIZE_recovery_pass_fns d) :
    bch2_recovery_passes_from_stable d (bch2_recovery_passes_to_stable d v) = v := by
  obtain ⟨_, _, h3⟩ := stable_to_passes_map_spec d hN hs
  apply Nat.eq_of_testBit_eq
  intro i
  rw [Bool.eq_iff_iff, testBit_from_stable d hN hs]
  constructor
  · rintro ⟨j, _, hj, e⟩
    obtain ⟨n, hn, hvn, e2⟩ := (testBit_to_stable d hN hs v j).1 hj
    have := (h3 n hn).2
    rw [e2, e] at this
    rw [this]; exact hvn
  · intro hi
    have hn := hv i hi
    refine ⟨(passes_to_stable_map d).getD i 0, (h3 i hn).1, ?_, (h3 i hn).2⟩
    exact (testBit_to_stable d hN hs v _).2 ⟨i, hn, hi, rfl⟩

theorem to_from_stable (d : Decls) (hN : ARRAY_SIZE_recovery_pass_fns d ≤ 64)
    (hs : d.stable_wf) (w : Nat)
    (hw : ∀ j, w.testBit j = true → j ∈ passes_to_stable_map d) :
    bch2_recovery_passes_to_stable d (bch2_recovery_passes_from_stable d w) = w := by
  obtain ⟨_, _, h3⟩ := stable_to_passes_map_spec d hN hs
  apply Nat.eq_of_testBit_eq
  intro j
  rw [Bool.eq_iff_iff, testBit_to_stable d hN hs]
  constructor
  · rintro ⟨n, hn, hb, e⟩
    obtain ⟨j1, _, hj1, e1⟩ := (testBit_from_stable d hN hs w n).1 hb
    obtain ⟨n1, hn1, e2⟩ := stable_id_of_ordinal d j1 (hw j1 hj1)
    have := (h3 n1 hn1).2
    rw [e2, e1] at this
    rw [← e, this, e2]; exact hj1
  · intro hj
    obtain ⟨n, hn, e⟩ := stable_id_of_ordinal d j (hw j hj)
    refine ⟨n, hn, ?_, e⟩
    refine (testBit_from_stable d hN hs w n).2 ⟨j, ?_, hj, ?_⟩
    · rw [← e]; exact (h3 n hn).1
    · rw [← e]; exact (h3 n hn).2

/-- Translating ordinals to stable ids keeps the number of set bits. -/
theorem popcount_to_stable (d : Decls) (hN : ARRAY_SIZE_recovery_pass_fns d ≤ 64)
    (hs : d.stable_wf) (v : Nat)
    (hv : ∀ i, v.testBit i = true → i < ARRAY_SIZE_recovery_pass_fns d) :
    popcount_u64 (bch2_recovery_passes_to_stable d v) = popcount_u64 v := by
  unfold popcount_u64
  have himg : (Finset.range 64).filter
      (fun j => (bch2_recovery_passes_to_stable d v).testBit j = true) =
      ((Finset.range 64).filter (fun i => v.testBit i = true)).image
        (fun i => (passes_to_stable_map d).getD i 0) := by
    ext j
    simp only [Finset.mem_filter, Finset.mem_range, Finset.mem_image]
    constructor
    · rintro ⟨_, hj⟩
      obtain ⟨i, hi, hvi, e⟩ := (testBit_to_stable d hN hs v j).1 hj
      exact ⟨i, ⟨Nat.lt_of_lt_of_le hi hN, hvi⟩, e⟩
    · rintro ⟨i, ⟨_, hvi⟩, e⟩
      have hi := hv i hvi
      refine ⟨?_, (testBit_to_stable d hN hs v j).2 ⟨i, hi, hvi, e⟩⟩
      rw [← e]
      have hi1 : i < (passes_to_stable_map d).length := by
        rw [passes_to_stable_map_length]; exact hi
      rw [List.getD_eq_getElem _ _ hi1]
      exact hs.2 _ (List.getElem_mem hi1)
  rw [himg]
  apply Finset.card_image_of_injOn
  intro a ha b hb hab
  simp only [Finset.coe_filter, Finset.mem_range, Set.mem_setOf_eq] at ha hb
  have ha1 : a < (passes_to_stable_map d).length := by
    rw [passes_to_stable_map_length]; exact hv a ha.2
  have hb1 : b < (passes_to_stable_map d).length := by
    rw [passes_to_stable_map_length]; exact hv b hb.2
  simp only [List.getD_eq_getElem _ _ ha1, List.getD_eq_getElem _ _ hb1] at hab
  exact (hs.1.getElem_inj_iff).1 hab

/-- C20: when the stable ids of the table are pairwise different and below
64 and there are at most 64 passes, the two translations are inverse to each
other: `from_stable (to_stable v) = v` for every bitmap `v` whose set bits
are ordinals of the table, `to_stable (from_stable w) = w` for every bitmap
`w` whose set bits are stable ids of the table, and both directions keep the
number of set bits. -/
theorem stable_translation_roundtrip (d : Decls) (hN : ARRAY_SIZE_recovery_pass_fns d ≤ 64)
    (hs : d.stable_wf) :
    (∀ v, (∀ i, v.testBit i = true → i < ARRAY_SIZE_recovery_pass_fns d) →
      bch2_recovery_passes_from_stable d (bch2_recovery_passes_to_stable d v) = v ∧
      popcount_u64 (bch2_recovery_passes_to_stable d v) = popcount_u64 v) ∧
    (∀ w, (∀ j, w.testBit j = true → j ∈ passes_to_stable_map d) →
      bch2_recovery_passes_to_stable d (bch2_recovery_passes_from_stable d w) = w ∧
      popcount_u64 (bch2_recovery_passes_from_stable d w) = popcount_u64 w) := by
  refine ⟨fun v hv => ⟨from_to_stable d hN hs v hv, popcount_to_stable d hN hs v hv⟩,
    fun w hw => ⟨to_from_stable d hN hs w hw, ?_⟩⟩
  have hvalid : ∀ i, (bch2_recovery_passes_from_stable d w).testBit i = true →
      i < ARRAY_SIZE_recovery_pass_fns d := by
    intro i hi
    obtain ⟨_, _, h3⟩ := stable_to_passes_map_spec d hN hs
    obtain ⟨j, _, hj, e⟩ := (testBit_from_stable d hN hs w i).1 hi
    obtain ⟨n, hn, e2⟩ := stable_id_of_ordinal d j (hw j hj)
    have := (h3 n hn).2
    rw [e2, e] at this
    rw [this]; exact hn
  have h := popcount_to_stable d hN hs (bch2_recovery_passes_from_stable d w) hvalid
  rw [to_from_stable d hN hs w hw] at h
  exact h.symm

theorem stable_translation_roundtrip_witness :
    bch2_recovery_passes_from_stable example_decls
      (bch2_recovery_passes_to_stable example_decls 43) = 43 ∧
    popcount_u64 (bch2_recovery_passes_to_stable example_decls 43) = popcount_u64 43 :=
  (stable_translation_roundtrip example_decls (by decide) (by decide)).1 43 (by
    intro i hi
    by_contra hge
    have h6 : 6 ≤ i := Nat.le_of_not_lt hge
    have : Nat.testBit 43 i = false :=
      Nat.testBit_lt_two_pow (Nat.lt_of_lt_of_le (by decide : 43 < 2 ^ 6)
        (Nat.pow_le_pow_right (by decide) h6))
    rw [this] at hi
    cases hi)

/-! ## The main loop: what an iteration keeps -/

/-- The fields a rewind request never changes. -/
theorem rewind_config (d : Decls) (c : bch_fs) (t : Nat) :
    (rewind d c t).opts_recovery_pass_last = c.opts_recovery_pass_last ∧
    (rewind d c t).opts_fsck = c.opts_fsck ∧
    (rewind d c t).sb_clean = c.sb_clean ∧
    (rewind d c t).sb_features = c.sb_features ∧
    (rewind d c t).flags = c.flags := by
  rcases rewind_cases d c t with h | h | ⟨_, _, h⟩ <;> rw [h] <;> exact ⟨rfl, rfl, rfl, rfl, rfl⟩

theorem rewinds_config (d : Decls) (ts : List Nat) (c : bch_fs) :
    (rewinds d c ts).opts_recovery_pass_last = c.opts_recovery_pass_last ∧
    (rewinds d c ts).opts_fsck = c.opts_fsck ∧
    (rewinds d c ts).sb_clean = c.sb_clean ∧
    (rewinds d c ts).sb_features = c.sb_features ∧
    (rewinds d c ts).flags = c.flags := by
  induction ts generalizing c with
  | nil => exact ⟨rfl, rfl, rfl, rfl, rfl⟩
  | cons t ts ih =>
    obtain ⟨a1, a2, a3, a4, a5⟩ := ih (rewind d c t)
    obtain ⟨b1, b2, b3, b4, b5⟩ := rewind_config d c t
    exact ⟨a1.trans b1, a2.trans b2, a3.trans b3, a4.trans b4, a5.trans b5⟩

/-- Lines 334-355 in terms of the bookkeeping, without condition on the
declarations. -/
theorem finish_pass_frame (d : Decls) (c : bch_fs) (pass : Nat) (e : pass_exec) :
    ∃ F R, finish_pass d c pass e =
      ((post_pass { c with flags := F, recovery_passes_required := R } pass
          (run_and_flush d c pass e).1).1,
        (post_pass { c with flags := F, recovery_passes_required := R } pass
          (run_and_flush d c pass e).1).2,
        (run_and_flush d c pass e).2.2) := by
  obtain ⟨F, R, h⟩ := run_and_flush_frame d c pass e
  refine ⟨F, R, ?_⟩
  unfold finish_pass
  simp only [h]

/-- The fields lines 334-355 never change. -/
theorem finish_pass_config (d : Decls) (c : bch_fs) (pass : Nat) (e : pass_exec) :
    (finish_pass d c pass e).2.1.opts_recovery_pass_last = c.opts_recovery_pass_last ∧
    (finish_pass d c pass e).2.1.opts_recovery_passes = c.opts_recovery_passes ∧
    (finish_pass d c pass e).2.1.opts_recovery_passes_exclude =
      c.opts_recovery_passes_exclude ∧
    (finish_pass d c pass e).2.1.opts_fsck = c.opts_fsck ∧
    (finish_pass d c pass e).2.1.sb_clean = c.sb_clean ∧
    (finish_pass d c pass e).2.1.sb_features = c.sb_features ∧
    (finish_pass d c pass e).2.1.next_recovery_pass = c.next_recovery_pass := by
  obtain ⟨F, R, h⟩ := finish_pass_frame d c pass e
  rw [h]
  unfold post_pass
  simp only []
  split_ifs <;> exact ⟨rfl, rfl, rfl, rfl, rfl, rfl, rfl⟩

/-- The outcome of lines 334-355 by the position of the next ordinal: a
restart at the next ordinal with status 0 and unchanged watermark, or the
step to the next ordinal with the status of the pass. -/
theorem finish_pass_outcome (d : Decls) (c : bch_fs) (pass : Nat) (e : pass_exec) :
    (c.next_recovery_pass < c.curr_recovery_pass ∧
      (finish_pass d c pass e).1 = 0 ∧
      (finish_pass d c pass e).2.1.curr_recovery_pass = c.next_recovery_pass ∧
      (finish_pass d c pass e).2.1.recovery_pass_done = c.recovery_pass_done) ∨
    (¬ c.next_recovery_pass < c.curr_recovery_pass ∧
      (finish_pass d c pass e).1 = (run_and_flush d c pass e).1 ∧
      (finish_pass d c pass e).2.1.curr_recovery_pass = c.next_recovery_pass ∧
      (finish_pass d c pass e).2.1.recovery_pass_done = max c.recovery_pass_done pass) := by
  obtain ⟨F, R, h⟩ := finish_pass_frame d c pass e
  rw [h]
  unfold post_pass
  simp only []
  by_cases hlt : c.next_recovery_pass < c.curr_recovery_pass
  · left; rw [if_pos hlt]; exact ⟨hlt, rfl, rfl, rfl⟩
  · right; rw [if_neg hlt]; exact ⟨hlt, rfl, rfl, rfl⟩

/-- After line 315 and any rewind requests the next ordinal is the cursor
plus one or below the cursor. -/
theorem rewinds_after_arm (d : Decls) (ts : List Nat) (c : bch_fs) :
    (rewinds d (iter_arm c) ts).curr_recovery_pass = c.curr_recovery_pass ∧
    (rewinds d (iter_arm c) ts).recovery_pass_done = c.recovery_pass_done ∧
    ((rewinds d (iter_arm c) ts).next_recovery_pass = c.curr_recovery_pass + 1 ∨
      (rewinds d (iter_arm c) ts).next_recovery_pass < c.curr_recovery_pass) := by
  refine ⟨by rw [rewinds_curr]; rfl, (rewinds_frame d ts (iter_arm c)).1, ?_⟩
  rcases rewinds_without_restart d ts (iter_arm c) c.curr_recovery_pass
    c.recovery_passes_complete rfl (Or.inl ⟨rfl, rfl⟩) with h | h
  · exact Or.inl h.1
  · exact Or.inr h

theorem iter_decide_stop (d : Decls) (c : bch_fs) (h : iter_decide d c = decision.stop) :
    c.opts_recovery_pass_last ≠ 0 ∧ c.curr_recovery_pass > c.opts_recovery_pass_last := by
  unfold iter_decide at h
  simp only [] at h
  split_ifs at h with h1
  exact h1

theorem iter_decide_not_stop (d : Decls) (c : bch_fs)
    (h : iter_decide d c ≠ decision.stop) :
    ¬ (c.opts_recovery_pass_last ≠ 0 ∧ c.curr_recovery_pass > c.opts_recovery_pass_last) := by
  intro h1
  apply h
  unfold iter_decide
  simp only []
  rw [if_pos h1]

theorem loop_fuel_zero (d : Decls) (env : List pass_exec) (c : bch_fs) (tr : List event)
    (hc : c.curr_recovery_pass < ARRAY_SIZE_recovery_pass_fns d) :
    recovery_passes_loop d 0 env c 0 tr = none := by
  rw [recovery_passes_loop, if_pos ⟨hc, rfl⟩]

theorem loop_stop (d : Decls) (fuel : Nat) (env : List pass_exec) (c : bch_fs)
    (tr : List event) (hc : c.curr_recovery_pass < ARRAY_SIZE_recovery_pass_fns d)
    (hd : iter_decide d (iter_arm c) = decision.stop) :
    recovery_passes_loop d (fuel + 1) env c 0 tr = some (0, iter_arm c, tr) := by
  rw [recovery_passes_loop, if_pos ⟨hc, rfl⟩]
  simp only [hd]

theorem loop_run_nil (d : Decls) (fuel : Nat) (c : bch_fs) (pass : Nat) (tr : List event)
    (hc : c.curr_recovery_pass < ARRAY_SIZE_recovery_pass_fns d)
    (hd : iter_decide d (iter_arm c) = decision.run pass) :
    recovery_passes_loop d (fuel + 1) [] c 0 tr = none := by
  rw [recovery_passes_loop, if_pos ⟨hc, rfl⟩]
  simp only [hd]

/-- Induction over the loop: a property of context and trace that line 315,
a skipped pass and an executed pass keep holds when the loop is left; and
the loop is left by its condition or by the `break` of line 323. -/
theorem loop_inv (d : Decls) (Inv : bch_fs → List event → Prop)
    (harm : ∀ c tr, Inv c tr → Inv (iter_arm c) tr)
    (hskip : ∀ c c2 tr, Inv c tr →
      c.curr_recovery_pass < ARRAY_SIZE_recovery_pass_fns d →
      iter_decide d (iter_arm c) = decision.skip c2 → Inv c2 tr)
    (hrun : ∀ c pass e tr, Inv c tr →
      c.curr_recovery_pass < ARRAY_SIZE_recovery_pass_fns d →
      iter_decide d (iter_arm c) = decision.run pass →
      Inv (finish_pass d (rewinds d (iter_arm c) e.rewinds) pass e).2.1
        (tr ++ (finish_pass d (rewinds d (iter_arm c) e.rewinds) pass e).2.2)) :
    ∀ (fuel : Nat) (env : List pass_exec) (c : bch_fs) (ret : Int) (tr : List event)
      (r : Int × bch_fs × List event),
      Inv c tr → recovery_passes_loop d fuel env c ret tr = some r →
      Inv r.2.1 r.2.2 ∧
      (¬ (r.2.1.curr_recovery_pass < ARRAY_SIZE_recovery_pass_fns d ∧ r.1 = 0) ∨
        (r.1 = 0 ∧ r.2.1.opts_recovery_pass_last ≠ 0 ∧
          r.2.1.curr_recovery_pass > r.2.1.opts_recovery_pass_last)) := by
  intro fuel
  induction fuel with
  | zero =>
    intro env c ret tr r hinv h
    by_cases hcond : c.curr_recovery_pass < ARRAY_SIZE_recovery_pass_fns d ∧ ret = 0
    · obtain ⟨hc, rfl⟩ := hcond
      rw [loop_fuel_zero d env c tr hc] at h
      cases h
    · rw [loop_exit d 0 env c ret tr hcond] at h
      cases h
      exact ⟨hinv, Or.inl hcond⟩
  | succ fuel ih =>
    intro env c ret tr r hinv h
    by_cases hcond : c.curr_recovery_pass < ARRAY_SIZE_recovery_pass_fns d ∧ ret = 0
    · obtain ⟨hc, rfl⟩ := hcond
      cases hd : iter_decide d (iter_arm c) with
      | stop =>
        rw [loop_stop d fuel env c tr hc hd] at h
        cases h
        exact ⟨harm c tr hinv, Or.inr ⟨rfl, iter_decide_stop d _ hd⟩⟩
      | skip c2 =>
        rw [loop_skip d fuel env c c2 tr hc hd] at h
        exact ih env c2 0 tr r (hskip c c2 tr hinv hc hd) h
      | run pass =>
        cases env with
        | nil =>
          rw [loop_run_nil d fuel c pass tr hc hd] at h
          cases h
        | cons e env1 =>
          rw [loop_run d fuel e env1 c pass tr hc hd] at h
          exact ih env1 _ _ _ r (hrun c pass e tr hinv hc hd) h
    · rw [loop_exit d (fuel + 1) env c ret tr hcond] at h
      cases h
      exact ⟨hinv, Or.inl hcond⟩

/-! ## Stopping after a given pass, and the end of a run: theorems -/

theorem pass_fn_of_run_and_flush (d : Decls) (c : bch_fs) (pass : Nat) (e : pass_exec)
    (p : Nat) (h : event.pass_fn p ∈ (run_and_flush d c pass e).2.2) : p = pass := by
  have hf : event.pass_fn p ∈ (run_and_flush d c pass e).2.2.filter event.is_pass_fn :=
    List.mem_filter.2 ⟨h, rfl⟩
  rw [run_and_flush_one_fn] at hf
  rcases List.mem_singleton.1 hf with e1
  exact event.pass_fn.inj e1

/-- C23: with `recovery_pass_last` set to `L` (not 0), a run calls no pass
function of an ordinal above `L`; and an iteration whose cursor is above
`L` leaves the loop with status 0, the trace unchanged, and the context
changed in the next ordinal only (line 315): the completed set, the
watermark and the cursor are as before. -/
theorem stop_after_limits_run (d : Decls) (fuel : Nat) (env : List pass_exec) (c : bch_fs)
    (r : Int × bch_fs × List event) (fuel1 : Nat) (env1 : List pass_exec) (c1 : bch_fs)
    (tr1 : List event)
    (hL : c.opts_recovery_pass_last ≠ 0)
    (hrun : bch2_run_recovery_passes d fuel env c = some r)
    (hc1 : c1.curr_recovery_pass < ARRAY_SIZE_recovery_pass_fns d)
    (hL1 : c1.opts_recovery_pass_last ≠ 0)
    (hgt : c1.curr_recovery_pass > c1.opts_recovery_pass_last) :
    (∀ p, event.pass_fn p ∈ r.2.2 → p ≤ c.opts_recovery_pass_last) ∧
    recovery_passes_loop d (fuel1 + 1) env1 c1 0 tr1 =
      some (0, { c1 with next_recovery_pass := c1.curr_recovery_pass + 1 }, tr1) := by
  constructor
  · have key := loop_inv d
      (fun c2 tr2 => c2.opts_recovery_pass_last = c.opts_recovery_pass_last ∧
        ∀ p, event.pass_fn p ∈ tr2 → p ≤ c.opts_recovery_pass_last)
      (fun c2 tr2 h => h)
      (fun c2 c3 tr2 h _ hd => by
        have h3 := iter_decide_skip d (iter_arm c2) c3 hd
        subst h3
        exact h)
      (fun c2 pass e tr2 h _ hd => by
        obtain ⟨h1, h2⟩ := h
        have hp : pass = c2.curr_recovery_pass := iter_decide_run d (iter_arm c2) pass hd
        have hns := iter_decide_not_stop d (iter_arm c2) (by rw [hd]; intro hh; cases hh)
        have hle : c2.curr_recovery_pass ≤ c.opts_recovery_pass_last := by
          have hl2 : (iter_arm c2).opts_recovery_pass_last = c.opts_recovery_pass_last := h1
          have hc2 : (iter_arm c2).curr_recovery_pass = c2.curr_recovery_pass := rfl
          rw [hl2, hc2] at hns
          by_contra hgt2
          exact hns ⟨hL, Nat.lt_of_not_le hgt2⟩
        refine ⟨?_, fun p hp2 => ?_⟩
        · rw [(finish_pass_config d _ pass e).1, (rewinds_config d e.rewinds _).1]
          exact h1
        · rcases List.mem_append.1 hp2 with h3 | h3
          · exact h2 p h3
          · have := pass_fn_of_run_and_flush d _ pass e p h3
            omega)
      fuel env
      { c with
        opts_recovery_passes_exclude :=
          c.opts_recovery_passes_exclude &&& not_u64 d.BCH_RECOVERY_PASS_set_may_go_rw }
      0 [] r ⟨rfl, fun p hp => by cases hp⟩ hrun
    exact key.1.2
  · have hd : iter_decide d (iter_arm c1) = decision.stop := by
      have hcond : (iter_arm c1).opts_recovery_pass_last ≠ 0 ∧
          (iter_arm c1).curr_recovery_pass > (iter_arm c1).opts_recovery_pass_last :=
        ⟨hL1, hgt⟩
      unfold iter_decide
      simp only []
      rw [if_pos hcond]
    exact loop_stop d fuel1 env1 c1 tr1 hc1 hd

theorem stop_after_limits_run_witness :
    (∀ p, event.pass_fn p ∈
        ((0 : Int), online_fs, [event.pass_fn 0, event.journal_flush]).2.2 →
      p ≤ ({ example_fs with opts_recovery_pass_last := 1 } : bch_fs).opts_recovery_pass_last) ∧
    recovery_passes_loop online_decls (3 + 1) [pass_ok] online_fs 0 [] =
      some (0, { online_fs with next_recovery_pass := online_fs.curr_recovery_pass + 1 }, []) :=
  stop_after_limits_run online_decls 5 [pass_ok]
    { example_fs with opts_recovery_pass_last := 1 }
    (0, online_fs, [event.pass_fn 0, event.journal_flush]) 3 [pass_ok] online_fs []
    (by decide) (by decide!) (by decide) (by decide) (by decide)

/-- Every step of the system keeps the bounds on the cursor. -/
theorem bound_inv_step (d : Decls) (s t : sys) (h : step d s t) (hi : bound_inv d s) :
    bound_inv d t := by
  obtain ⟨i1, i2, i3⟩ := hi
  cases h with
  | leave c _ =>
    refine ⟨i1, fun p hp => ?_, fun hpc => ?_⟩
    · cases hp
    · rcases hpc with hpc | ⟨p, hpc⟩ <;> cases hpc
  | arm c hc =>
    refine ⟨i1, fun p hp => ?_, fun _ => ⟨hc, ?_⟩⟩
    · cases hp
    · show c.curr_recovery_pass + 1 ≤ ARRAY_SIZE_recovery_pass_fns d
      omega
  | stop c _ =>
    refine ⟨i1, fun p hp => ?_, fun hpc => ?_⟩
    · cases hp
    · rcases hpc with hpc | ⟨p, hpc⟩ <;> cases hpc
  | skip c c1 hd =>
    have hc1 := iter_decide_skip d c c1 hd
    subst hc1
    have hlt : c.curr_recovery_pass < ARRAY_SIZE_recovery_pass_fns d := (i3 (Or.inl rfl)).1
    refine ⟨?_, fun p hp => ?_, fun hpc => ?_⟩
    · show c.curr_recovery_pass + 1 ≤ ARRAY_SIZE_recovery_pass_fns d
      omega
    · cases hp
    · rcases hpc with hpc | ⟨p, hpc⟩ <;> cases hpc
  | start c pass hd =>
    refine ⟨i1, fun p hp => ?_, fun _ => i3 (Or.inl rfl)⟩
    cases hp
    exact iter_decide_run d c pass hd
  | finish c pass e =>
    have hn : c.next_recovery_pass ≤ ARRAY_SIZE_recovery_pass_fns d :=
      (i3 (Or.inr ⟨pass, rfl⟩)).2
    have hcur : (finish_pass d c pass e).2.1.curr_recovery_pass = c.next_recovery_pass := by
      rcases finish_pass_outcome d c pass e with ⟨_, _, h, _⟩ | ⟨_, _, h, _⟩ <;> exact h
    refine ⟨?_, fun p hp => ?_, fun hpc => ?_⟩
    · show (finish_pass d c pass e).2.1.curr_recovery_pass ≤ _
      rw [hcur]; exact hn
    · dsimp only at hp
      split_ifs at hp
    · dsimp only at hpc
      rcases hpc with hpc | ⟨p, hpc⟩ <;> split_ifs at hpc
  | request c pc pass =>
    refine ⟨?_, fun p hp => ?_, fun hpc => ?_⟩
    · show (rewind d c pass).curr_recovery_pass ≤ _
      rw [rewind_curr]; exact i1
    · show p = (rewind d c pass).curr_recovery_pass
      rw [rewind_curr]; exact i2 p hp
    · obtain ⟨h1, h2⟩ := i3 hpc
      refine ⟨?_, ?_⟩
      · show (rewind d c pass).curr_recovery_pass < _
        rw [rewind_curr]; exact h1
      · show (rewind d c pass).next_recovery_pass ≤ _
        rcases rewind_cases d c pass with e | e | ⟨hlt, _, e⟩
        · rw [e]; exact h2
        · rw [e]; exact h2
        · rw [e]
          show pass ≤ _
          have : c.curr_recovery_pass < ARRAY_SIZE_recovery_pass_fns d := h1
          omega

theorem reachable_bound_inv (d : Decls) (s : sys) (h : reachable d s) : bound_inv d s := by
  induction h with
  | init c hc =>
    refine ⟨?_, fun p hp => ?_, fun hpc => ?_⟩
    · show c.curr_recovery_pass ≤ _
      rw [hc.1]; exact Nat.zero_le _
    · cases hp
    · rcases hpc with hpc | ⟨p, hpc⟩ <;> cases hpc
  | next s t _ hst ih => exact bound_inv_step d s t hst ih

/-- An executed pass keeps the cursor within the table. -/
theorem iteration_keeps_cursor_bound (d : Decls) (c : bch_fs) (pass : Nat) (e : pass_exec)
    (hc : c.curr_recovery_pass < ARRAY_SIZE_recovery_pass_fns d) :
    (finish_pass d (rewinds d (iter_arm c) e.rewinds) pass e).2.1.curr_recovery_pass ≤
      ARRAY_SIZE_recovery_pass_fns d := by
  obtain ⟨h1, _, h3⟩ := rewinds_after_arm d e.rewinds c
  have hcur : (finish_pass d (rewinds d (iter_arm c) e.rewinds) pass e).2.1.curr_recovery_pass =
      (rewinds d (iter_arm c) e.rewinds).next_recovery_pass := by
    rcases finish_pass_outcome d (rewinds d (iter_arm c) e.rewinds) pass e with
      ⟨_, _, h, _⟩ | ⟨_, _, h, _⟩ <;> exact h
  rw [hcur]
  omega

/-- C24: a run with `recovery_pass_last` unset that starts with the cursor
within the table and returns 0 ends with the cursor at the number of passes;
and in every state the system reaches from a fresh context the cursor is at
most the number of passes. -/
theorem successful_run_ends_at_table_size (d : Decls) (fuel : Nat) (env : List pass_exec)
    (c : bch_fs) (r : Int × bch_fs × List event) (s : sys)
    (hlast : c.opts_recovery_pass_last = 0)
    (hstart : c.curr_recovery_pass ≤ ARRAY_SIZE_recovery_pass_fns d)
    (hrun : bch2_run_recovery_passes d fuel env c = some r) (hok : r.1 = 0)
    (hs : reachable d s) :
    r.2.1.curr_recovery_pass = ARRAY_SIZE_recovery_pass_fns d ∧
    s.c.curr_recovery_pass ≤ ARRAY_SIZE_recovery_pass_fns d := by
  refine ⟨?_, (reachable_bound_inv d s hs).1⟩
  have key := loop_inv d
    (fun c2 _ => c2.opts_recovery_pass_last = 0 ∧
      c2.curr_recovery_pass ≤ ARRAY_SIZE_recovery_pass_fns d)
    (fun c2 _ h => h)
    (fun c2 c3 _ h hc hd => by
      have h3 := iter_decide_skip d (iter_arm c2) c3 hd
      subst h3
      exact ⟨h.1, hc⟩)
    (fun c2 pass e _ h hc _ => by
      refine ⟨?_, iteration_keeps_cursor_bound d c2 pass e hc⟩
      rw [(finish_pass_config d _ pass e).1, (rewinds_config d e.rewinds _).1]
      exact h.1)
    fuel env
      { c with
        opts_recovery_passes_exclude :=
          c.opts_recovery_passes_exclude &&& not_u64 d.BCH_RECOVERY_PASS_set_may_go_rw }
      0 [] r ⟨hlast, hstart⟩ hrun
  obtain ⟨⟨h1, h2⟩, h3⟩ := key
  rcases h3 with h3 | ⟨_, h3, _⟩
  · have : ¬ r.2.1.curr_recovery_pass < ARRAY_SIZE_recovery_pass_fns d := fun h => h3 ⟨h, hok⟩
    omega
  · exact absurd h1 h3

theorem successful_run_ends_at_table_size_witness :
    ((0 : Int), ({ example_fs with
        curr_recovery_pass := 5, next_recovery_pass := 5, recovery_passes_complete := 1,
        recovery_pass_done := 4 } : bch_fs),
      [event.print_pass 0, event.pass_fn 0, event.print_done,
        event.journal_flush]).2.1.curr_recovery_pass =
      ARRAY_SIZE_recovery_pass_fns scenario_decls ∧
    boundary_fs.curr_recovery_pass ≤ ARRAY_SIZE_recovery_pass_fns boundary_decls :=
  ⟨(successful_run_ends_at_table_size scenario_decls 5 [pass_ok] example_fs
      (0, { example_fs with
        curr_recovery_pass := 5, next_recovery_pass := 5, recovery_passes_complete := 1,
        recovery_pass_done := 4 },
        [event.print_pass 0, event.pass_fn 0, event.print_done, event.journal_flush])
      ⟨example_fs, loc.top⟩ (by decide) (by decide) (by decide!) (by decide)
      (reachable.init example_fs (by decide))).1,
    (successful_run_ends_at_table_size boundary_decls 0 []
      { example_fs with curr_recovery_pass := 3 }
      (0, { example_fs with curr_recovery_pass := 3 }, [])
      ⟨boundary_fs, loc.top⟩ (by decide) (by decide) (by decide!) (by decide)
      boundary_fs_reachable).2⟩

/-! ## The watermark at the end of a run: theorems -/

/-- C22, as stated, fails: in the scenario of the specification (table `A`
to `E`, clean filesystem, no fsck, allocation info present, no include or
exclude) the run calls the pass `A` only, and it ends with the watermark 4,
the ordinal of `E`, not with the ordinal 0 of `A`: the skipped passes have
raised the watermark. -/
theorem scenario_watermark_is_last_ordinal :
    bch2_run_recovery_passes scenario_decls 5 [pass_ok] example_fs =
      some (0,
        { example_fs with
          curr_recovery_pass := 5, next_recovery_pass := 5, recovery_passes_complete := 1,
          recovery_pass_done := 4 },
        [event.print_pass 0, event.pass_fn 0, event.print_done, event.journal_flush]) ∧
    (bch2_run_recovery_passes scenario_decls 5 [pass_ok] example_fs).map
      (fun r => decide (r.2.1.recovery_pass_done = 0)) = some false := by
  constructor
  · decide!
  · decide!

/-- C22, amended: a run over a table with at least one pass that starts from
cursor 0 and watermark 0 with `recovery_pass_last` unset and returns 0 ends
with the watermark at the last ordinal of the table, whatever passes were
skipped, executed or restarted: the watermark is the highest ordinal the
cursor has passed, skipped passes included.  In the scenario of the
specification that is the ordinal 4 of `E`. -/
theorem watermark_at_end_of_run (d : Decls) (fuel : Nat) (env : List pass_exec) (c : bch_fs)
    (r : Int × bch_fs × List event)
    (hN : 0 < ARRAY_SIZE_recovery_pass_fns d)
    (hcur : c.curr_recovery_pass = 0) (hdone : c.recovery_pass_done = 0)
    (hlast : c.opts_recovery_pass_last = 0)
    (hrun : bch2_run_recovery_passes d fuel env c = some r) (hok : r.1 = 0) :
    r.2.1.recovery_pass_done = ARRAY_SIZE_recovery_pass_fns d - 1 := by
  have key := loop_inv d
    (fun c2 _ => c2.opts_recovery_pass_last = 0 ∧
      c2.curr_recovery_pass ≤ ARRAY_SIZE_recovery_pass_fns d ∧
      c2.curr_recovery_pass ≤ c2.recovery_pass_done + 1 ∧
      c2.recovery_pass_done < ARRAY_SIZE_recovery_pass_fns d)
    (fun c2 _ h => h)
    (fun c2 c3 _ h hc hd => by
      have h3 := iter_decide_skip d (iter_arm c2) c3 hd
      subst h3
      obtain ⟨h1, _, _, h4⟩ := h
      refine ⟨h1, hc, ?_, ?_⟩
      · show c2.curr_recovery_pass + 1 ≤ max c2.recovery_pass_done c2.curr_recovery_pass + 1
        omega
      · show max c2.recovery_pass_done c2.curr_recovery_pass < _
        omega)
    (fun c2 pass e _ h hc hd => by
      obtain ⟨h1, _, h3, h4⟩ := h
      have hp : pass = c2.curr_recovery_pass := iter_decide_run d (iter_arm c2) pass hd
      obtain ⟨a1, a2, a3⟩ := rewinds_after_arm d e.rewinds c2
      refine ⟨?_, iteration_keeps_cursor_bound d c2 pass e hc, ?_⟩
      · rw [(finish_pass_config d _ pass e).1, (rewinds_config d e.rewinds _).1]
        exact h1
      · rcases finish_pass_outcome d (rewinds d (iter_arm c2) e.rewinds) pass e with
          ⟨b1, _, b3, b4⟩ | ⟨b1, _, b3, b4⟩
        · rw [b3, b4, a2]
          rw [a1] at b1
          omega
        · rw [b3, b4, a2]
          rw [a1] at b1
          omega)
    fuel env
    { c with
      opts_recovery_passes_exclude :=
        c.opts_recovery_passes_exclude &&& not_u64 d.BCH_RECOVERY_PASS_set_may_go_rw }
    0 [] r
    ⟨hlast, by show c.curr_recovery_pass ≤ _; omega,
      by show c.curr_recovery_pass ≤ c.recovery_pass_done + 1; omega,
      by show c.recovery_pass_done < _; omega⟩ hrun
  obtain ⟨⟨h1, h2, h3, h4⟩, h5⟩ := key
  rcases h5 with h5 | ⟨_, h5, _⟩
  · have : ¬ r.2.1.curr_recovery_pass < ARRAY_SIZE_recovery_pass_fns d := fun h => h5 ⟨h, hok⟩
    omega
  · exact absurd h1 h5

theorem watermark_at_end_of_run_witness :
    ((0 : Int), ({ example_fs with
        curr_recovery_pass := 5, next_recovery_pass := 5, recovery_passes_complete := 1,
        recovery_pass_done := 4 } : bch_fs),
      [event.print_pass 0, event.pass_fn 0, event.print_done,
        event.journal_flush]).2.1.recovery_pass_done =
      ARRAY_SIZE_recovery_pass_fns scenario_decls - 1 :=
  watermark_at_end_of_run scenario_decls 5 [pass_ok] example_fs
    (0, { example_fs with
      curr_recovery_pass := 5, next_recovery_pass := 5, recovery_passes_complete := 1,
      recovery_pass_done := 4 },
      [event.print_pass 0, event.pass_fn 0, event.print_done, event.journal_flush])
    (by decide) (by decide) (by decide) (by decide) (by decide!) (by decide)

/-! ## A run on a clean mount without options: theorems -/

theorem and_BIT_ULL_of_testBit_false (x n : Nat) (h : x.testBit n = false) :
    x &&& BIT_ULL n = 0 := by
  by_cases hn : n < 64
  · exact (and_BIT_ULL_eq_zero_iff x hn).2 h
  · have h64 : 64 ≤ n := Nat.le_of_not_lt hn
    have hz : BIT_ULL n = 0 := by
      unfold BIT_ULL
      rw [Nat.one_shiftLeft]
      exact Nat.mod_eq_zero_of_dvd (Nat.pow_dvd_pow 2 h64)
    rw [hz, Nat.and_zero]

/-- On a clean mount without options the selection policy selects the
passes flagged `PASS_ALWAYS`. -/
theorem quiet_should_run (d : Decls) (c : bch_fs) (p : Nat) (hq : c.quiet d) :
    should_run_recovery_pass d c p = decide ((when_of d p &&& d.PASS_ALWAYS) ≠ 0) := by
  obtain ⟨h1, h2, h3, h4, h5, _⟩ := hq
  have hf := and_BIT_ULL_of_testBit_false _ _ h3
  unfold should_run_recovery_pass
  simp only [hf, h1, h2, h4, h5, Nat.zero_and, ne_eq, not_true_eq_false, and_false,
    Bool.false_eq_true, if_false]
  by_cases ha : (when_of d p &&& d.PASS_ALWAYS) = 0
  · simp [ha]
  · simp [ha]

/-- The status of a pass is the value of its description or 0. -/
theorem bch2_run_recovery_pass_status (d : Decls) (c : bch_fs) (p : Nat) (e : pass_exec) :
    (bch2_run_recovery_pass d c p e).1 = e.fn_ret ∨ (bch2_run_recovery_pass d c p e).1 = 0 := by
  have hcall : (call_fn d c p e).1 = e.fn_ret ∨ (call_fn d c p e).1 = 0 := by
    unfold call_fn bch2_set_may_go_rw
    simp only []
    split_ifs <;> simp
  unfold bch2_run_recovery_pass
  simp only []
  by_cases h0 : (call_fn d c p e).1 ≠ 0
  · rw [if_pos h0]; exact hcall
  · rw [if_neg h0]; exact Or.inr rfl

theorem run_and_flush_succeeds (d : Decls) (c : bch_fs) (p : Nat) (e : pass_exec)
    (he : e.succeeds) : (run_and_flush d c p e).1 = 0 := by
  obtain ⟨_, h2, h3⟩ := he
  have hs : (bch2_run_recovery_pass d c p e).1 = 0 := by
    rcases bch2_run_recovery_pass_status d c p e with h | h
    · rw [h, h2]
    · exact h
  unfold run_and_flush bch2_clear_recovery_pass_required
  simp only [hs, h3]
  split_ifs <;> rfl

/-- An iteration of a quiet run that executes a succeeding pass. -/
theorem quiet_iteration (d : Decls) (c : bch_fs) (e : pass_exec) (hq : c.quiet d)
    (he : e.succeeds) :
    (finish_pass d (rewinds d (iter_arm c) e.rewinds) c.curr_recovery_pass e).1 = 0 ∧
    (finish_pass d (rewinds d (iter_arm c) e.rewinds) c.curr_recovery_pass
      e).2.1.curr_recovery_pass = c.curr_recovery_pass + 1 ∧
    (finish_pass d (rewinds d (iter_arm c) e.rewinds) c.curr_recovery_pass e).2.1.quiet d ∧
    (finish_pass d (rewinds d (iter_arm c) e.rewinds) c.curr_recovery_pass
      e).2.2.filter event.is_pass_fn = [event.pass_fn c.curr_recovery_pass] := by
  have hts : e.rewinds = [] := he.1
  have hrw : rewinds d (iter_arm c) e.rewinds = iter_arm c := by rw [hts]; rfl
  rw [hrw]
  obtain ⟨c1, c2, c3, c4, c5, c6, _⟩ := finish_pass_config d (iter_arm c) c.curr_recovery_pass e
  have hnl : ¬ (iter_arm c).next_recovery_pass < (iter_arm c).curr_recovery_pass := by
    show ¬ c.curr_recovery_pass + 1 < c.curr_recovery_pass
    omega
  rcases finish_pass_outcome d (iter_arm c) c.curr_recovery_pass e with
    ⟨b1, _⟩ | ⟨_, b2, b3, _⟩
  · exact absurd b1 hnl
  · refine ⟨?_, b3, ?_, run_and_flush_one_fn d _ _ e⟩
    · rw [b2]; exact run_and_flush_succeeds d _ _ e he
    · obtain ⟨q1, q2, q3, q4, q5, q6⟩ := hq
      exact ⟨c5.trans q1, c4.trans q2, by rw [c6]; exact q3, c2.trans q4, c3.trans q5,
        c1.trans q6⟩

/-- The run from cursor `c.curr_recovery_pass` on a clean mount without
options, with succeeding passes: status 0, and the calls of pass functions
are those of the passes flagged `PASS_ALWAYS` from the cursor on, in
increasing order. -/
theorem quiet_loop (d : Decls) :
    ∀ (n fuel : Nat) (env : List pass_exec) (c : bch_fs) (tr : List event),
      c.quiet d → ARRAY_SIZE_recovery_pass_fns d - c.curr_recovery_pass = n → n ≤ fuel →
      (∀ e ∈ env, e.succeeds) →
      ((List.range' c.curr_recovery_pass n).filter
        (fun p => decide ((when_of d p &&& d.PASS_ALWAYS) ≠ 0))).length ≤ env.length →
      (recovery_passes_loop d fuel env c 0 tr).map
          (fun r => (r.1, r.2.2.filter event.is_pass_fn)) =
        some (0, tr.filter event.is_pass_fn ++
          ((List.range' c.curr_recovery_pass n).filter
            (fun p => decide ((when_of d p &&& d.PASS_ALWAYS) ≠ 0))).map event.pass_fn) := by
  intro n
  induction n with
  | zero =>
    intro fuel env c tr _ hn _ _ _
    have hcond : ¬ (c.curr_recovery_pass < ARRAY_SIZE_recovery_pass_fns d ∧ (0 : Int) = 0) := by
      intro h
      have := h.1
      omega
    rw [loop_exit d fuel env c 0 tr hcond]
    simp
  | succ n ih =>
    intro fuel env c tr hq hn hfuel hsucc henv
    have hc : c.curr_recovery_pass < ARRAY_SIZE_recovery_pass_fns d := by omega
    obtain ⟨f, rfl⟩ : ∃ f, fuel = f + 1 := ⟨fuel - 1, by omega⟩
    have hlast : ¬ (c.opts_recovery_pass_last ≠ 0 ∧
        c.curr_recovery_pass > c.opts_recovery_pass_last) := by
      intro h
      exact h.1 hq.2.2.2.2.2
    have hd := iter_decide_arm d c hlast
    have hrange : List.range' c.curr_recovery_pass (n + 1) =
        c.curr_recovery_pass :: List.range' (c.curr_recovery_pass + 1) n := rfl
    rw [hrange] at henv ⊢
    by_cases ha : (when_of d c.curr_recovery_pass &&& d.PASS_ALWAYS) ≠ 0
    · have hsel : should_run_recovery_pass d c c.curr_recovery_pass = true := by
        rw [quiet_should_run d c _ hq]; exact decide_eq_true ha
      rw [if_pos hsel] at hd
      have hpos : decide ((when_of d c.curr_recovery_pass &&& d.PASS_ALWAYS) ≠ 0) = true :=
        decide_eq_true ha
      simp only [List.filter_cons, hpos, if_true] at henv ⊢
      cases env with
      | nil => simp at henv
      | cons e env1 =>
        have he : e.succeeds := hsucc e (List.mem_cons_self e env1)
        obtain ⟨k1, k2, k3, k4⟩ := quiet_iteration d c e hq he
        rw [loop_run d f e env1 c _ tr hc hd, k1]
        have hih := ih f env1
          (finish_pass d (rewinds d (iter_arm c) e.rewinds) c.curr_recovery_pass e).2.1
          (tr ++ (finish_pass d (rewinds d (iter_arm c) e.rewinds) c.curr_recovery_pass e).2.2)
          k3 (by rw [k2]; omega) (by omega)
          (fun e1 h1 => hsucc e1 (List.mem_cons_of_mem e h1))
          (by rw [k2]; simp only [List.length_cons] at henv; omega)
        rw [hih, k2, List.filter_append, k4]
        simp
    · have hsel : ¬ should_run_recovery_pass d c c.curr_recovery_pass = true := by
        rw [quiet_should_run d c _ hq]
        simp only [decide_eq_true_eq]
        exact ha
      rw [if_neg hsel] at hd
      have hneg : decide ((when_of d c.curr_recovery_pass &&& d.PASS_ALWAYS) ≠ 0) = false :=
        decide_eq_false ha
      simp only [List.filter_cons, hneg, Bool.false_eq_true, if_false] at henv ⊢
      rw [loop_skip d f env c _ tr hc hd]
      exact ih f env _ tr hq (by show _ - (c.curr_recovery_pass + 1) = n; omega) (by omega)
        hsucc henv

/-- C21: for every pass table, a run from cursor 0 on a clean filesystem
with fsck not requested, allocation info present, empty include and exclude
sets and `recovery_pass_last` unset, in which every pass and journal flush
succeeds and no rewind is requested, returns 0 and calls exactly the pass
functions of the passes flagged `PASS_ALWAYS`, each once and in increasing
ordinal order. -/
theorem quiet_run_calls_always_passes (d : Decls) (fuel : Nat) (env : List pass_exec)
    (c : bch_fs) (hcur : c.curr_recovery_pass = 0) (hq : c.quiet d)
    (hsucc : ∀ e ∈ env, e.succeeds)
    (hfuel : ARRAY_SIZE_recovery_pass_fns d ≤ fuel)
    (henv : ((List.range (ARRAY_SIZE_recovery_pass_fns d)).filter
      (fun p => decide ((when_of d p &&& d.PASS_ALWAYS) ≠ 0))).length ≤ env.length) :
    (bch2_run_recovery_passes d fuel env c).map
        (fun r => (r.1, r.2.2.filter event.is_pass_fn)) =
      some (0, ((List.range (ARRAY_SIZE_recovery_pass_fns d)).filter
        (fun p => decide ((when_of d p &&& d.PASS_ALWAYS) ≠ 0))).map event.pass_fn) := by
  have hq2 : ({ c with
      opts_recovery_passes_exclude :=
        c.opts_recovery_passes_exclude &&& not_u64 d.BCH_RECOVERY_PASS_set_may_go_rw
      } : bch_fs).quiet d := by
    obtain ⟨q1, q2, q3, q4, q5, q6⟩ := hq
    refine ⟨q1, q2, q3, q4, ?_, q6⟩
    show c.opts_recovery_passes_exclude &&& _ = 0
    rw [q5, Nat.zero_and]
  have h := quiet_loop d (ARRAY_SIZE_recovery_pass_fns d) fuel env
    { c with
      opts_recovery_passes_exclude :=
        c.opts_recovery_passes_exclude &&& not_u64 d.BCH_RECOVERY_PASS_set_may_go_rw }
    [] hq2 (by show _ - c.curr_recovery_pass = _; omega) hfuel hsucc
    (by
      show ((List.range' c.curr_recovery_pass _).filter _).length ≤ _
      rw [hcur, ← List.range_eq_range']
      exact henv)
  have hr : List.range' ({ c with
      opts_recovery_passes_exclude :=
        c.opts_recovery_passes_exclude &&& not_u64 d.BCH_RECOVERY_PASS_set_may_go_rw
      } : bch_fs).curr_recovery_pass (ARRAY_SIZE_recovery_pass_fns d) =
      List.range (ARRAY_SIZE_recovery_pass_fns d) := by
    show List.range' c.curr_recovery_pass _ = _
    rw [hcur, ← List.range_eq_range']
  rw [hr] at h
  simpa using h

theorem quiet_run_calls_always_passes_witness :
    (bch2_run_recovery_passes scenario_decls 5 [pass_ok] example_fs).map
        (fun r => (r.1, r.2.2.filter event.is_pass_fn)) =
      some (0, [event.pass_fn 0]) :=
  quiet_run_calls_always_passes scenario_decls 5 [pass_ok] example_fs (by decide) (by decide)
    (by decide) (by decide) (by decide)

/-! ## The cursor within one iteration: theorems -/

/-- A rewind request that changes the next ordinal is one to a target below
the cursor that ends with the restart status and makes the target the next
ordinal. -/
theorem rewind_next_changed (d : Decls) (c : bch_fs) (t : Nat)
    (h : (rewind d c t).next_recovery_pass ≠ c.next_recovery_pass) :
    t < c.curr_recovery_pass ∧
    (bch2_run_explicit_recovery_pass d c t).1 = -(d.BCH_ERR_restart_recovery : Int) ∧
    (rewind d c t).next_recovery_pass = t := by
  unfold rewind bch2_run_explicit_recovery_pass at h ⊢
  unfold __bch2_run_explicit_recovery_pass at h ⊢
  by_cases h1 : c.curr_recovery_pass = ARRAY_SIZE_recovery_pass_fns d
  · rw [if_pos h1] at h; exact absurd rfl h
  · rw [if_neg h1] at h ⊢
    by_cases h2 : (c.recovery_passes_complete &&& BIT_ULL t) ≠ 0
    · rw [if_pos h2] at h; exact absurd rfl h
    · rw [if_neg h2] at h ⊢
      by_cases h3 : t < d.BCH_RECOVERY_PASS_set_may_go_rw ∧
          c.curr_recovery_pass ≥ d.BCH_RECOVERY_PASS_set_may_go_rw
      · simp only [if_pos h3] at h; exact absurd rfl h
      · simp only [if_neg h3] at h ⊢
        by_cases h4 : c.curr_recovery_pass > t
        · rw [if_pos h4]
          exact ⟨h4, rfl, rfl⟩
        · rw [if_neg h4] at h; exact absurd rfl h

theorem rewinds_append (d : Decls) (c : bch_fs) (ts1 : List Nat) (t : Nat) (ts2 : List Nat) :
    rewinds d c (ts1 ++ t :: ts2) = rewinds d (rewind d (rewinds d c ts1) t) ts2 := by
  unfold rewinds
  rw [List.foldl_append, List.foldl_cons]

/-- When rewind requests have moved the next ordinal away from the cursor
plus one, one of them was a request to a target below the cursor that ended
with the restart status. -/
theorem rewinds_moved_next (d : Decls) (ts : List Nat) (c : bch_fs) (K : Nat)
    (hK : c.curr_recovery_pass = K) (hn : c.next_recovery_pass = K + 1)
    (h : (rewinds d c ts).next_recovery_pass ≠ K + 1) :
    ∃ ts1 t ts2, ts = ts1 ++ t :: ts2 ∧ t < K ∧
      (bch2_run_explicit_recovery_pass d (rewinds d c ts1) t).1 =
        -(d.BCH_ERR_restart_recovery : Int) := by
  induction ts generalizing c with
  | nil => exact absurd hn h
  | cons a ts ih =>
    by_cases hch : (rewind d c a).next_recovery_pass = c.next_recovery_pass
    · have hK1 : (rewind d c a).curr_recovery_pass = K := by rw [rewind_curr]; exact hK
      obtain ⟨ts1, t, ts2, e1, e2, e3⟩ := ih (rewind d c a) hK1 (hch.trans hn) h
      refine ⟨a :: ts1, t, ts2, by rw [e1]; rfl, e2, e3⟩
    · obtain ⟨g1, g2, _⟩ := rewind_next_changed d c a hch
      exact ⟨[], a, ts, rfl, by omega, g2⟩

/-- C25: in an iteration within `recovery_pass_last`, a pass that is not
selected moves the cursor to the old cursor plus one; an executed pass
during which no rewind request is served moves it to the old cursor plus
one, whatever the pass and the journal flush return; and with rewind
requests served during the pass the cursor ends at the old cursor plus one
or below the old cursor, the latter only when one of the requests had a
target below the cursor and ended with the restart status, that is, was
accepted. -/
theorem cursor_moves_back_only_by_rewind (d : Decls) (c : bch_fs) (e : pass_exec)
    (ts : List Nat)
    (hlast : ¬ (c.opts_recovery_pass_last ≠ 0 ∧
      c.curr_recovery_pass > c.opts_recovery_pass_last)) :
    (iter_decide d (iter_arm c) = decision.run c.curr_recovery_pass ∨
      ∃ c2, iter_decide d (iter_arm c) = decision.skip c2 ∧
        c2.curr_recovery_pass = c.curr_recovery_pass + 1) ∧
    (finish_pass d (rewinds d (iter_arm c) []) c.curr_recovery_pass e).2.1.curr_recovery_pass =
      c.curr_recovery_pass + 1 ∧
    ((finish_pass d (rewinds d (iter_arm c) ts) c.curr_recovery_pass e).2.1.curr_recovery_pass =
        c.curr_recovery_pass + 1 ∨
      ((finish_pass d (rewinds d (iter_arm c) ts) c.curr_recovery_pass
          e).2.1.curr_recovery_pass < c.curr_recovery_pass ∧
        ∃ ts1 t ts2, ts = ts1 ++ t :: ts2 ∧ t < c.curr_recovery_pass ∧
          (bch2_run_explicit_recovery_pass d (rewinds d (iter_arm c) ts1) t).1 =
            -(d.BCH_ERR_restart_recovery : Int))) := by
  have hcurr : ∀ ts0, (finish_pass d (rewinds d (iter_arm c) ts0) c.curr_recovery_pass
      e).2.1.curr_recovery_pass = (rewinds d (iter_arm c) ts0).next_recovery_pass := by
    intro ts0
    rcases finish_pass_outcome d (rewinds d (iter_arm c) ts0) c.curr_recovery_pass e with
      ⟨_, _, h, _⟩ | ⟨_, _, h, _⟩ <;> exact h
  refine ⟨?_, ?_, ?_⟩
  · have hd := iter_decide_arm d c hlast
    by_cases hs : should_run_recovery_pass d c c.curr_recovery_pass = true
    · rw [if_pos hs] at hd; exact Or.inl hd
    · rw [if_neg hs] at hd; exact Or.inr ⟨_, hd, rfl⟩
  · rw [hcurr]; rfl
  · rw [hcurr]
    rcases (rewinds_after_arm d ts c).2.2 with h | h
    · exact Or.inl h
    · right
      refine ⟨h, rewinds_moved_next d ts (iter_arm c) c.curr_recovery_pass rfl rfl ?_⟩
      omega

theorem cursor_moves_back_only_by_rewind_witness :
    (finish_pass example_decls (rewinds example_decls (iter_arm example_fs) []) 0
      pass_fails).2.1.curr_recovery_pass = 0 + 1 :=
  (cursor_moves_back_only_by_rewind example_decls example_fs pass_fails [] (by decide)).2.1

/-! ## The restart signal: theorems -/

/-- With distinct error codes, a rewind request that ends with the restart
status is one to a target below the cursor and makes the target the next
ordinal. -/
theorem restart_status (d : Decls) (he : d.err_wf) (c : bch_fs) (t : Nat)
    (h : (bch2_run_explicit_recovery_pass d c t).1 = -(d.BCH_ERR_restart_recovery : Int)) :
    t < c.curr_recovery_pass ∧ (rewind d c t).next_recovery_pass = t := by
  obtain ⟨e1, e2, e3⟩ := he
  unfold rewind
  unfold bch2_run_explicit_recovery_pass at h ⊢
  unfold __bch2_run_explicit_recovery_pass at h ⊢
  by_cases h1 : c.curr_recovery_pass = ARRAY_SIZE_recovery_pass_fns d
  · rw [if_pos h1] at h
    exfalso
    have h' : -(d.BCH_ERR_not_in_recovery : Int) = -(d.BCH_ERR_restart_recovery : Int) := h
    omega
  · rw [if_neg h1] at h ⊢
    by_cases h2 : (c.recovery_passes_complete &&& BIT_ULL t) ≠ 0
    · rw [if_pos h2] at h
      exfalso
      have h' : (0 : Int) = -(d.BCH_ERR_restart_recovery : Int) := h
      omega
    · rw [if_neg h2] at h ⊢
      by_cases h3 : t < d.BCH_RECOVERY_PASS_set_may_go_rw ∧
          c.curr_recovery_pass ≥ d.BCH_RECOVERY_PASS_set_may_go_rw
      · simp only [if_pos h3] at h
        exfalso
        omega
      · simp only [if_neg h3] at h ⊢
        by_cases h4 : c.curr_recovery_pass > t
        · rw [if_pos h4]
          exact ⟨h4, rfl⟩
        · rw [if_neg h4] at h
          exfalso
          have h' : (0 : Int) = -(d.BCH_ERR_restart_recovery : Int) := h
          omega

/-- After rewind requests the next ordinal is the old one or one of the
targets. -/
theorem rewinds_next_mem (d : Decls) (ts : List Nat) (c : bch_fs) :
    (rewinds d c ts).next_recovery_pass = c.next_recovery_pass ∨
      (rewinds d c ts).next_recovery_pass ∈ ts := by
  induction ts generalizing c with
  | nil => exact Or.inl rfl
  | cons a ts ih =>
    rcases ih (rewind d c a) with h | h
    · by_cases hch : (rewind d c a).next_recovery_pass = c.next_recovery_pass
      · exact Or.inl (h.trans hch)
      · right
        have h3 := (rewind_next_changed d c a hch).2.2
        have h4 : (rewinds d c (a :: ts)).next_recovery_pass = a := h.trans h3
        rw [h4]
        exact List.mem_cons_self a ts
    · exact Or.inr (List.mem_cons_of_mem a h)

/-- A next ordinal below the cursor stays below it under rewind requests. -/
theorem rewinds_below_stays (d : Decls) (ts : List Nat) (c : bch_fs) (K : Nat)
    (hK : c.curr_recovery_pass = K) (h : c.next_recovery_pass < K) :
    (rewinds d c ts).next_recovery_pass < K := by
  induction ts generalizing c with
  | nil => exact h
  | cons a ts ih =>
    have hK1 : (rewind d c a).curr_recovery_pass = K := by rw [rewind_curr]; exact hK
    have hb : (rewind d c a).next_recovery_pass < K := by
      by_cases hch : (rewind d c a).next_recovery_pass = c.next_recovery_pass
      · rw [hch]; exact h
      · obtain ⟨g1, _, g3⟩ := rewind_next_changed d c a hch
        rw [g3]; omega
    exact ih (rewind d c a) hK1 hb

/-- C27: in an iteration that runs the pass at the cursor, if one of the
rewind requests served during the pass has a target below the cursor and
ends with the restart status, then, whatever the pass returns (the restart
signal included), lines 334-355 end with status 0 and the loop goes on, with
the cursor below the old cursor at the target of that request or of a later
one. -/
theorem restart_signal_not_returned (d : Decls) (fuel : Nat) (e : pass_exec)
    (env : List pass_exec) (c : bch_fs) (tr : List event) (ts1 : List Nat) (t : Nat)
    (ts2 : List Nat) (he : d.err_wf)
    (hc : c.curr_recovery_pass < ARRAY_SIZE_recovery_pass_fns d)
    (hrun : iter_decide d (iter_arm c) = decision.run c.curr_recovery_pass)
    (hts : e.rewinds = ts1 ++ t :: ts2)
    (hacc : (bch2_run_explicit_recovery_pass d (rewinds d (iter_arm c) ts1) t).1 =
      -(d.BCH_ERR_restart_recovery : Int)) :
    (finish_pass d (rewinds d (iter_arm c) e.rewinds) c.curr_recovery_pass e).1 = 0 ∧
    recovery_passes_loop d (fuel + 1) (e :: env) c 0 tr =
      recovery_passes_loop d fuel env
        (finish_pass d (rewinds d (iter_arm c) e.rewinds) c.curr_recovery_pass e).2.1 0
        (tr ++ (finish_pass d (rewinds d (iter_arm c) e.rewinds) c.curr_recovery_pass e).2.2) ∧
    (finish_pass d (rewinds d (iter_arm c) e.rewinds) c.curr_recovery_pass
      e).2.1.curr_recovery_pass < c.curr_recovery_pass ∧
    (finish_pass d (rewinds d (iter_arm c) e.rewinds) c.curr_recovery_pass
      e).2.1.curr_recovery_pass ∈ t :: ts2 := by
  have hK1 : (rewinds d (iter_arm c) ts1).curr_recovery_pass = c.curr_recovery_pass :=
    (rewinds_after_arm d ts1 c).1
  obtain ⟨g1, g2⟩ := restart_status d he _ t hacc
  rw [hK1] at g1
  have hK2 : (rewind d (rewinds d (iter_arm c) ts1) t).curr_recovery_pass =
      c.curr_recovery_pass := by rw [rewind_curr]; exact hK1
  have hsplit : rewinds d (iter_arm c) e.rewinds =
      rewinds d (rewind d (rewinds d (iter_arm c) ts1) t) ts2 := by
    rw [hts, rewinds_append]
  have hlt : (rewinds d (iter_arm c) e.rewinds).next_recovery_pass < c.curr_recovery_pass := by
    rw [hsplit]
    exact rewinds_below_stays d ts2 _ c.curr_recovery_pass hK2 (by rw [g2]; exact g1)
  have hmem : (rewinds d (iter_arm c) e.rewinds).next_recovery_pass ∈ t :: ts2 := by
    rw [hsplit]
    rcases rewinds_next_mem d ts2 (rewind d (rewinds d (iter_arm c) ts1) t) with h4 | h4
    · rw [h4, g2]; exact List.mem_cons_self t ts2
    · exact List.mem_cons_of_mem t h4
  have hcK : (rewinds d (iter_arm c) e.rewinds).curr_recovery_pass = c.curr_recovery_pass :=
    (rewinds_after_arm d e.rewinds c).1
  rcases finish_pass_outcome d (rewinds d (iter_arm c) e.rewinds) c.curr_recovery_pass e with
    ⟨_, b2, b3, _⟩ | ⟨b1, _⟩
  · refine ⟨b2, ?_, by rw [b3]; exact hlt, by rw [b3]; exact hmem⟩
    rw [loop_run d fuel e env c _ tr hc hrun, b2]
  · rw [hcK] at b1
    exact absurd hlt b1

theorem restart_signal_not_returned_witness :
    (finish_pass restart_decls
      (rewinds restart_decls (iter_arm restart_fs) pass_restarts.rewinds) 2
      pass_restarts).1 = 0 ∧
    (finish_pass restart_decls
      (rewinds restart_decls (iter_arm restart_fs) pass_restarts.rewinds) 2
      pass_restarts).2.1.curr_recovery_pass ∈ [1] :=
  ⟨(restart_signal_not_returned restart_decls 0 pass_restarts [] restart_fs [] [] 1 []
      (by decide) (by decide) (by decide) rfl (by decide)).1,
    (restart_signal_not_returned restart_decls 0 pass_restarts [] restart_fs [] [] 1 []
      (by decide) (by decide) (by decide) rfl (by decide)).2.2.2⟩

/-! ## The watermark: theorems -/

theorem call_fn_frame (d : Decls) (c : bch_fs) (pass : Nat) (e : pass_exec) :
    ∃ F, (call_fn d c pass e).2.1 = { c with flags := F } := by
  unfold call_fn
  simp only []
  by_cases hp : pass = d.BCH_RECOVERY_PASS_set_may_go_rw
  · rw [if_pos hp, bch2_set_may_go_rw_fs]
    split_ifs <;> exact ⟨_, rfl⟩
  · rw [if_neg hp]
    split_ifs <;> exact ⟨_, rfl⟩

/-- The function `bch2_run_recovery_pass` changes `c->flags` only. -/
theorem bch2_run_recovery_pass_frame (d : Decls) (c : bch_fs) (pass : Nat) (e : pass_exec) :
    ∃ F, (bch2_run_recovery_pass d c pass e).2.1 = { c with flags := F } := by
  rw [bch2_run_recovery_pass_fs]
  exact call_fn_frame d c pass e

/-- No step lowers the watermark. -/
theorem step_done_mono (d : Decls) (s t : sys) (h : step d s t) :
    s.c.recovery_pass_done ≤ t.c.recovery_pass_done := by
  cases h with
  | leave c _ => exact Nat.le_refl _
  | arm c _ => exact Nat.le_refl _
  | stop c _ => exact Nat.le_refl _
  | skip c c1 hd =>
    have hc1 := iter_decide_skip d c c1 hd
    subst hc1
    exact Nat.le_max_left _ _
  | start c pass _ => exact Nat.le_refl _
  | finish c pass e =>
    show c.recovery_pass_done ≤ (finish_pass d c pass e).2.1.recovery_pass_done
    rcases finish_pass_outcome d c pass e with ⟨_, _, _, h⟩ | ⟨_, _, _, h⟩
    · rw [h]
    · rw [h]; exact Nat.le_max_left _ _
  | request c pc pass =>
    show c.recovery_pass_done ≤ (rewind d c pass).recovery_pass_done
    rw [(rewind_frame d c pass).1]

/-- A step from a state with the cursor invariant keeps the watermark below
the size of the table. -/
theorem step_done_bound (d : Decls) (s t : sys) (h : step d s t) (hi : bound_inv d s)
    (hb : s.c.recovery_pass_done < ARRAY_SIZE_recovery_pass_fns d) :
    t.c.recovery_pass_done < ARRAY_SIZE_recovery_pass_fns d := by
  obtain ⟨_, i2, i3⟩ := hi
  cases h with
  | leave c _ => exact hb
  | arm c _ => exact hb
  | stop c _ => exact hb
  | skip c c1 hd =>
    have hc1 := iter_decide_skip d c c1 hd
    subst hc1
    have hlt : c.curr_recovery_pass < ARRAY_SIZE_recovery_pass_fns d := (i3 (Or.inl rfl)).1
    have hb1 : c.recovery_pass_done < ARRAY_SIZE_recovery_pass_fns d := hb
    show max c.recovery_pass_done c.curr_recovery_pass < _
    exact max_lt hb1 hlt
  | start c pass _ => exact hb
  | finish c pass e =>
    have hlt : c.curr_recovery_pass < ARRAY_SIZE_recovery_pass_fns d :=
      (i3 (Or.inr ⟨pass, rfl⟩)).1
    have hp : pass = c.curr_recovery_pass := i2 pass rfl
    have hb1 : c.recovery_pass_done < ARRAY_SIZE_recovery_pass_fns d := hb
    show (finish_pass d c pass e).2.1.recovery_pass_done < _
    rcases finish_pass_outcome d c pass e with ⟨_, _, _, h⟩ | ⟨_, _, _, h⟩
    · rw [h]; exact hb1
    · rw [h, hp]; exact max_lt hb1 hlt
  | request c pc pass =>
    show (rewind d c pass).recovery_pass_done < _
    rw [(rewind_frame d c pass).1]; exact hb

theorem reachable_done_bound (d : Decls) (hN : 0 < ARRAY_SIZE_recovery_pass_fns d) (s : sys)
    (h : reachable d s) : s.c.recovery_pass_done < ARRAY_SIZE_recovery_pass_fns d := by
  induction h with
  | init c hc =>
    show c.recovery_pass_done < _
    rw [hc.2.2.2.1]; exact hN
  | next s t hs hst ih => exact step_done_bound d s t hst (reachable_bound_inv d s hs) ih

/-! ## The online runner: theorems -/

theorem online_exit (d : Decls) (m : Int → Bool) (fuel : Nat) (env : List pass_exec) (i : Nat)
    (c : bch_fs) (tr : List event) (hi : ¬ i < ARRAY_SIZE_recovery_pass_fns d) :
    online_passes_loop d m fuel env i c tr = some (0, c, tr) := by
  unfold online_passes_loop
  rw [if_neg hi]

theorem online_fuel_zero (d : Decls) (m : Int → Bool) (env : List pass_exec) (i : Nat)
    (c : bch_fs) (tr : List event) (hi : i < ARRAY_SIZE_recovery_pass_fns d) :
    online_passes_loop d m 0 env i c tr = none := by
  unfold online_passes_loop
  rw [if_pos hi]

theorem online_skip (d : Decls) (m : Int → Bool) (fuel : Nat) (env : List pass_exec) (i : Nat)
    (c : bch_fs) (tr : List event) (hi : i < ARRAY_SIZE_recovery_pass_fns d)
    (ho : (when_of d i &&& d.PASS_ONLINE) = 0) :
    online_passes_loop d m (fuel + 1) env i c tr =
      online_passes_loop d m fuel env (i + 1) c tr := by
  rw [online_passes_loop.eq_def]
  simp only [if_pos hi, if_pos ho]

theorem online_run_nil (d : Decls) (m : Int → Bool) (fuel : Nat) (i : Nat)
    (c : bch_fs) (tr : List event) (hi : i < ARRAY_SIZE_recovery_pass_fns d)
    (ho : (when_of d i &&& d.PASS_ONLINE) ≠ 0) :
    online_passes_loop d m (fuel + 1) [] i c tr = none := by
  rw [online_passes_loop.eq_def]
  simp only [if_pos hi, if_neg ho]

/-- One iteration of the online runner that calls a pass (lines 290-298). -/
theorem online_run (d : Decls) (m : Int → Bool) (fuel : Nat) (e : pass_exec)
    (env : List pass_exec) (i : Nat) (c : bch_fs) (tr : List event)
    (hi : i < ARRAY_SIZE_recovery_pass_fns d)
    (ho : (when_of d i &&& d.PASS_ONLINE) ≠ 0) :
    online_passes_loop d m (fuel + 1) (e :: env) i c tr =
      if m (bch2_run_recovery_pass d (rewinds d c e.rewinds) i e).1 = true then
        online_passes_loop d m fuel env
          ((bch2_run_recovery_pass d (rewinds d c e.rewinds) i e).2.1.curr_recovery_pass + 1)
          (bch2_run_recovery_pass d (rewinds d c e.rewinds) i e).2.1
          (tr ++ (bch2_run_recovery_pass d (rewinds d c e.rewinds) i e).2.2)
      else if (bch2_run_recovery_pass d (rewinds d c e.rewinds) i e).1 ≠ 0 then
        some ((bch2_run_recovery_pass d (rewinds d c e.rewinds) i e).1,
          (bch2_run_recovery_pass d (rewinds d c e.rewinds) i e).2.1,
          tr ++ (bch2_run_recovery_pass d (rewinds d c e.rewinds) i e).2.2)
      else
        online_passes_loop d m fuel env (i + 1)
          (bch2_run_recovery_pass d (rewinds d c e.rewinds) i e).2.1
          (tr ++ (bch2_run_recovery_pass d (rewinds d c e.rewinds) i e).2.2) := by
  rw [online_passes_loop.eq_def]
  simp only [if_pos hi, if_neg ho]

/-- Induction over the online runner: a property of context and trace that
every called pass keeps holds of the result.  The passes are those of the
environment, which all satisfy `P`. -/
theorem online_inv (d : Decls) (m : Int → Bool) (P : pass_exec → Prop)
    (Inv : bch_fs → List event → Prop)
    (hrun : ∀ c tr i e, Inv c tr → P e → i < ARRAY_SIZE_recovery_pass_fns d →
      (when_of d i &&& d.PASS_ONLINE) ≠ 0 →
      Inv (bch2_run_recovery_pass d (rewinds d c e.rewinds) i e).2.1
        (tr ++ (bch2_run_recovery_pass d (rewinds d c e.rewinds) i e).2.2)) :
    ∀ (fuel : Nat) (env : List pass_exec) (i : Nat) (c : bch_fs) (tr : List event)
      (r : Int × bch_fs × List event),
      (∀ e ∈ env, P e) → Inv c tr → online_passes_loop d m fuel env i c tr = some r →
      Inv r.2.1 r.2.2 := by
  intro fuel
  induction fuel with
  | zero =>
    intro env i c tr r _ hinv h
    by_cases hi : i < ARRAY_SIZE_recovery_pass_fns d
    · rw [online_fuel_zero d m env i c tr hi] at h; cases h
    · rw [online_exit d m 0 env i c tr hi] at h
      cases h; exact hinv
  | succ fuel ih =>
    intro env i c tr r hP hinv h
    by_cases hi : i < ARRAY_SIZE_recovery_pass_fns d
    · by_cases ho : (when_of d i &&& d.PASS_ONLINE) = 0
      · rw [online_skip d m fuel env i c tr hi ho] at h
        exact ih env (i + 1) c tr r hP hinv h
      · cases env with
        | nil => rw [online_run_nil d m fuel i c tr hi ho] at h; cases h
        | cons e env =>
          have hstep := hrun c tr i e hinv (hP e (List.mem_cons_self e env)) hi ho
          have hP1 : ∀ e1 ∈ env, P e1 := fun e1 h1 => hP e1 (List.mem_cons_of_mem e h1)
          rw [online_run d m fuel e env i c tr hi ho] at h
          by_cases hm : m (bch2_run_recovery_pass d (rewinds d c e.rewinds) i e).1 = true
          · rw [if_pos hm] at h
            exact ih env _ _ _ r hP1 hstep h
          · rw [if_neg hm] at h
            by_cases h0 : (bch2_run_recovery_pass d (rewinds d c e.rewinds) i e).1 ≠ 0
            · rw [if_pos h0] at h
              cases h; exact hstep
            · rw [if_neg h0] at h
              exact ih env _ _ _ r hP1 hstep h
    · rw [online_exit d m (fuel + 1) env i c tr hi] at h
      cases h; exact hinv

/-- The online runner leaves the cursor, the watermark and the persisted
required-set as they were. -/
theorem online_frame (d : Decls) (m : Int → Bool) (fuel : Nat) (env : List pass_exec)
    (i : Nat) (c : bch_fs) (tr : List event) (r : Int × bch_fs × List event)
    (h : online_passes_loop d m fuel env i c tr = some r) :
    r.2.1.curr_recovery_pass = c.curr_recovery_pass ∧
    r.2.1.recovery_pass_done = c.recovery_pass_done ∧
    r.2.1.recovery_passes_required = c.recovery_passes_required := by
  refine online_inv d m (fun _ => True)
    (fun c1 _ => c1.curr_recovery_pass = c.curr_recovery_pass ∧
      c1.recovery_pass_done = c.recovery_pass_done ∧
      c1.recovery_passes_required = c.recovery_passes_required)
    ?_ fuel env i c tr r (fun _ _ => trivial) ⟨rfl, rfl, rfl⟩ h
  intro c1 tr1 i1 e ⟨h1, h2, h3⟩ _ _ _
  obtain ⟨F, hF⟩ := bch2_run_recovery_pass_frame d (rewinds d c1 e.rewinds) i1 e
  rw [hF]
  refine ⟨?_, ?_, ?_⟩
  · show (rewinds d c1 e.rewinds).curr_recovery_pass = _
    rw [rewinds_curr]; exact h1
  · show (rewinds d c1 e.rewinds).recovery_pass_done = _
    rw [(rewinds_frame d e.rewinds c1).1]; exact h2
  · show (rewinds d c1 e.rewinds).recovery_passes_required = _
    rw [(rewinds_frame d e.rewinds c1).2.1]; exact h3

/-- C26: from a reachable state of the main loop no step (line 315, the
break, a skipped pass, an executed pass that completes, fails or restarts,
a rewind request of any outcome) lowers `recovery_pass_done`, before and
after the step it is below the number of passes, and a run of the online
runner, from any index and context, ends with the watermark it started
with. -/
theorem watermark_is_monotonic (d : Decls) (s t : sys) (m : Int → Bool) (fuel : Nat)
    (env : List pass_exec) (i : Nat) (c : bch_fs) (tr : List event)
    (hN : 0 < ARRAY_SIZE_recovery_pass_fns d) (hs : reachable d s) (hst : step d s t) :
    s.c.recovery_pass_done ≤ t.c.recovery_pass_done ∧
    s.c.recovery_pass_done < ARRAY_SIZE_recovery_pass_fns d ∧
    t.c.recovery_pass_done < ARRAY_SIZE_recovery_pass_fns d ∧
    ∀ r, online_passes_loop d m fuel env i c tr = some r →
      r.2.1.recovery_pass_done = c.recovery_pass_done :=
  ⟨step_done_mono d s t hst, reachable_done_bound d hN s hs,
    reachable_done_bound d hN t (reachable.next s t hs hst),
    fun r h => (online_frame d m fuel env i c tr r h).2.1⟩

theorem watermark_is_monotonic_witness :
    (⟨example_fs, loc.top⟩ : sys).c.recovery_pass_done ≤
      (⟨iter_arm example_fs, loc.armed⟩ : sys).c.recovery_pass_done ∧
    (⟨iter_arm example_fs, loc.armed⟩ : sys).c.recovery_pass_done <
      ARRAY_SIZE_recovery_pass_fns example_decls :=
  have h := watermark_is_monotonic example_decls ⟨example_fs, loc.top⟩
    ⟨iter_arm example_fs, loc.armed⟩ example_matches_restart 0 [] 0 example_fs []
    (by decide) (reachable.init example_fs (by decide))
    (step.arm example_fs (by decide))
  ⟨h.1, h.2.2.1⟩

/-- The calls of pass functions in a run of the online runner are calls of
passes of the table flagged `PASS_ONLINE`. -/
theorem online_only_online (d : Decls) (m : Int → Bool) (fuel : Nat) (env : List pass_exec)
    (i : Nat) (c : bch_fs) (r : Int × bch_fs × List event)
    (h : online_passes_loop d m fuel env i c [] = some r) :
    ∀ p, event.pass_fn p ∈ r.2.2 →
      p < ARRAY_SIZE_recovery_pass_fns d ∧ (when_of d p &&& d.PASS_ONLINE) ≠ 0 := by
  refine online_inv d m (fun _ => True)
    (fun _ tr1 => ∀ p, event.pass_fn p ∈ tr1 →
      p < ARRAY_SIZE_recovery_pass_fns d ∧ (when_of d p &&& d.PASS_ONLINE) ≠ 0)
    ?_ fuel env i c [] r (fun _ _ => trivial) ?_ h
  · intro c1 tr1 i1 e hinv _ hi ho p hp
    rcases List.mem_append.1 hp with hp1 | hp1
    · exact hinv p hp1
    · have hf : event.pass_fn p ∈
          (bch2_run_recovery_pass d (rewinds d c1 e.rewinds) i1 e).2.2.filter
            event.is_pass_fn := List.mem_filter.2 ⟨hp1, rfl⟩
      rw [bch2_run_recovery_pass_one_fn] at hf
      have hpi : p = i1 := event.pass_fn.inj (List.mem_singleton.1 hf)
      rw [hpi]
      exact ⟨hi, ho⟩
  · intro p hp
    cases hp

/-- When the passes make no rewind request, the online runner leaves the
completed set, the next ordinal and the include set as they were. -/
theorem online_frame_no_rewind (d : Decls) (m : Int → Bool) (fuel : Nat)
    (env : List pass_exec) (i : Nat) (c : bch_fs) (tr : List event)
    (r : Int × bch_fs × List event) (hno : ∀ e ∈ env, e.rewinds = [])
    (h : online_passes_loop d m fuel env i c tr = some r) :
    r.2.1.recovery_passes_complete = c.recovery_passes_complete ∧
    r.2.1.next_recovery_pass = c.next_recovery_pass ∧
    r.2.1.opts_recovery_passes = c.opts_recovery_passes := by
  refine online_inv d m (fun e => e.rewinds = [])
    (fun c1 _ => c1.recovery_passes_complete = c.recovery_passes_complete ∧
      c1.next_recovery_pass = c.next_recovery_pass ∧
      c1.opts_recovery_passes = c.opts_recovery_passes)
    ?_ fuel env i c tr r hno ⟨rfl, rfl, rfl⟩ h
  intro c1 tr1 i1 e ⟨h1, h2, h3⟩ he _ _
  obtain ⟨F, hF⟩ := bch2_run_recovery_pass_frame d (rewinds d c1 e.rewinds) i1 e
  rw [hF, he]
  exact ⟨h1, h2, h3⟩

/-- Without the restart signal and with enough fuel, the online runner from
index `i` is the runner of the specification over the online ordinals from
`i` on. -/
theorem online_refines (d : Decls) (m : Int → Bool) (hm0 : m 0 = false) :
    ∀ (n fuel : Nat) (env : List pass_exec) (i : Nat) (c : bch_fs) (tr : List event),
      ARRAY_SIZE_recovery_pass_fns d - i = n → n ≤ fuel →
      (∀ e ∈ env, m e.fn_ret = false) →
      online_passes_loop d m fuel env i c tr =
        online_runner_spec d
          ((List.range' i n).filter (fun p => decide ((when_of d p &&& d.PASS_ONLINE) ≠ 0)))
          env c tr := by
  intro n
  induction n with
  | zero =>
    intro fuel env i c tr hn _ _
    have hi : ¬ i < ARRAY_SIZE_recovery_pass_fns d := by omega
    rw [online_exit d m fuel env i c tr hi]
    simp [online_runner_spec]
  | succ n ih =>
    intro fuel env i c tr hn hfuel hm
    have hi : i < ARRAY_SIZE_recovery_pass_fns d := by omega
    obtain ⟨f, rfl⟩ : ∃ f, fuel = f + 1 := ⟨fuel - 1, by omega⟩
    have hrange : List.range' i (n + 1) = i :: List.range' (i + 1) n := rfl
    rw [hrange]
    by_cases ho : (when_of d i &&& d.PASS_ONLINE) = 0
    · have hneg : decide ((when_of d i &&& d.PASS_ONLINE) ≠ 0) = false :=
        decide_eq_false (fun h => h ho)
      simp only [List.filter_cons, hneg, Bool.false_eq_true, if_false]
      rw [online_skip d m f env i c tr hi ho]
      exact ih f env (i + 1) c tr (by omega) (by omega) hm
    · have hpos : decide ((when_of d i &&& d.PASS_ONLINE) ≠ 0) = true := decide_eq_true ho
      simp only [List.filter_cons, hpos, if_true]
      cases env with
      | nil =>
        rw [online_run_nil d m f i c tr hi ho]
        simp [online_runner_spec]
      | cons e env =>
        have hm1 : ∀ e1 ∈ env, m e1.fn_ret = false :=
          fun e1 h1 => hm e1 (List.mem_cons_of_mem e h1)
        have hme : m (bch2_run_recovery_pass d (rewinds d c e.rewinds) i e).1 = false := by
          rcases bch2_run_recovery_pass_status d (rewinds d c e.rewinds) i e with h | h
          · rw [h]; exact hm e (List.mem_cons_self e env)
          · rw [h]; exact hm0
        rw [online_run d m f e env i c tr hi ho, online_runner_spec]
        simp only [hme, Bool.false_eq_true, if_false]
        by_cases h0 : (bch2_run_recovery_pass d (rewinds d c e.rewinds) i e).1 ≠ 0
        · rw [if_pos h0, if_pos h0]
        · rw [if_neg h0, if_neg h0]
          exact ih f env (i + 1) _ _ (by omega) (by omega) hm1

/-- With a pass environment for every ordinal, the runner of the
specification returns: it has called the passes of a prefix of the ordinals,
once each and in order, and the prefix is the whole list unless the status
is nonzero. -/
theorem online_spec_trace (d : Decls) :
    ∀ (ps : List Nat) (env : List pass_exec) (c : bch_fs) (tr : List event),
      ps.length ≤ env.length →
      ∃ r k, online_runner_spec d ps env c tr = some r ∧ k ≤ ps.length ∧
        r.2.2.filter event.is_pass_fn =
          tr.filter event.is_pass_fn ++ (ps.take k).map event.pass_fn ∧
        (r.1 ≠ 0 ∨ k = ps.length) := by
  intro ps
  induction ps with
  | nil =>
    intro env c tr _
    exact ⟨(0, c, tr), 0, by simp [online_runner_spec], Nat.le_refl _, by simp, Or.inr rfl⟩
  | cons p ps ih =>
    intro env c tr hlen
    cases env with
    | nil => simp at hlen
    | cons e env =>
      have hlen1 : ps.length ≤ env.length := by
        simp only [List.length_cons] at hlen; omega
      have h1 := bch2_run_recovery_pass_one_fn d (rewinds d c e.rewinds) p e
      rw [online_runner_spec]
      by_cases h0 : (bch2_run_recovery_pass d (rewinds d c e.rewinds) p e).1 ≠ 0
      · rw [if_pos h0]
        refine ⟨_, 1, rfl, by simp, ?_, Or.inl h0⟩
        simp [List.filter_append, h1]
      · rw [if_neg h0]
        obtain ⟨r, k, e1, e2, e3, e4⟩ := ih env
          (bch2_run_recovery_pass d (rewinds d c e.rewinds) p e).2.1
          (tr ++ (bch2_run_recovery_pass d (rewinds d c e.rewinds) p e).2.2) hlen1
        refine ⟨r, k + 1, e1, by simp only [List.length_cons]; omega, ?_, ?_⟩
        · rw [e3]
          simp [List.filter_append, h1]
        · rcases e4 with e4 | e4
          · exact Or.inl e4
          · right; simp only [List.length_cons]; omega

/-- C28: every call of a pass function in a run of
`bch2_run_online_recovery_passes` is a call of a pass flagged `PASS_ONLINE`,
for every context; the run leaves the cursor, the watermark and the
persisted required-set as they were, and the completed set too when the
passes make no rewind request.  When 0 and the statuses of the passes are
not the restart signal and the fuel covers the table, the runner is the
runner of the specification over the online ordinals in increasing order,
and with a pass environment for each of them it returns, having called a
prefix of them once each in order, the whole list unless the status is
nonzero. -/
theorem online_runner_runs_online_passes (d : Decls) (m : Int → Bool) (fuel : Nat)
    (env : List pass_exec) (c : bch_fs) :
    (∀ r, bch2_run_online_recovery_passes d m fuel env c = some r →
      (∀ p, event.pass_fn p ∈ r.2.2 →
        p < ARRAY_SIZE_recovery_pass_fns d ∧ (when_of d p &&& d.PASS_ONLINE) ≠ 0) ∧
      r.2.1.curr_recovery_pass = c.curr_recovery_pass ∧
      r.2.1.recovery_pass_done = c.recovery_pass_done ∧
      r.2.1.recovery_passes_required = c.recovery_passes_required ∧
      ((∀ e ∈ env, e.rewinds = []) →
        r.2.1.recovery_passes_complete = c.recovery_passes_complete)) ∧
    (m 0 = false → (∀ e ∈ env, m e.fn_ret = false) →
      ARRAY_SIZE_recovery_pass_fns d ≤ fuel →
      bch2_run_online_recovery_passes d m fuel env c =
        online_runner_spec d (online_ordinals d) env c [] ∧
      ((online_ordinals d).length ≤ env.length →
        ∃ r k, bch2_run_online_recovery_passes d m fuel env c = some r ∧
          k ≤ (online_ordinals d).length ∧
          r.2.2.filter event.is_pass_fn = ((online_ordinals d).take k).map event.pass_fn ∧
          (r.1 ≠ 0 ∨ k = (online_ordinals d).length))) := by
  have hord : online_ordinals d =
      (List.range' 0 (ARRAY_SIZE_recovery_pass_fns d)).filter
        (fun p => decide ((when_of d p &&& d.PASS_ONLINE) ≠ 0)) := by
    unfold online_ordinals
    rw [List.range_eq_range']
  refine ⟨fun r h => ?_, fun hm0 hm hfuel => ?_⟩
  · have hf := online_frame d m fuel env 0 c [] r h
    exact ⟨online_only_online d m fuel env 0 c r h, hf.1, hf.2.1, hf.2.2,
      fun hno => (online_frame_no_rewind d m fuel env 0 c [] r hno h).1⟩
  · have href : bch2_run_online_recovery_passes d m fuel env c =
        online_runner_spec d (online_ordinals d) env c [] := by
      rw [hord]
      exact online_refines d m hm0 (ARRAY_SIZE_recovery_pass_fns d) fuel env 0 c [] rfl
        hfuel hm
    refine ⟨href, fun hlen => ?_⟩
    obtain ⟨r, k, e1, e2, e3, e4⟩ := online_spec_trace d (online_ordinals d) env c [] hlen
    exact ⟨r, k, href.trans e1, e2, by simpa using e3, e4⟩

theorem online_runner_runs_online_passes_witness :
    bch2_run_online_recovery_passes online_decls example_matches_restart 4
        [pass_ok, pass_fails, pass_ok] online_fs =
      online_runner_spec online_decls (online_ordinals online_decls)
        [pass_ok, pass_fails, pass_ok] online_fs [] :=
  ((online_runner_runs_online_passes online_decls example_matches_restart 4
    [pass_ok, pass_fails, pass_ok] online_fs).2 (by decide) (by decide) (by decide)).1

/-- C29, as the code behaves: over `online_decls`, from the context
`online_fs` (cursor 2), the online runner calls the passes 1, 2 and 3; the
pass 3 asks to rewind to 1 and returns the restart signal.  The runner
returns no error for it, and the next pass it calls is again the pass 3, the
ordinal after the cursor: the pass 2 at the cursor is not considered again,
and the run ends with status 0. -/
theorem online_restart_resumes_after_cursor :
    bch2_run_online_recovery_passes online_decls example_matches_restart 10
        [pass_ok, pass_ok, pass_restarts, pass_ok] online_fs =
      some (0,
        { online_fs with next_recovery_pass := 1, opts_recovery_passes := 2 },
        [event.print_pass 1, event.pass_fn 1, event.print_done,
          event.print_pass 2, event.pass_fn 2, event.print_done,
          event.print_pass 3, event.pass_fn 3,
          event.print_pass 3, event.pass_fn 3, event.print_done]) := by
  decide!

/-! ## The fsck bitmap: theorems -/

theorem BIT_ULL_of_ge {p : Nat} (hp : 64 ≤ p) : BIT_ULL p = 0 := by
  unfold BIT_ULL
  rw [Nat.one_shiftLeft]
  exact Nat.mod_eq_zero_of_dvd (Nat.pow_dvd_pow 2 hp)

theorem when_of_ge (d : Decls) (p : Nat) (hp : ARRAY_SIZE_recovery_pass_fns d ≤ p) :
    when_of d p = 0 := by
  unfold when_of
  unfold ARRAY_SIZE_recovery_pass_fns at hp
  rw [List.getD_eq_default _ _ hp]

/-- The bits of the fold of lines 242-244 over a list of ordinals below 64. -/
theorem testBit_fsck_fold (d : Decls) (l : List Nat) (hl : ∀ i ∈ l, i < 64) (acc p : Nat) :
    (l.foldl (fun ret i => if (when_of d i &&& d.PASS_FSCK) ≠ 0 then ret ||| BIT_ULL i else ret)
      acc).testBit p =
      (acc.testBit p || (decide (p ∈ l) && decide ((when_of d p &&& d.PASS_FSCK) ≠ 0))) := by
  induction l generalizing acc with
  | nil => simp
  | cons a l ih =>
    have ha : a < 64 := hl a (List.mem_cons_self a l)
    have hl1 : ∀ i ∈ l, i < 64 := fun i hi => hl i (List.mem_cons_of_mem a hi)
    rw [List.foldl_cons, ih hl1]
    by_cases hf : (when_of d a &&& d.PASS_FSCK) ≠ 0
    · rw [if_pos hf, testBit_or_BIT_ULL acc ha p]
      by_cases hpa : p = a
      · subst hpa
        simp [hf]
      · simp [hpa]
    · rw [if_neg hf]
      by_cases hpa : p = a
      · subst hpa
        simp [hf]
      · simp [hpa]

theorem testBit_fsck_recovery_passes (d : Decls) (hN : ARRAY_SIZE_recovery_pass_fns d ≤ 64)
    (p : Nat) :
    (bch2_fsck_recovery_passes d).testBit p =
      (decide (p < ARRAY_SIZE_recovery_pass_fns d) && has_flag d p d.PASS_FSCK) := by
  unfold bch2_fsck_recovery_passes has_flag
  rw [testBit_fsck_fold d _ (fun i hi => Nat.lt_of_lt_of_le (List.mem_range.1 hi) hN)]
  simp [List.mem_range]

/-- C36: with at most 64 passes, the bit `p` of `bch2_fsck_recovery_passes()`
is set exactly when `p` is an ordinal of the table whose `when` mask has
`PASS_FSCK`; and for every context and every ordinal,
`should_run_recovery_pass` with fsck requested equals
`should_run_recovery_pass` with fsck not requested and that bitmap added to
`opts.recovery_passes`. -/
theorem fsck_bitmap_is_fsck_option (d : Decls) (c : bch_fs) (p : Nat)
    (hN : ARRAY_SIZE_recovery_pass_fns d ≤ 64) :
    (bch2_fsck_recovery_passes d).testBit p =
      (decide (p < ARRAY_SIZE_recovery_pass_fns d) && has_flag d p d.PASS_FSCK) ∧
    should_run_recovery_pass d { c with opts_fsck := true } p =
      should_run_recovery_pass d
        { c with
          opts_fsck := false
          opts_recovery_passes := c.opts_recovery_passes ||| bch2_fsck_recovery_passes d } p := by
  refine ⟨testBit_fsck_recovery_passes d hN p, ?_⟩
  have key : ((c.opts_recovery_passes ||| bch2_fsck_recovery_passes d) &&& BIT_ULL p) ≠ 0 ↔
      ((c.opts_recovery_passes &&& BIT_ULL p) ≠ 0 ∨ (when_of d p &&& d.PASS_FSCK) ≠ 0) := by
    by_cases hp : p < 64
    · rw [and_BIT_ULL_ne_zero_iff _ hp, and_BIT_ULL_ne_zero_iff _ hp, Nat.testBit_or,
        testBit_fsck_recovery_passes d hN p]
      unfold has_flag
      by_cases hpn : p < ARRAY_SIZE_recovery_pass_fns d
      · simp [hpn]
      · have hw : when_of d p = 0 := when_of_ge d p (by omega)
        simp [hpn, hw]
    · have hb : BIT_ULL p = 0 := BIT_ULL_of_ge (by omega)
      have hw : when_of d p = 0 := when_of_ge d p (by omega)
      simp [hb, hw]
  unfold should_run_recovery_pass
  simp only []
  by_cases hA : (when_of d p &&& d.PASS_ALLOC) ≠ 0 ∧
      (c.sb_features &&& BIT_ULL d.BCH_FEATURE_no_alloc_info) ≠ 0
  · rw [if_pos hA, if_pos hA]
  · rw [if_neg hA, if_neg hA]
    by_cases hE : (c.opts_recovery_passes_exclude &&& BIT_ULL p) ≠ 0
    · rw [if_pos hE, if_pos hE]
    · rw [if_neg hE, if_neg hE]
      by_cases hI : (c.opts_recovery_passes &&& BIT_ULL p) ≠ 0
      · rw [if_pos hI, if_pos (key.2 (Or.inl hI))]
      · rw [if_neg hI]
        by_cases hF : (when_of d p &&& d.PASS_FSCK) ≠ 0
        · have hk := key.2 (Or.inr hF)
          simp [hF, hk]
        · have hk : ¬ ((c.opts_recovery_passes ||| bch2_fsck_recovery_passes d) &&&
              BIT_ULL p) ≠ 0 := fun h => (key.1 h).elim hI hF
          simp [hF, hk]

theorem fsck_bitmap_is_fsck_option_witness :
    (bch2_fsck_recovery_passes example_decls).testBit 1 =
      (decide (1 < ARRAY_SIZE_recovery_pass_fns example_decls) &&
        has_flag example_decls 1 example_decls.PASS_FSCK) ∧
    should_run_recovery_pass example_decls { example_fs with opts_fsck := true } 1 =
      should_run_recovery_pass example_decls
        { example_fs with
          opts_fsck := false
          opts_recovery_passes :=
            example_fs.opts_recovery_passes ||| bch2_fsck_recovery_passes example_decls } 1 :=
  fsck_bitmap_is_fsck_option example_decls example_fs 1 (by decide)

/-! ## The pass `set_may_go_rw`: theorems -/

/-- The call of a pass function keeps every flag of `c->flags` that is set. -/
theorem call_fn_flags_mono (d : Decls) (c : bch_fs) (pass : Nat) (e : pass_exec) (b : Nat)
    (h : c.flags.testBit b = true) : (call_fn d c pass e).2.1.flags.testBit b = true := by
  unfold call_fn
  simp only []
  by_cases hp : pass = d.BCH_RECOVERY_PASS_set_may_go_rw
  · rw [if_pos hp, bch2_set_may_go_rw_fs]
    split_ifs
    · show ((c.flags ||| 2 ^ d.BCH_FS_error) ||| 2 ^ d.BCH_FS_may_go_rw).testBit b = true
      rw [Nat.testBit_or, Nat.testBit_or, h]; rfl
    · show (c.flags ||| 2 ^ d.BCH_FS_may_go_rw).testBit b = true
      rw [Nat.testBit_or, h]; rfl
  · rw [if_neg hp]
    split_ifs
    · show (c.flags ||| 2 ^ d.BCH_FS_error).testBit b = true
      rw [Nat.testBit_or, h]; rfl
    · exact h

theorem run_and_flush_flags (d : Decls) (c : bch_fs) (pass : Nat) (e : pass_exec) :
    (run_and_flush d c pass e).2.1.flags = (call_fn d c pass e).2.1.flags := by
  unfold run_and_flush bch2_clear_recovery_pass_required
  simp only [bch2_run_recovery_pass_fs]
  split_ifs <;> rfl

theorem finish_pass_flags_mono (d : Decls) (c : bch_fs) (pass : Nat) (e : pass_exec) (b : Nat)
    (h : c.flags.testBit b = true) : (finish_pass d c pass e).2.1.flags.testBit b = true := by
  have h1 : (finish_pass d c pass e).2.1.flags = (run_and_flush d c pass e).2.1.flags := by
    unfold finish_pass
    exact post_pass_flags _ _ _
  rw [h1, run_and_flush_flags]
  exact call_fn_flags_mono d c pass e b h

/-- No step of the main loop and no rewind request clears a flag of
`c->flags`. -/
theorem step_flags_mono (d : Decls) (s t : sys) (h : step d s t) (b : Nat)
    (hb : s.c.flags.testBit b = true) : t.c.flags.testBit b = true := by
  cases h with
  | leave c _ => exact hb
  | arm c _ => exact hb
  | stop c _ => exact hb
  | skip c c1 hd =>
    have hc1 := iter_decide_skip d c c1 hd
    subst hc1
    exact hb
  | start c pass _ => exact hb
  | finish c pass e => exact finish_pass_flags_mono d c pass e b hb
  | request c pc pass =>
    show (rewind d c pass).flags.testBit b = true
    rw [rewind_flags]; exact hb

/-- The online runner clears no flag of `c->flags`. -/
theorem online_flags_mono (d : Decls) (m : Int → Bool) (fuel : Nat) (env : List pass_exec)
    (i : Nat) (c : bch_fs) (tr : List event) (r : Int × bch_fs × List event) (b : Nat)
    (hb : c.flags.testBit b = true)
    (h : online_passes_loop d m fuel env i c tr = some r) : r.2.1.flags.testBit b = true := by
  refine online_inv d m (fun _ => True) (fun c1 _ => c1.flags.testBit b = true)
    ?_ fuel env i c tr r (fun _ _ => trivial) hb h
  intro c1 tr1 i1 e h1 _ _ _
  rw [bch2_run_recovery_pass_fs]
  apply call_fn_flags_mono
  rw [(rewinds_config d e.rewinds c1).2.2.2.2]
  exact h1

/-- C37: `bch2_set_may_go_rw` returns with `BCH_FS_may_go_rw` set; it calls
`bch2_fs_read_write_early` exactly when journal keys are present, or the
option `read_only` is off, or the superblock is not clean, or
`opts.recovery_passes` is not empty, or fsck is requested and allocation
info is present; then it returns the value of that call, and
`bch2_reconstruct_alloc` is called before it exactly when the feature
`no_alloc_info` is set; otherwise it returns 0 and calls neither.  No step
of the main loop, no rewind request and no run of the online runner clears
the flag. -/
theorem set_may_go_rw_goes_rw_when_needed (d : Decls) (c : bch_fs) (rw_early : Int)
    (hwf : d.wf) :
    (bch2_set_may_go_rw d c rw_early).2.1.flags.testBit d.BCH_FS_may_go_rw = true ∧
    (event.fs_read_write_early ∈ (bch2_set_may_go_rw d c rw_early).2.2 ↔
      (c.journal_keys_nr ≠ 0 ∨ c.opts_read_only = false ∨ c.sb_clean = false ∨
        c.opts_recovery_passes ≠ 0 ∨ (c.opts_fsck = true ∧ no_alloc_info d c = false))) ∧
    (event.fs_read_write_early ∈ (bch2_set_may_go_rw d c rw_early).2.2 →
      (bch2_set_may_go_rw d c rw_early).1 = rw_early ∧
      (bch2_set_may_go_rw d c rw_early).2.2 =
        (if no_alloc_info d c = true then [event.reconstruct_alloc] else []) ++
          [event.fs_read_write_early]) ∧
    (event.fs_read_write_early ∉ (bch2_set_may_go_rw d c rw_early).2.2 →
      (bch2_set_may_go_rw d c rw_early).1 = 0 ∧ (bch2_set_may_go_rw d c rw_early).2.2 = []) ∧
    (∀ s t, step d s t → s.c.flags.testBit d.BCH_FS_may_go_rw = true →
      t.c.flags.testBit d.BCH_FS_may_go_rw = true) ∧
    (∀ m fuel env i c0 tr r, online_passes_loop d m fuel env i c0 tr = some r →
      c0.flags.testBit d.BCH_FS_may_go_rw = true →
      r.2.1.flags.testBit d.BCH_FS_may_go_rw = true) := by
  have hb : d.BCH_FEATURE_no_alloc_info < 64 := hwf.2.2.1
  have hflag : (bch2_set_may_go_rw d c rw_early).2.1.flags.testBit d.BCH_FS_may_go_rw = true := by
    rw [bch2_set_may_go_rw_fs]
    show (c.flags ||| 2 ^ d.BCH_FS_may_go_rw).testBit d.BCH_FS_may_go_rw = true
    rw [Nat.testBit_or, Nat.testBit_two_pow_self, Bool.or_true]
  have hna : ((c.sb_features &&& BIT_ULL d.BCH_FEATURE_no_alloc_info) ≠ 0) ↔
      no_alloc_info d c = true := by
    unfold no_alloc_info
    exact and_BIT_ULL_ne_zero_iff _ hb
  refine ⟨hflag, ?_, ?_, ?_, fun s t hst h => step_flags_mono d s t hst _ h,
    fun m fuel env i c0 tr r h h0 => online_flags_mono d m fuel env i c0 tr r _ h0 h⟩
  · unfold bch2_set_may_go_rw
    simp only [hna]
    by_cases hcond : c.journal_keys_nr ≠ 0 ∨ ¬ c.opts_read_only = true ∨ ¬ c.sb_clean = true ∨
        c.opts_recovery_passes ≠ 0 ∨ (c.opts_fsck = true ∧ ¬ decide (no_alloc_info d c = true) = true)
    · rw [if_pos hcond]
      simp only [List.mem_append, List.mem_singleton, or_true, true_iff]
      simpa using hcond
    · rw [if_neg hcond]
      simp only [List.not_mem_nil, false_iff]
      simpa using hcond
  · unfold bch2_set_may_go_rw
    simp only [hna]
    by_cases hcond : c.journal_keys_nr ≠ 0 ∨ ¬ c.opts_read_only = true ∨ ¬ c.sb_clean = true ∨
        c.opts_recovery_passes ≠ 0 ∨ (c.opts_fsck = true ∧ ¬ decide (no_alloc_info d c = true) = true)
    · rw [if_pos hcond]
      intro _
      refine ⟨rfl, ?_⟩
      by_cases hn : no_alloc_info d c = true <;> simp [hn]
    · rw [if_neg hcond]
      intro h
      cases h
  · unfold bch2_set_may_go_rw
    simp only [hna]
    by_cases hcond : c.journal_keys_nr ≠ 0 ∨ ¬ c.opts_read_only = true ∨ ¬ c.sb_clean = true ∨
        c.opts_recovery_passes ≠ 0 ∨ (c.opts_fsck = true ∧ ¬ decide (no_alloc_info d c = true) = true)
    · rw [if_pos hcond]
      intro h
      exact absurd (List.mem_append_right _ (List.mem_singleton_self _)) h
    · rw [if_neg hcond]
      intro _
      exact ⟨rfl, rfl⟩

theorem set_may_go_rw_goes_rw_when_needed_witness :
    (bch2_set_may_go_rw example_decls { example_fs with sb_clean := false, sb_features := 2 ^ 21 }
      (-5)).2.1.flags.testBit example_decls.BCH_FS_may_go_rw = true ∧
    (event.fs_read_write_early ∈
        (bch2_set_may_go_rw example_decls
          { example_fs with sb_clean := false, sb_features := 2 ^ 21 } (-5)).2.2 →
      (bch2_set_may_go_rw example_decls
          { example_fs with sb_clean := false, sb_features := 2 ^ 21 } (-5)).1 = -5 ∧
      (bch2_set_may_go_rw example_decls
          { example_fs with sb_clean := false, sb_features := 2 ^ 21 } (-5)).2.2 =
        (if no_alloc_info example_decls
            { example_fs with sb_clean := false, sb_features := 2 ^ 21 } = true
          then [event.reconstruct_alloc] else []) ++ [event.fs_read_write_early]) :=
  have h := set_may_go_rw_goes_rw_when_needed example_decls
    { example_fs with sb_clean := false, sb_features := 2 ^ 21 } (-5) (by decide)
  ⟨h.1, h.2.2.1⟩

/-! ## The result and the log line of a rewind request: theorems -/

/-- The status of a rewind request by the tests of lines 132-161, the
completed-set test read as membership. -/
theorem rewind_status_eq_spec (d : Decls) (out : printbuf) (c : bch_fs) (t : Nat)
    (ht : t < 64) :
    (__bch2_run_explicit_recovery_pass d out c t).1 =
      rewind_result_spec d c.curr_recovery_pass c.recovery_passes_complete t := by
  have hcomp : ((c.recovery_passes_complete &&& BIT_ULL t) ≠ 0) ↔
      in_set c.recovery_passes_complete t = true := by
    unfold in_set
    exact and_BIT_ULL_ne_zero_iff _ ht
  unfold __bch2_run_explicit_recovery_pass rewind_result_spec
  by_cases h1 : c.curr_recovery_pass = ARRAY_SIZE_recovery_pass_fns d
  · rw [if_pos h1, if_pos h1]
  · rw [if_neg h1, if_neg h1]
    by_cases h2 : (c.recovery_passes_complete &&& BIT_ULL t) ≠ 0
    · rw [if_pos h2, if_pos (hcomp.1 h2)]
    · rw [if_neg h2, if_neg (fun h => h2 (hcomp.2 h))]
      by_cases h3 : t < d.BCH_RECOVERY_PASS_set_may_go_rw ∧
          c.curr_recovery_pass ≥ d.BCH_RECOVERY_PASS_set_may_go_rw
      · simp only [if_pos h3]
      · simp only [if_neg h3]
        by_cases h4 : c.curr_recovery_pass > t
        · simp only [if_pos h4]
        · simp only [if_neg h4]

/-- C33: for a target below 64, the status of a rewind request is the
value the specification gives from the cursor, the completed set and the
target alone (not in recovery; success for a completed target; cannot
rewind below `set_may_go_rw` once the cursor has reached it; restart below
the cursor; success otherwise, in this order); two contexts with the same
cursor and completed set give the same status, whatever their other fields,
`c->flags` included; and in the first two cases context and buffer are
returned as they were. -/
theorem rewind_result_by_cursor_and_completed (d : Decls) (out : printbuf) (c c2 : bch_fs)
    (t : Nat) (ht : t < 64)
    (hcurr : c2.curr_recovery_pass = c.curr_recovery_pass)
    (hcomp : c2.recovery_passes_complete = c.recovery_passes_complete) :
    (__bch2_run_explicit_recovery_pass d out c t).1 =
      rewind_result_spec d c.curr_recovery_pass c.recovery_passes_complete t ∧
    (__bch2_run_explicit_recovery_pass d out c2 t).1 =
      (__bch2_run_explicit_recovery_pass d out c t).1 ∧
    ((c.curr_recovery_pass = ARRAY_SIZE_recovery_pass_fns d ∨
        in_set c.recovery_passes_complete t = true) →
      (__bch2_run_explicit_recovery_pass d out c t).2 = (out, c)) := by
  refine ⟨rewind_status_eq_spec d out c t ht, ?_, ?_⟩
  · rw [rewind_status_eq_spec d out c2 t ht, rewind_status_eq_spec d out c t ht, hcurr, hcomp]
  · intro h
    unfold __bch2_run_explicit_recovery_pass
    by_cases h1 : c.curr_recovery_pass = ARRAY_SIZE_recovery_pass_fns d
    · rw [if_pos h1]
    · rw [if_neg h1]
      rcases h with h | h
      · exact absurd h h1
      · have h2 : (c.recovery_passes_complete &&& BIT_ULL t) ≠ 0 :=
          (and_BIT_ULL_ne_zero_iff _ ht).2 h
        rw [if_pos h2]

theorem rewind_result_by_cursor_and_completed_witness :
    (__bch2_run_explicit_recovery_pass example_decls [] include_fs_at_pass 2).1 =
      rewind_result_spec example_decls 4 1 2 ∧
    (__bch2_run_explicit_recovery_pass example_decls []
        { include_fs_at_pass with
          next_recovery_pass := 0, opts_recovery_passes := 0, flags := 8 } 2).1 =
      (__bch2_run_explicit_recovery_pass example_decls [] include_fs_at_pass 2).1 :=
  have h := rewind_result_by_cursor_and_completed example_decls [] include_fs_at_pass
    { include_fs_at_pass with next_recovery_pass := 0, opts_recovery_passes := 0, flags := 8 }
    2 (by decide) rfl rfl
  ⟨h.1, h.2.1⟩

/-- C32, as stated, fails.  Over `example_decls`, while the pass of ordinal
4 runs, a first rewind request to ordinal 2 prints its line and adds the
ordinal to `opts.recovery_passes`; a second request to ordinal 2 is again
accepted (status -2003, neither not-in-recovery nor the no-op of a completed
target) and prints nothing. -/
theorem repeated_rewind_prints_nothing :
    bch2_run_explicit_recovery_pass example_decls include_fs_at_pass 2 =
      (-2003, [log_line.running_explicit_pass 2 4],
        { include_fs_at_pass with
          opts_recovery_passes := 20, next_recovery_pass := 2,
          recovery_passes_complete := 0 }) ∧
    bch2_run_explicit_recovery_pass example_decls
        (rewind example_decls include_fs_at_pass 2) 2 =
      (-2003, [], rewind example_decls include_fs_at_pass 2) ∧
    in_set (rewind example_decls include_fs_at_pass 2).recovery_passes_complete 2 = false ∧
    in_set (rewind example_decls include_fs_at_pass 2).opts_recovery_passes 2 = true := by
  decide

/-- C32, amended: for a target below 64, a context in recovery and a target
that is not completed, the request appends exactly one line to the buffer
when the target is not yet in `opts.recovery_passes` (the line naming the
target and the fact that the filesystem is already read-write when the
request is rejected at `set_may_go_rw`, otherwise the line naming the target
and the cursor), and appends nothing when the target is already in
`opts.recovery_passes`. -/
theorem rewind_line_unless_already_included (d : Decls) (out : printbuf) (c : bch_fs)
    (t : Nat) (ht : t < 64)
    (hrec : c.curr_recovery_pass ≠ ARRAY_SIZE_recovery_pass_fns d)
    (hnc : in_set c.recovery_passes_complete t = false) :
    (__bch2_run_explicit_recovery_pass d out c t).2.1 =
      if in_set c.opts_recovery_passes t = true then out
      else if t < d.BCH_RECOVERY_PASS_set_may_go_rw ∧
          d.BCH_RECOVERY_PASS_set_may_go_rw ≤ c.curr_recovery_pass then
        out ++ [log_line.need_pass_but_already_rw t]
      else out ++ [log_line.running_explicit_pass t c.curr_recovery_pass] := by
  have h2 : ¬ (c.recovery_passes_complete &&& BIT_ULL t) ≠ 0 := by
    intro h
    have := (and_BIT_ULL_ne_zero_iff _ ht).1 h
    unfold in_set at hnc
    rw [hnc] at this
    cases this
  have hinc : ((c.opts_recovery_passes &&& BIT_ULL t) = 0) ↔
      ¬ in_set c.opts_recovery_passes t = true := by
    unfold in_set
    rw [and_BIT_ULL_eq_zero_iff _ ht]
    simp
  unfold __bch2_run_explicit_recovery_pass
  rw [if_neg hrec, if_neg h2]
  by_cases h3 : t < d.BCH_RECOVERY_PASS_set_may_go_rw ∧
      c.curr_recovery_pass ≥ d.BCH_RECOVERY_PASS_set_may_go_rw
  · simp only [if_pos h3]
    by_cases hi : in_set c.opts_recovery_passes t = true
    · have hp : ¬ (c.opts_recovery_passes &&& BIT_ULL t) = 0 := fun h => hinc.1 h hi
      simp [hi, hp]
    · have hp : (c.opts_recovery_passes &&& BIT_ULL t) = 0 := hinc.2 hi
      simp [hi, hp, h3.1, h3.2]
  · simp only [if_neg h3]
    have h3b : ¬ (t < d.BCH_RECOVERY_PASS_set_may_go_rw ∧
        d.BCH_RECOVERY_PASS_set_may_go_rw ≤ c.curr_recovery_pass) := h3
    by_cases hi : in_set c.opts_recovery_passes t = true
    · have hp : ¬ (c.opts_recovery_passes &&& BIT_ULL t) = 0 := fun h => hinc.1 h hi
      rw [if_pos hi]
      by_cases h4 : c.curr_recovery_pass > t
      · rw [if_pos h4]; simp [hp]
      · rw [if_neg h4]; simp [hp]
    · have hp : (c.opts_recovery_passes &&& BIT_ULL t) = 0 := hinc.2 hi
      rw [if_neg hi]
      by_cases h4 : c.curr_recovery_pass > t
      · rw [if_pos h4]; simp [hp]
      · rw [if_neg h4]; simp [hp]

theorem rewind_line_unless_already_included_witness :
    (__bch2_run_explicit_recovery_pass example_decls [] include_fs_at_pass 2).2.1 =
      if in_set include_fs_at_pass.opts_recovery_passes 2 = true then []
      else if 2 < example_decls.BCH_RECOVERY_PASS_set_may_go_rw ∧
          example_decls.BCH_RECOVERY_PASS_set_may_go_rw ≤
            include_fs_at_pass.curr_recovery_pass then
        [] ++ [log_line.need_pass_but_already_rw 2]
      else [] ++ [log_line.running_explicit_pass 2 include_fs_at_pass.curr_recovery_pass] :=
  rewind_line_unless_already_included example_decls [] include_fs_at_pass 2 (by decide)
    (by decide) (by decide)

/-! ## The completed set below cursor and watermark: theorems -/

theorem testBit_or_BIT_ULL_imp (x t i : Nat) (h : (x ||| BIT_ULL t).testBit i = true) :
    x.testBit i = true ∨ i = t := by
  by_cases ht : t < 64
  · rw [testBit_or_BIT_ULL x ht i] at h
    rcases Bool.or_eq_true_iff.1 h with h1 | h1
    · exact Or.inl h1
    · exact Or.inr (of_decide_eq_true h1)
  · rw [BIT_ULL_of_ge (by omega), Nat.or_zero] at h
    exact Or.inl h

/-- The completed set, the cursor and the watermark after lines 334-355. -/
theorem finish_pass_complete (d : Decls) (c : bch_fs) (pass : Nat) (e : pass_exec) :
    (c.next_recovery_pass < c.curr_recovery_pass ∧
      (finish_pass d c pass e).2.1.recovery_passes_complete =
        c.recovery_passes_complete &&& not_u64 (shl_u64 ALL_ONES_ULL c.curr_recovery_pass) ∧
      (finish_pass d c pass e).2.1.curr_recovery_pass = c.next_recovery_pass ∧
      (finish_pass d c pass e).2.1.recovery_pass_done = c.recovery_pass_done) ∨
    (¬ c.next_recovery_pass < c.curr_recovery_pass ∧
      (finish_pass d c pass e).2.1.recovery_passes_complete =
        c.recovery_passes_complete ||| BIT_ULL pass ∧
      (finish_pass d c pass e).2.1.curr_recovery_pass = c.next_recovery_pass ∧
      (finish_pass d c pass e).2.1.recovery_pass_done = max c.recovery_pass_done pass) := by
  obtain ⟨F, R, h⟩ := finish_pass_frame d c pass e
  rw [h]
  unfold post_pass
  simp only []
  by_cases hlt : c.next_recovery_pass < c.curr_recovery_pass
  · left; rw [if_pos hlt]; exact ⟨hlt, rfl, rfl, rfl⟩
  · right; rw [if_neg hlt]; exact ⟨hlt, rfl, rfl, rfl⟩

theorem complete_inv_step (d : Decls) (s t : sys) (h : step d s t) (hi : complete_inv s) :
    complete_inv t := by
  obtain ⟨i1, i2, i3⟩ := hi
  cases h with
  | leave c _ =>
    refine ⟨i1, fun p hp => ?_, fun hpc => ?_⟩
    · cases hp
    · rcases hpc with hpc | ⟨p, hpc⟩ <;> cases hpc
  | arm c hc =>
    refine ⟨i1, fun p hp => ?_, fun _ => Or.inl rfl⟩
    cases hp
  | stop c _ =>
    refine ⟨i1, fun p hp => ?_, fun hpc => ?_⟩
    · cases hp
    · rcases hpc with hpc | ⟨p, hpc⟩ <;> cases hpc
  | skip c c1 hd =>
    have hc1 := iter_decide_skip d c c1 hd
    subst hc1
    refine ⟨fun p hp => ?_, fun p hp => ?_, fun hpc => ?_⟩
    · obtain ⟨a1, a2⟩ := i1 p hp
      have b1 : p < c.curr_recovery_pass := a1
      have b2 : p ≤ c.recovery_pass_done := a2
      refine ⟨?_, ?_⟩
      · show p < c.curr_recovery_pass + 1
        omega
      · show p ≤ max c.recovery_pass_done c.curr_recovery_pass
        exact Nat.le_trans b2 (Nat.le_max_left _ _)
    · cases hp
    · rcases hpc with hpc | ⟨p, hpc⟩ <;> cases hpc
  | start c pass hd =>
    refine ⟨i1, fun p hp => ?_, fun _ => i3 (Or.inl rfl)⟩
    cases hp
    exact iter_decide_run d c pass hd
  | finish c pass e =>
    have hp : pass = c.curr_recovery_pass := i2 pass rfl
    have h3 := i3 (Or.inr ⟨pass, rfl⟩)
    have h3a : c.next_recovery_pass = c.curr_recovery_pass + 1 ∨
        (c.next_recovery_pass < c.curr_recovery_pass ∧
          ∀ p, c.recovery_passes_complete.testBit p = true → p < c.next_recovery_pass) := h3
    have h1 : ∀ p, c.recovery_passes_complete.testBit p = true →
        p < c.curr_recovery_pass ∧ p ≤ c.recovery_pass_done := i1
    refine ⟨fun p hbit => ?_, fun p hp => ?_, fun hpc => ?_⟩
    · have hbit1 : (finish_pass d c pass e).2.1.recovery_passes_complete.testBit p = true := hbit
      show p < (finish_pass d c pass e).2.1.curr_recovery_pass ∧
        p ≤ (finish_pass d c pass e).2.1.recovery_pass_done
      rcases finish_pass_complete d c pass e with ⟨hlt, e1, e2, e3⟩ | ⟨hlt, e1, e2, e3⟩
      · rw [e1, Nat.testBit_and] at hbit1
        have hb := (Bool.and_eq_true_iff.1 hbit1).1
        rw [e2, e3]
        rcases h3a with g | ⟨_, g⟩
        · omega
        · exact ⟨g p hb, (h1 p hb).2⟩
      · rw [e1] at hbit1
        rw [e2, e3]
        have hnext : c.next_recovery_pass = c.curr_recovery_pass + 1 := by
          rcases h3a with g | ⟨g, _⟩
          · exact g
          · exact absurd g hlt
        rcases testBit_or_BIT_ULL_imp _ _ _ hbit1 with hb | hb
        · obtain ⟨a1, a2⟩ := h1 p hb
          exact ⟨by omega, Nat.le_trans a2 (Nat.le_max_left _ _)⟩
        · rw [hb]
          exact ⟨by omega, Nat.le_max_right _ _⟩
    · dsimp only at hp
      split_ifs at hp
    · dsimp only at hpc
      rcases hpc with hpc | ⟨p, hpc⟩ <;> split_ifs at hpc
  | request c pc pass =>
    have h1 : ∀ p, c.recovery_passes_complete.testBit p = true →
        p < c.curr_recovery_pass ∧ p ≤ c.recovery_pass_done := i1
    rcases rewind_cases d c pass with e | e | ⟨hlt, _, e⟩
    · rw [e]; exact ⟨i1, i2, i3⟩
    · rw [e]; exact ⟨i1, i2, i3⟩
    · rw [e]
      have hsub : ∀ p, (c.recovery_passes_complete &&& (shl_u64 1 pass >>> 1)).testBit p = true →
          c.recovery_passes_complete.testBit p = true ∧ p < pass := by
        intro p hbit
        rw [Nat.testBit_and] at hbit
        obtain ⟨b1, b2⟩ := Bool.and_eq_true_iff.1 hbit
        refine ⟨b1, ?_⟩
        by_contra hge
        rw [testBit_rewind_mask pass p (by omega)] at b2
        cases b2
      refine ⟨fun p hbit => h1 p (hsub p hbit).1, fun p hp => i2 p hp,
        fun _ => Or.inr ⟨hlt, fun p hbit => (hsub p hbit).2⟩⟩

theorem reachable_complete_inv (d : Decls) (s : sys) (h : reachable d s) : complete_inv s := by
  induction h with
  | init c hc =>
    refine ⟨fun p hp => ?_, fun p hp => ?_, fun hpc => ?_⟩
    · have hz : c.recovery_passes_complete = 0 := hc.2.2.1
      have hp1 : c.recovery_passes_complete.testBit p = true := hp
      rw [hz, Nat.zero_testBit] at hp1
      cases hp1
    · cases hp
    · rcases hpc with hpc | ⟨p, hpc⟩ <;> cases hpc
  | next s t _ hst ih => exact complete_inv_step d s t hst ih

/-- C35: in every state reached from a fresh context by the steps of the
main loop and by rewind requests (served at any point, during a pass
included), every ordinal whose bit is set in `recovery_passes_complete` is
below `curr_recovery_pass` and not above `recovery_pass_done`. -/
theorem completed_below_cursor_and_watermark (d : Decls) (s : sys) (p : Nat)
    (hs : reachable d s) (hp : s.c.recovery_passes_complete.testBit p = true) :
    p < s.c.curr_recovery_pass ∧ p ≤ s.c.recovery_pass_done :=
  (reachable_complete_inv d s hs).1 p hp

theorem completed_below_cursor_and_watermark_witness :
    (0 : Nat) < (finish_pass example_decls (iter_arm example_fs) 0
        pass_ok).2.1.curr_recovery_pass ∧
      0 ≤ (finish_pass example_decls (iter_arm example_fs) 0 pass_ok).2.1.recovery_pass_done :=
  completed_below_cursor_and_watermark example_decls
    ⟨(finish_pass example_decls (iter_arm example_fs) 0 pass_ok).2.1,
      if (finish_pass example_decls (iter_arm example_fs) 0 pass_ok).1 = 0 then loc.top
      else loc.exited (finish_pass example_decls (iter_arm example_fs) 0 pass_ok).1⟩ 0
    (reachable.next _ _
      (reachable.next _ _
        (reachable.next _ _
          (reachable.init example_fs (by decide))
          (step.arm example_fs (by decide)))
        (step.start (iter_arm example_fs) 0 (by decide)))
      (step.finish (iter_arm example_fs) 0 pass_ok))
    (by decide)

/-! ## A later rewind request and the next ordinal -/

/-- C34, as the code behaves: over `example_decls`, mounted with the option
`recovery_passes` naming the pass 4, rewinds to the ordinals 2 and 3 are
requested while the pass 4 runs, in this order.  Both are accepted (status
-2003); the first sets the next ordinal to 2, the second moves it forward to
3.  The run resumes at the pass 3: the calls of pass functions are 0, 4, 3,
4, 5, and the pass 2, which is in `opts.recovery_passes` by then, is never
called. -/
theorem later_rewind_moves_next_forward :
    (bch2_run_explicit_recovery_pass example_decls include_fs_at_pass 2).1 = -2003 ∧
    (rewinds example_decls include_fs_at_pass [2]).next_recovery_pass = 2 ∧
    (bch2_run_explicit_recovery_pass example_decls
      (rewinds example_decls include_fs_at_pass [2]) 3).1 = -2003 ∧
    (rewinds example_decls include_fs_at_pass [2, 3]).next_recovery_pass = 3 ∧
    bch2_run_recovery_passes example_decls 20
        [pass_ok, pass_rewinds_twice, pass_ok, pass_ok, pass_ok] include_fs =
      some (0,
        { include_fs with
          curr_recovery_pass := 6, next_recovery_pass := 6, recovery_passes_complete := 56,
          recovery_pass_done := 5, opts_recovery_passes := 28, flags := 8 },
        [event.print_pass 0, event.pass_fn 0, event.print_done, event.journal_flush,
          event.print_pass 4, event.pass_fn 4,
          event.print_pass 3, event.pass_fn 3, event.print_done, event.journal_flush,
          event.print_pass 4, event.pass_fn 4, event.print_done, event.journal_flush,
          event.pass_fn 5, event.fs_read_write_early, event.journal_flush]) := by
  refine ⟨by decide, by decide, by decide, by decide, ?_⟩
  decide!

/-! ## A run without rewind requests: theorems -/

theorem sequencer_spec_nil (d : Decls) (c0 : bch_fs) (env : List pass_exec) :
    sequencer_spec d c0 [] env = some (0, []) := by
  rw [sequencer_spec.eq_def]

theorem sequencer_spec_cons (d : Decls) (c0 : bch_fs) (p : Nat) (ps : List Nat)
    (env : List pass_exec) :
    sequencer_spec d c0 (p :: ps) env =
      if should_run_recovery_pass d c0 p = true then
        match env with
        | [] => none
        | e :: env1 =>
          if (run_and_flush d c0 p e).1 ≠ 0 then some ((run_and_flush d c0 p e).1, [p])
          else (sequencer_spec d c0 ps env1).map fun r => (r.1, p :: r.2)
      else sequencer_spec d c0 ps env := by
  rw [sequencer_spec.eq_def]

theorem should_run_same_options (d : Decls) (c c0 : bch_fs) (p : Nat)
    (h : c.same_options c0) :
    should_run_recovery_pass d c p = should_run_recovery_pass d c0 p := by
  obtain ⟨h1, h2, _, h4, _, h6, h7, _⟩ := h
  unfold should_run_recovery_pass
  rw [h1, h2, h4, h6, h7]

theorem bch2_set_may_go_rw_status_same_options (d : Decls) (c c0 : bch_fs) (r : Int)
    (h : c.same_options c0) :
    (bch2_set_may_go_rw d c r).1 = (bch2_set_may_go_rw d c0 r).1 := by
  obtain ⟨h1, _, _, h4, h5, h6, h7, h8⟩ := h
  unfold bch2_set_may_go_rw
  simp only []
  rw [h1, h4, h5, h6, h7, h8]
  split_ifs <;> rfl

theorem call_fn_status_same_options (d : Decls) (c c0 : bch_fs) (p : Nat) (e : pass_exec)
    (h : c.same_options c0) : (call_fn d c p e).1 = (call_fn d c0 p e).1 := by
  unfold call_fn
  simp only []
  by_cases hp : p = d.BCH_RECOVERY_PASS_set_may_go_rw
  · rw [if_pos hp, if_pos hp]
    apply bch2_set_may_go_rw_status_same_options
    split_ifs <;> exact h
  · rw [if_neg hp, if_neg hp]

theorem bch2_run_recovery_pass_status_eq (d : Decls) (c : bch_fs) (p : Nat) (e : pass_exec) :
    (bch2_run_recovery_pass d c p e).1 = (call_fn d c p e).1 := by
  unfold bch2_run_recovery_pass
  simp only []
  by_cases h0 : (call_fn d c p e).1 ≠ 0
  · rw [if_pos h0]
  · rw [if_neg h0]
    exact (not_not.1 h0).symm

/-- The status of the pass and the journal flush (line 334). -/
theorem run_and_flush_status (d : Decls) (c : bch_fs) (p : Nat) (e : pass_exec) :
    (run_and_flush d c p e).1 =
      if (call_fn d c p e).1 ≠ 0 then (call_fn d c p e).1 else e.flush_ret := by
  unfold run_and_flush
  simp only [bch2_run_recovery_pass_status_eq]
  split_ifs <;> rfl

theorem run_and_flush_status_same_options (d : Decls) (c c0 : bch_fs) (p : Nat)
    (e : pass_exec) (h : c.same_options c0) :
    (run_and_flush d c p e).1 = (run_and_flush d c0 p e).1 := by
  rw [run_and_flush_status, run_and_flush_status, call_fn_status_same_options d c c0 p e h]

theorem finish_pass_same_options (d : Decls) (c : bch_fs) (pass : Nat) (e : pass_exec) :
    (finish_pass d c pass e).2.1.same_options c := by
  obtain ⟨F, R, h⟩ := finish_pass_frame d c pass e
  rw [h]
  unfold post_pass
  simp only []
  split_ifs <;> exact ⟨rfl, rfl, rfl, rfl, rfl, rfl, rfl, rfl⟩

/-- The loop without rewind requests and without `recovery_pass_last` is the
run of the specification over the ordinals from the cursor on. -/
theorem plain_loop (d : Decls) (c0 : bch_fs) (h0 : c0.opts_recovery_pass_last = 0) :
    ∀ (n fuel : Nat) (env : List pass_exec) (c : bch_fs) (tr : List event),
      c.same_options c0 → ARRAY_SIZE_recovery_pass_fns d - c.curr_recovery_pass = n →
      n ≤ fuel → (∀ e ∈ env, e.rewinds = []) →
      (recovery_passes_loop d fuel env c 0 tr).map
          (fun r => (r.1, r.2.2.filter event.is_pass_fn)) =
        (sequencer_spec d c0 (List.range' c.curr_recovery_pass n) env).map
          (fun r => (r.1, tr.filter event.is_pass_fn ++ r.2.map event.pass_fn)) := by
  intro n
  induction n with
  | zero =>
    intro fuel env c tr _ hn _ _
    have hcond : ¬ (c.curr_recovery_pass < ARRAY_SIZE_recovery_pass_fns d ∧ (0 : Int) = 0) := by
      intro h
      have := h.1
      omega
    rw [loop_exit d fuel env c 0 tr hcond]
    simp [sequencer_spec_nil]
  | succ n ih =>
    intro fuel env c tr hso hn hfuel hno
    have hc : c.curr_recovery_pass < ARRAY_SIZE_recovery_pass_fns d := by omega
    obtain ⟨f, rfl⟩ : ∃ f, fuel = f + 1 := ⟨fuel - 1, by omega⟩
    have hlast : ¬ (c.opts_recovery_pass_last ≠ 0 ∧
        c.curr_recovery_pass > c.opts_recovery_pass_last) := by
      intro h
      exact h.1 (hso.2.2.1.trans h0)
    have hd := iter_decide_arm d c hlast
    have hrange : List.range' c.curr_recovery_pass (n + 1) =
        c.curr_recovery_pass :: List.range' (c.curr_recovery_pass + 1) n := rfl
    rw [hrange, sequencer_spec_cons]
    have hsel0 : should_run_recovery_pass d c0 c.curr_recovery_pass =
        should_run_recovery_pass d c c.curr_recovery_pass :=
      (should_run_same_options d c c0 _ hso).symm
    by_cases hs : should_run_recovery_pass d c c.curr_recovery_pass = true
    · rw [if_pos hs] at hd
      rw [if_pos (hsel0.trans hs)]
      cases env with
      | nil =>
        rw [loop_run_nil d f c c.curr_recovery_pass tr hc hd]
        rfl
      | cons e env =>
        have hts : e.rewinds = [] := hno e (List.mem_cons_self e env)
        have hno1 : ∀ e1 ∈ env, e1.rewinds = [] :=
          fun e1 h1 => hno e1 (List.mem_cons_of_mem e h1)
        have hrw : rewinds d (iter_arm c) e.rewinds = iter_arm c := by rw [hts]; rfl
        rw [loop_run d f e env c c.curr_recovery_pass tr hc hd, hrw]
        have hnl : ¬ (iter_arm c).next_recovery_pass < (iter_arm c).curr_recovery_pass := by
          show ¬ c.curr_recovery_pass + 1 < c.curr_recovery_pass
          omega
        have hst : (run_and_flush d (iter_arm c) c.curr_recovery_pass e).1 =
            (run_and_flush d c0 c.curr_recovery_pass e).1 :=
          run_and_flush_status_same_options d (iter_arm c) c0 _ e hso
        have hone := run_and_flush_one_fn d (iter_arm c) c.curr_recovery_pass e
        have hev : (finish_pass d (iter_arm c) c.curr_recovery_pass e).2.2 =
            (run_and_flush d (iter_arm c) c.curr_recovery_pass e).2.2 := rfl
        rcases finish_pass_outcome d (iter_arm c) c.curr_recovery_pass e with
          ⟨b1, _⟩ | ⟨_, b2, b3, _⟩
        · exact absurd b1 hnl
        · have b3a : (finish_pass d (iter_arm c) c.curr_recovery_pass e).2.1.curr_recovery_pass =
              c.curr_recovery_pass + 1 := b3
          rw [b2, hst]
          by_cases hfail : (run_and_flush d c0 c.curr_recovery_pass e).1 ≠ 0
          · have hcond : ¬ ((finish_pass d (iter_arm c) c.curr_recovery_pass
                e).2.1.curr_recovery_pass < ARRAY_SIZE_recovery_pass_fns d ∧
                (run_and_flush d c0 c.curr_recovery_pass e).1 = 0) := fun h => hfail h.2
            rw [loop_exit d f env _ _ _ hcond]
            simp only [if_pos hfail, Option.map_some', hev, List.filter_append, hone,
              List.map_cons, List.map_nil]
          · have hz : (run_and_flush d c0 c.curr_recovery_pass e).1 = 0 := not_not.1 hfail
            simp only [if_neg hfail]
            rw [hz]
            have hso1 : (finish_pass d (iter_arm c) c.curr_recovery_pass e).2.1.same_options
                c0 := by
              obtain ⟨a1, a2, a3, a4, a5, a6, a7, a8⟩ :=
                finish_pass_same_options d (iter_arm c) c.curr_recovery_pass e
              obtain ⟨q1, q2, q3, q4, q5, q6, q7, q8⟩ := hso
              exact ⟨a1.trans q1, a2.trans q2, a3.trans q3, a4.trans q4, a5.trans q5,
                a6.trans q6, a7.trans q7, a8.trans q8⟩
            have hih := ih f env (finish_pass d (iter_arm c) c.curr_recovery_pass e).2.1
              (tr ++ (finish_pass d (iter_arm c) c.curr_recovery_pass e).2.2) hso1
              (by rw [b3a]; omega) (by omega) hno1
            rw [hih, b3a, Option.map_map]
            congr 1
            funext r
            simp only [Function.comp, hev, List.filter_append, hone, List.map_cons,
              List.append_assoc, List.singleton_append]
    · rw [if_neg hs] at hd
      rw [if_neg (fun h => hs (hsel0.symm.trans h))]
      rw [loop_skip d f env c _ tr hc hd]
      exact ih f env _ tr hso (by show _ - (c.curr_recovery_pass + 1) = n; omega) (by omega) hno

/-- The ordinals a run of the specification invokes are an initial part of
the selected ordinals, all of them unless the status is nonzero. -/
theorem sequencer_spec_take (d : Decls) (c0 : bch_fs) :
    ∀ (ps : List Nat) (env : List pass_exec) (r : Int × List Nat),
      sequencer_spec d c0 ps env = some r →
      ∃ k, r.2 = (ps.filter (should_run_recovery_pass d c0)).take k ∧
        (r.1 ≠ 0 ∨ k = (ps.filter (should_run_recovery_pass d c0)).length) := by
  intro ps
  induction ps with
  | nil =>
    intro env r h
    rw [sequencer_spec_nil] at h
    cases h
    exact ⟨0, rfl, Or.inr rfl⟩
  | cons p ps ih =>
    intro env r h
    rw [sequencer_spec_cons] at h
    by_cases hs : should_run_recovery_pass d c0 p = true
    · rw [if_pos hs] at h
      simp only [List.filter_cons, hs, if_true]
      cases env with
      | nil => cases h
      | cons e env =>
        simp only [] at h
        by_cases hfail : (run_and_flush d c0 p e).1 ≠ 0
        · rw [if_pos hfail] at h
          cases h
          exact ⟨1, rfl, Or.inl hfail⟩
        · rw [if_neg hfail] at h
          cases hrec : sequencer_spec d c0 ps env with
          | none => rw [hrec] at h; cases h
          | some r1 =>
            rw [hrec] at h
            cases h
            obtain ⟨k, e1, e2⟩ := ih env r1 hrec
            refine ⟨k + 1, ?_, ?_⟩
            · show p :: r1.2 = _
              rw [e1]; rfl
            · rcases e2 with e2 | e2
              · exact Or.inl e2
              · right; simp only [List.length_cons]; omega
    · rw [if_neg hs] at h
      have hsf : should_run_recovery_pass d c0 p = false := by
        cases hv : should_run_recovery_pass d c0 p
        · rfl
        · exact absurd hv hs
      simp only [List.filter_cons, hsf, Bool.false_eq_true, if_false]
      exact ih env r h

/-- With a pass environment for every selected ordinal the run of the
specification returns. -/
theorem sequencer_spec_total (d : Decls) (c0 : bch_fs) :
    ∀ (ps : List Nat) (env : List pass_exec),
      (ps.filter (should_run_recovery_pass d c0)).length ≤ env.length →
      (sequencer_spec d c0 ps env).isSome = true := by
  intro ps
  induction ps with
  | nil =>
    intro env _
    rw [sequencer_spec_nil]; rfl
  | cons p ps ih =>
    intro env hlen
    rw [sequencer_spec_cons]
    by_cases hs : should_run_recovery_pass d c0 p = true
    · rw [if_pos hs]
      simp only [List.filter_cons, hs, if_true, List.length_cons] at hlen
      cases env with
      | nil => simp at hlen
      | cons e env =>
        simp only [List.length_cons] at hlen
        simp only []
        by_cases hfail : (run_and_flush d c0 p e).1 ≠ 0
        · rw [if_pos hfail]; rfl
        · rw [if_neg hfail, Option.isSome_map']
          exact ih env (by omega)
    · rw [if_neg hs]
      have hsf : should_run_recovery_pass d c0 p = false := by
        cases hv : should_run_recovery_pass d c0 p
        · rfl
        · exact absurd hv hs
      simp only [List.filter_cons, hsf, Bool.false_eq_true, if_false] at hlen
      exact ih env hlen

/-- C31: for the loop of `bch2_run_recovery_passes` entered in a context `c`
without `recovery_pass_last`, with passes that make no rewind request and
fuel for `N - s` iterations (`s` the cursor): status and calls of pass
functions are those of the run of the specification over the ordinals of
`[s, N)` (selected passes in order, ended by the first pass whose function
or journal flush fails); the ordinals called are strictly increasing,
without repetition, and an initial part of the ordinals of `[s, N)` that
`should_run_recovery_pass` selects in `c`, all of them unless the status is
nonzero; and with a pass environment for each selected ordinal the loop
returns within this fuel. -/
theorem plain_run_calls_selected_in_order (d : Decls) (fuel : Nat) (env : List pass_exec)
    (c : bch_fs) (hlast : c.opts_recovery_pass_last = 0)
    (hno : ∀ e ∈ env, e.rewinds = [])
    (hfuel : ARRAY_SIZE_recovery_pass_fns d - c.curr_recovery_pass ≤ fuel) :
    (recovery_passes_loop d fuel env c 0 []).map
        (fun r => (r.1, r.2.2.filter event.is_pass_fn)) =
      (sequencer_spec d c
        (List.range' c.curr_recovery_pass
          (ARRAY_SIZE_recovery_pass_fns d - c.curr_recovery_pass)) env).map
        (fun r => (r.1, r.2.map event.pass_fn)) ∧
    (∀ r, sequencer_spec d c
        (List.range' c.curr_recovery_pass
          (ARRAY_SIZE_recovery_pass_fns d - c.curr_recovery_pass)) env = some r →
      r.2.Pairwise (fun a b => a < b) ∧ r.2.Nodup ∧
      ∃ k, r.2 = ((List.range' c.curr_recovery_pass
            (ARRAY_SIZE_recovery_pass_fns d - c.curr_recovery_pass)).filter
            (should_run_recovery_pass d c)).take k ∧
        (r.1 ≠ 0 ∨ k = ((List.range' c.curr_recovery_pass
            (ARRAY_SIZE_recovery_pass_fns d - c.curr_recovery_pass)).filter
            (should_run_recovery_pass d c)).length)) ∧
    (((List.range' c.curr_recovery_pass
        (ARRAY_SIZE_recovery_pass_fns d - c.curr_recovery_pass)).filter
        (should_run_recovery_pass d c)).length ≤ env.length →
      (recovery_passes_loop d fuel env c 0 []).isSome = true) := by
  have hmain := plain_loop d c hlast _ fuel env c []
    ⟨rfl, rfl, rfl, rfl, rfl, rfl, rfl, rfl⟩ rfl hfuel hno
  have hmain1 : (recovery_passes_loop d fuel env c 0 []).map
        (fun r => (r.1, r.2.2.filter event.is_pass_fn)) =
      (sequencer_spec d c
        (List.range' c.curr_recovery_pass
          (ARRAY_SIZE_recovery_pass_fns d - c.curr_recovery_pass)) env).map
        (fun r => (r.1, r.2.map event.pass_fn)) := by
    rw [hmain]
    simp
  refine ⟨hmain1, fun r hr => ?_, fun hlen => ?_⟩
  · obtain ⟨k, e1, e2⟩ := sequencer_spec_take d c _ env r hr
    have hsub : r.2.Sublist (List.range' c.curr_recovery_pass
        (ARRAY_SIZE_recovery_pass_fns d - c.curr_recovery_pass)) := by
      rw [e1]
      exact (List.take_sublist _ _).trans (List.filter_sublist _)
    exact ⟨List.Pairwise.sublist hsub (List.pairwise_lt_range' _ _),
      List.Nodup.sublist hsub (List.nodup_range' _ _), k, e1, e2⟩
  · have h1 := sequencer_spec_total d c _ env hlen
    have h2 := congrArg Option.isSome hmain1
    rw [Option.isSome_map', Option.isSome_map'] at h2
    rw [h2]; exact h1

theorem plain_run_calls_selected_in_order_witness :
    (recovery_passes_loop example_decls 6 [pass_ok, pass_fails, pass_ok]
        { example_fs with opts_fsck := true } 0 []).map
        (fun r => (r.1, r.2.2.filter event.is_pass_fn)) =
      (sequencer_spec example_decls { example_fs with opts_fsck := true }
        (List.range' 0 6) [pass_ok, pass_fails, pass_ok]).map
        (fun r => (r.1, r.2.map event.pass_fn)) :=
  (plain_run_calls_selected_in_order example_decls 6 [pass_ok, pass_fails, pass_ok]
    { example_fs with opts_fsck := true } rfl (by decide) (by decide)).1

end RecoveryPasses
